import Mathlib

/-!
Shortcut-aware endpoint reflection (liqo fork): a shallow embedding.

The development embeds three Go source files:

* `pkg/utils/virtualkubelet/foreignclusterconnections.go`
  (`CidrInfo`, `GetAllCidrsByClusterName`, `IpBelongsToCIDR`,
  `GetClusterNameFromNamespace`, `RemapAddressUsingCidr`);
* `pkg/virtualKubelet/forge/endpointslices.go`
  (`EndpointToBeReflected`, `RemoteEndpointSliceEndpoints`,
  `RemoteEndpointTargetRef`, `RemoteShadowEndpointSlice`,
  `RemoteEndpointSliceObjectMeta`, `RemoteEndpointSlicePorts`);
* `pkg/liqo-controller-manager/offloading/shadowendpointslice-controller/mapping.go`
  (`MapEndpointsWithConfiguration`, `contains`).

Go strings are Lean `String`s, byte slices (`net.IP`, `net.IPMask`) are lists of
natural numbers below 256, `(value, error)` results are `Except String value`,
and nil-able pointers are `Option`s.  The Go standard library functions used by
the sources (`net.ParseIP`, `net.ParseCIDR`, `(*net.IPNet).Contains`,
`net.IP.To4`, `net.IP.String`, `strings.Join`) are embedded in sections of their
own, following the `net` / `net/netip` and `strings` packages.  Functions the sources receive or import from files
that are not embedded (the endpoint translator, `ipamips.MapAddress`, the node
lister, `forge.RemoteKind`) are parameters, and the results record the calls of
the translator and of the address mapper, so that what is and is not called can
be stated.
-/

deriving instance DecidableEq for Except

set_option linter.unusedVariables false

namespace Liqo

/-! ## Go standard library: `net` and `net/netip` -/

/-- Go `net.IP`: a slice of bytes (4 bytes for IPv4, 16 for IPv6). -/
abbrev IP := List Nat

/-- Go `net.IPMask`: a slice of bytes. -/
abbrev IPMask := List Nat

/-- Bitwise complement of a byte, Go `^b` on a `uint8`. -/
def notByte (b : Nat) : Nat := b ^^^ 255

/-- The byte test `'0' <= c && c <= '9'`. -/
def isDigit (c : Char) : Bool := decide (48 ≤ c.toNat) && decide (c.toNat ≤ 57)

/-- Loop of `netip.parseIPv4Fields`: `s` is what remains of the scanned text, `i`
the index of its first byte, `prev` the byte before it. The result is the
`fields` slice once the scan has succeeded, `none` on a parse error. -/
def parseIPv4FieldsLoop (fields : List Nat) (val pos digLen i : Nat) (prev : Char) :
    List Char → Option (List Nat)
  | [] => if pos < 3 then none else some (fields.set 3 (val % 256))
  | c :: rest =>
    if isDigit c then
      if digLen = 1 ∧ val = 0 then none
      else if val * 10 + (c.toNat - 48) > 255 then none
      else parseIPv4FieldsLoop fields (val * 10 + (c.toNat - 48)) pos (digLen + 1) (i + 1) c rest
    else if c = '.' then
      if i = 0 ∨ rest = [] ∨ prev = '.' then none
      else if pos = 3 then none
      else parseIPv4FieldsLoop (fields.set pos (val % 256)) 0 (pos + 1) 0 (i + 1) c rest
    else none

/-- Go `netip.parseIPv4Fields` on a fresh four-byte `fields` slice. -/
def parseIPv4Fields (s : List Char) : Option (List Nat) :=
  parseIPv4FieldsLoop [0, 0, 0, 0] 0 0 0 0 ' ' s

/-- Go `netip.Addr`, as far as parsing tells addresses apart: an IPv4 address
(`Is4`) or an IPv6 address with its zone. -/
inductive Addr where
  | v4 (b : List Nat)
  | v6 (b : List Nat) (zone : List Char)
  deriving DecidableEq, Repr

/-- The prefix `::ffff:0:0/96` of IPv4-mapped IPv6 addresses (`v4InV6Prefix`). -/
def v4InV6Prefix : List Nat := [0, 0, 0, 0, 0, 0, 0, 0, 0, 0, 255, 255]

/-- Go `Addr.As16`. -/
def Addr.As16 : Addr → List Nat
  | .v4 b => v4InV6Prefix ++ b
  | .v6 b _ => b

/-- Go `Addr.BitLen`. -/
def Addr.BitLen : Addr → Nat
  | .v4 _ => 32
  | .v6 _ _ => 128

/-- Go `Addr.Zone`. -/
def Addr.Zone : Addr → List Char
  | .v4 _ => []
  | .v6 _ z => z

/-- Value of a hexadecimal digit, `none` for any other byte. -/
def hexVal (c : Char) : Option Nat :=
  if 48 ≤ c.toNat ∧ c.toNat ≤ 57 then some (c.toNat - 48)
  else if 97 ≤ c.toNat ∧ c.toNat ≤ 102 then some (c.toNat - 97 + 10)
  else if 65 ≤ c.toNat ∧ c.toNat ≤ 70 then some (c.toNat - 65 + 10)
  else none

/-- Inner loop of `netip.parseIPv6` reading one hexadecimal group: the number of
digits read, the accumulated value, and the text left; `none` on a parse error. -/
def parseHexGroup : Nat → Nat → List Char → Option (Nat × Nat × List Char)
  | off, acc, [] => some (off, acc, [])
  | off, acc, c :: rest =>
    match hexVal c with
    | none => some (off, acc, c :: rest)
    | some d =>
      if off > 3 then none
      else if (acc * 16 + d) % 2 ^ 32 > 65535 then none
      else parseHexGroup (off + 1) ((acc * 16 + d) % 2 ^ 32) rest

/-- Writes the four bytes `f` at positions `i .. i+3` of `ip`. -/
def setFour (ip : List Nat) (i : Nat) (f : List Nat) : List Nat :=
  (((ip.set i (f.getD 0 0)).set (i + 1) (f.getD 1 0)).set (i + 2) (f.getD 2 0)).set (i + 3)
    (f.getD 3 0)

/-- End of `netip.parseIPv6`: the whole text must be used, and the ellipsis, when
there is one, is expanded to the missing zero bytes. -/
def parseIPv6Finish (ip : List Nat) (ellipsis : Option Nat) (i : Nat) (s zone : List Char) :
    Option Addr :=
  if s ≠ [] then none
  else if i < 16 then
    match ellipsis with
    | none => none
    | some e => some (.v6 (ip.take e ++ List.replicate (16 - i) 0 ++ (ip.drop e).take (i - e)) zone)
  else
    match ellipsis with
    | some _ => none
    | none => some (.v6 ip zone)

/-- Main loop of `netip.parseIPv6` (`for i < 16`); every round writes two bytes,
so eight rounds of `fuel` are enough. -/
def parseIPv6Loop : Nat → List Nat → Option Nat → Nat → List Char → List Char → Option Addr
  | 0, ip, ellipsis, i, s, zone => parseIPv6Finish ip ellipsis i s zone
  | fuel + 1, ip, ellipsis, i, s, zone =>
    if ¬ i < 16 then parseIPv6Finish ip ellipsis i s zone
    else
      match parseHexGroup 0 0 s with
      | none => none
      | some (off, acc, rest) =>
        if off = 0 then none
        else if rest.head? = some '.' then
          if ellipsis = none ∧ i ≠ 12 then none
          else if i + 4 > 16 then none
          else
            match parseIPv4Fields s with
            | none => none
            | some f => parseIPv6Finish (setFour ip i f) ellipsis (i + 4) [] zone
        else
          let ip1 := (ip.set i (acc / 256 % 256)).set (i + 1) (acc % 256)
          match rest with
          | [] => parseIPv6Finish ip1 ellipsis (i + 2) [] zone
          | c :: rest1 =>
            if c ≠ ':' then none
            else
              match rest1 with
              | [] => none
              | c1 :: rest2 =>
                if c1 = ':' then
                  if ellipsis ≠ none then none
                  else if rest2 = [] then parseIPv6Finish ip1 (some (i + 2)) (i + 2) [] zone
                  else parseIPv6Loop fuel ip1 (some (i + 2)) (i + 2) rest2 zone
                else parseIPv6Loop fuel ip1 ellipsis (i + 2) (c1 :: rest2) zone

/-- Splits a text at the first occurrence of the byte `c` (Go
`bytealg.IndexByteString` followed by slicing); `none` when `c` does not occur. -/
def splitAtByte (c : Char) : List Char → Option (List Char × List Char)
  | [] => none
  | x :: rest =>
    if x = c then some ([], rest)
    else
      match splitAtByte c rest with
      | none => none
      | some (l, r) => some (x :: l, r)

/-- Go `netip.parseIPv6`. -/
def parseIPv6 (inp : List Char) : Option Addr :=
  match splitAtByte '%' inp with
  | some (_, []) => none
  | some (s, zone) =>
    match s with
    | ':' :: ':' :: [] => some (.v6 (List.replicate 16 0) zone)
    | ':' :: ':' :: s1 => parseIPv6Loop 8 (List.replicate 16 0) (some 0) 0 s1 zone
    | _ => parseIPv6Loop 8 (List.replicate 16 0) none 0 s zone
  | none =>
    match inp with
    | ':' :: ':' :: [] => some (.v6 (List.replicate 16 0) [])
    | ':' :: ':' :: s1 => parseIPv6Loop 8 (List.replicate 16 0) (some 0) 0 s1 []
    | _ => parseIPv6Loop 8 (List.replicate 16 0) none 0 inp []

/-- Scan of `netip.ParseAddr`: the first of `.`, `:` and `%` in the text decides
how the whole text `s` is parsed. -/
def ParseAddrScan (s : List Char) : List Char → Option Addr
  | [] => none
  | c :: rest =>
    if c = '.' then (parseIPv4Fields s).map Addr.v4
    else if c = ':' then parseIPv6 s
    else if c = '%' then none
    else ParseAddrScan s rest

/-- Go `netip.ParseAddr`. -/
def ParseAddr (s : List Char) : Option Addr := ParseAddrScan s s

/-- Go `net.ParseIP`: the 16-byte form of the address, `none` for Go's `nil`. -/
def ParseIP (s : String) : Option IP :=
  match ParseAddr s.toList with
  | none => none
  | some a => if a.Zone ≠ [] then none else some a.As16

/-- Go `net.IP.To4`: the 4-byte form of an IPv4 address, `none` for `nil`. -/
def To4 (ip : IP) : Option IP :=
  if ip.length = 4 then some ip
  else if ip.length = 16 ∧ ip.take 10 = List.replicate 10 0 ∧ ip.getD 10 0 = 255 ∧
      ip.getD 11 0 = 255 then some (ip.drop 12)
  else none

/-- Go `net.dtoi`: decimal to integer, the number of bytes consumed, and whether
at least one digit was read without exceeding `big = 0xFFFFFF`. -/
def dtoiLoop : Nat → Nat → List Char → Nat × Nat × Bool
  | n, i, [] => if i = 0 then (0, 0, false) else (n, i, true)
  | n, i, c :: rest =>
    if isDigit c then
      if n * 10 + (c.toNat - 48) ≥ 16777215 then (16777215, i, false)
      else dtoiLoop (n * 10 + (c.toNat - 48)) (i + 1) rest
    else if i = 0 then (0, 0, false) else (n, i, true)

/-- Go `net.dtoi`. -/
def dtoi (s : List Char) : Nat × Nat × Bool := dtoiLoop 0 0 s

/-- Loop of Go `net.CIDRMask` over the `l` bytes of the mask, `n` ones left. -/
def CIDRMaskLoop : Nat → Nat → IPMask
  | 0, _ => []
  | l + 1, n =>
    if n ≥ 8 then 255 :: CIDRMaskLoop l (n - 8)
    else notByte (255 >>> n) :: CIDRMaskLoop l 0

/-- Go `net.CIDRMask(ones, bits)` for `bits` 32 or 128 and `ones ≤ bits`. -/
def CIDRMask (ones bits : Nat) : IPMask := CIDRMaskLoop (bits / 8) ones

/-- Go `net.IPNet`. -/
structure IPNet where
  IP : List Nat
  Mask : List Nat
  deriving DecidableEq, Repr

/-- Go `net.IP.Mask`. -/
def IPMaskApply (ip : IP) (mask : IPMask) : Option IP :=
  let mask1 := if mask.length = 16 ∧ ip.length = 4 ∧ mask.take 12 = List.replicate 12 255
    then mask.drop 12 else mask
  let ip1 := if mask1.length = 4 ∧ ip.length = 16 ∧ ip.take 12 = v4InV6Prefix
    then ip.drop 12 else ip
  if ip1.length ≠ mask1.length then none
  else some (List.zipWith (fun a m => a &&& m) ip1 mask1)

/-- Go `net.ParseCIDR`: the network of the CIDR, `none` when Go returns the
`ParseError` "invalid CIDR address". -/
def ParseCIDR (s : String) : Option IPNet :=
  match splitAtByte '/' s.toList with
  | none => none
  | some (addr, mask) =>
    match ParseAddr addr with
    | none => none
    | some ipAddr =>
      if ipAddr.Zone ≠ [] then none
      else
        match dtoi mask with
        | (n, i, ok) =>
          if ok = false ∨ i ≠ mask.length ∨ n > ipAddr.BitLen then none
          else
            match IPMaskApply ipAddr.As16 (CIDRMask n ipAddr.BitLen) with
            | none => none
            | some net => some ⟨net, CIDRMask n ipAddr.BitLen⟩

/-- Go `net.networkNumberAndMask`. -/
def networkNumberAndMask (n : IPNet) : Option (IP × IPMask) :=
  match To4 n.IP with
  | some ip =>
    if n.Mask.length = 4 then (if ip.length ≠ 4 then none else some (ip, n.Mask))
    else if n.Mask.length = 16 then
      (if ip.length = 4 then some (ip, n.Mask.drop 12) else some (ip, n.Mask))
    else none
  | none =>
    if n.IP.length ≠ 16 then none
    else if n.Mask.length = 4 then none
    else if n.Mask.length = 16 then some (n.IP, n.Mask)
    else none

/-- Go `(*net.IPNet).Contains`. -/
def IPNet.Contains (n : IPNet) (ip : List Nat) : Bool :=
  match networkNumberAndMask n with
  | none => false
  | some (nn, m) =>
    let ip1 := match To4 ip with
      | some x => x
      | none => ip
    if ip1.length ≠ nn.length then false
    else (List.range ip1.length).all
      (fun i => decide (nn.getD i 0 &&& m.getD i 0 = ip1.getD i 0 &&& m.getD i 0))

/-- Decimal digits of a byte, as `strconv.AppendUint(_, b, 10)` writes them. -/
def appendByte (b : Nat) : List Char :=
  if b ≥ 100 then
    [Char.ofNat (48 + b / 100), Char.ofNat (48 + b / 10 % 10), Char.ofNat (48 + b % 10)]
  else if b ≥ 10 then [Char.ofNat (48 + b / 10), Char.ofNat (48 + b % 10)]
  else [Char.ofNat (48 + b)]

/-- Go `net.IP.String` on a 4-byte address: dotted decimal notation. -/
def IPv4String (ip : IP) : String :=
  String.mk (appendByte (ip.getD 0 0) ++ ('.' :: (appendByte (ip.getD 1 0) ++
    ('.' :: (appendByte (ip.getD 2 0) ++ ('.' :: appendByte (ip.getD 3 0)))))))

/-! ## `pkg/utils/virtualkubelet/foreignclusterconnections.go` -/

/-- The Go struct `CidrInfo`: the CIDR used to detect a shortcut (`PodCIDR`) and
the CIDR used to remap the address (`ShortcutPodCIDR`). -/
structure CidrInfo where
  PodCIDR : String
  ShortcutPodCIDR : String
  deriving DecidableEq, Repr

/-- Go `IpBelongsToCIDR`: whether the address belongs to the CIDR, or an error. -/
def IpBelongsToCIDR (ipAddr : String) (cidrStr : String) : Except String Bool :=
  match ParseIP ipAddr with
  | none => .error ("invalid IP address: " ++ ipAddr)
  | some ip =>
    match ParseCIDR cidrStr with
    | none => .error ("invalid CIDR: " ++ cidrStr ++ " - invalid CIDR address: " ++ cidrStr)
    | some cidr => .ok (cidr.Contains ip)

/-- Go `RemapAddressUsingCidr`: the one-element list holding the remapped
address, or an error. -/
def RemapAddressUsingCidr (address : String) (cidr : String) : Except String (List String) :=
  match ParseIP address with
  | none => .error ("invalid IP address: " ++ address)
  | some ip0 =>
    match ParseCIDR cidr with
    | none => .error ("invalid CIDR: " ++ cidr ++ " - invalid CIDR address: " ++ cidr)
    | some ipNet =>
      match To4 ip0 with
      | none => .error "only IPv4 addresses are supported"
      | some ip =>
        match To4 ipNet.IP with
        | none => .error "only IPv4 CIDRs are supported"
        | some network =>
          let mask := ipNet.Mask
          let remapped := (List.range 4).map (fun i =>
            (network.getD i 0 &&& mask.getD i 0) ||| (ip.getD i 0 &&& notByte (mask.getD i 0)))
          .ok [IPv4String remapped]

/-- One side's networking status of a `ForeignClusterConnection` (type of the
`foreign_cluster_connector` API, of which the sources read these two fields). -/
structure ClusterNetworking where
  PodCIDR : String
  RemappedPodCIDR : String
  deriving DecidableEq, Repr

/-- A `ForeignClusterConnection` record, flattened to the fields the sources read:
`Spec.ForeignClusterA`, `Spec.ForeignClusterB`, `Status.ForeignClusterANetworking`
and `Status.ForeignClusterBNetworking`. -/
structure ForeignClusterConnection where
  Name : String
  ForeignClusterA : String
  ForeignClusterB : String
  ForeignClusterANetworking : ClusterNetworking
  ForeignClusterBNetworking : ClusterNetworking
  deriving DecidableEq, Repr

/-- The `for _, fcc := range list.Items` loop of `GetAllCidrsByClusterName`, with
the slice `cidrs` built so far. The `break` of the first branch leaves the loop. -/
def GetAllCidrsLoop (clusterName : String) :
    List ForeignClusterConnection → List CidrInfo → List CidrInfo
  | [], cidrs => cidrs
  | fcc :: rest, cidrs =>
    if fcc.ForeignClusterA = clusterName ∧ fcc.ForeignClusterANetworking.PodCIDR ≠ "" then
      cidrs ++ [⟨fcc.ForeignClusterANetworking.PodCIDR,
        fcc.ForeignClusterANetworking.RemappedPodCIDR⟩]
    else if fcc.ForeignClusterB = clusterName then
      if fcc.ForeignClusterBNetworking.PodCIDR ≠ "" then
        GetAllCidrsLoop clusterName rest (cidrs ++ [⟨fcc.ForeignClusterBNetworking.PodCIDR,
          fcc.ForeignClusterBNetworking.RemappedPodCIDR⟩])
      else GetAllCidrsLoop clusterName rest cidrs
    else GetAllCidrsLoop clusterName rest cidrs

/-- Go `GetAllCidrsByClusterName`; `list` is `none` for a nil pointer. -/
def GetAllCidrsByClusterName (list : Option (List ForeignClusterConnection))
    (clusterName : String) : Except String (List CidrInfo) :=
  match list with
  | none => .error "no ForeignClusterConnections found"
  | some items =>
    if items.length = 0 then .error "no ForeignClusterConnections found"
    else
      let cidrs := GetAllCidrsLoop clusterName items []
      if cidrs.length = 0 then .error ("no valid CIDRs found for cluster name: " ++ clusterName)
      else .ok cidrs

/-- Go `GetClusterNameFromNamespace`, as a function of the value of the
environment variable `POD_NAMESPACE`. -/
def GetClusterNameFromNamespace (podNamespace : String) : String :=
  if podNamespace ≠ "" ∧ podNamespace.utf8ByteSize > "liqo-tenant-".utf8ByteSize ∧
      "liqo-tenant-".toList <+: podNamespace.toList then
    String.mk (podNamespace.toList.drop "liqo-tenant-".length)
  else ""

/-! ## Go standard library: `strings` -/

/-- Go `strings.Join`. -/
def stringsJoin (elems : List String) (sep : String) : String :=
  match elems with
  | [] => ""
  | [e] => e
  | e :: rest => e ++ sep ++ stringsJoin rest sep

/-- The pieces of a text between the occurrences of the byte `sep`, as Go
`strings.Split` cuts them for a separator of one byte. -/
def splitByte (sep : Char) : List Char → List (List Char)
  | [] => [[]]
  | c :: rest =>
    if c = sep then [] :: splitByte sep rest
    else
      match splitByte sep rest with
      | [] => [[c]]
      | h :: t => (c :: h) :: t

/-- Go `strings.Split(s, sep)` for a separator `sep` of one byte. -/
def stringsSplit (s : String) (sep : Char) : List String :=
  (splitByte sep s.toList).map String.mk

/-! ## `pkg/virtualKubelet/forge/endpointslices.go` -/

/-- Kubernetes `corev1.ObjectReference`. -/
structure ObjectReference where
  Kind : String
  Namespace : String
  Name : String
  UID : String
  APIVersion : String
  ResourceVersion : String
  FieldPath : String
  deriving DecidableEq, Repr

/-- Kubernetes `discoveryv1.EndpointConditions`. -/
structure EndpointConditions where
  Ready : Option Bool
  Serving : Option Bool
  Terminating : Option Bool
  deriving DecidableEq, Repr

/-- Kubernetes `discoveryv1.Endpoint`; `Hints` holds the zone names of
`Hints.ForZones`. -/
structure Endpoint where
  Addresses : List String
  Conditions : EndpointConditions
  Hostname : Option String
  TargetRef : Option ObjectReference
  DeprecatedTopology : List (String × String)
  NodeName : Option String
  Zone : Option String
  Hints : Option (List String)
  deriving DecidableEq, Repr

/-- Kubernetes `corev1.Node`, as far as the sources read it. -/
structure Node where
  Name : String
  Labels : List (String × String)
  deriving DecidableEq, Repr

/-- Go `corev1listers.NodeLister`, through its method `Get`. -/
abbrev NodeLister := String → Except String Node

/-- Go `EndpointTranslator`. -/
abbrev EndpointTranslator := List String → List String

/-- Package-level values and helpers of liqo that `endpointslices.go` uses and
that are declared in other files: the variables `forge.RemoteCluster` and
`forge.LocalCluster`, the function `forge.RemoteKind` and the function
`getters.RetrieveRemoteClusterIDFromNode`. -/
structure ForgeEnv where
  RemoteCluster : String
  LocalCluster : String
  RemoteKind : String → String
  RetrieveRemoteClusterIDFromNode : Node → Except String String

/-- Go `EndpointToBeReflected`. -/
def EndpointToBeReflected (env : ForgeEnv) (endpoint : Endpoint)
    (localNodeClient : NodeLister) : Bool :=
  match endpoint.NodeName with
  | none => true
  | some nodeName =>
    match localNodeClient nodeName with
    | .error _ => false
    | .ok epNode =>
      match env.RetrieveRemoteClusterIDFromNode epNode with
      | .error _ => false
      | .ok epNodeClusterID => epNodeClusterID != env.RemoteCluster

/-- Go `RemoteEndpointTargetRef`. The Go function overwrites `ref.Kind` in the
object `ref` points to and returns the same pointer: the value given here is both
the new content of that object and the content of the returned pointer. -/
def RemoteEndpointTargetRef (env : ForgeEnv) (ref : Option ObjectReference) :
    Option ObjectReference :=
  match ref with
  | none => none
  | some r => some { r with Kind := env.RemoteKind r.Kind }

/-- State of the scan of one source endpoint in `RemoteEndpointSliceEndpoints`:
the endpoints it has appended to `remotes`, the addresses it has appended to
`shortcutAddresses`, the flag `shortcutFound`, and the current content of the
object that `local.TargetRef` points to. -/
structure ScanState where
  emitted : List Endpoint
  shortcutAddresses : List String
  shortcutFound : Bool
  targetRef : Option ObjectReference
  deriving DecidableEq, Repr

/-- The loop `for _, shortcutCIDR := range shortcutcidrs` of
`RemoteEndpointSliceEndpoints` for one `address` of the endpoint `loc` (Go `local`). -/
def cidrLoop (env : ForgeEnv) (loc : Endpoint) (conditions : EndpointConditions)
    (address : String) : List CidrInfo → ScanState → ScanState
  | [], st => st
  | shortcutCIDR :: rest, st =>
    match IpBelongsToCIDR address shortcutCIDR.PodCIDR with
    | .error _ => cidrLoop env loc conditions address rest st
    | .ok result =>
      if result then
        match RemapAddressUsingCidr address shortcutCIDR.ShortcutPodCIDR with
        | .error _ => cidrLoop env loc conditions address rest st
        | .ok remappedaddr =>
          { emitted := st.emitted ++ [{
              Addresses := remappedaddr
              Conditions := conditions
              Hostname := loc.Hostname
              TargetRef := RemoteEndpointTargetRef env st.targetRef
              DeprecatedTopology := []
              NodeName := some env.LocalCluster
              Zone := loc.Zone
              Hints := loc.Hints }]
            shortcutAddresses := st.shortcutAddresses ++ [remappedaddr.getD 0 ""]
            shortcutFound := true
            targetRef := RemoteEndpointTargetRef env st.targetRef }
      else cidrLoop env loc conditions address rest st

/-- The loop `for _, address := range local.Addresses`. -/
def addressLoop (env : ForgeEnv) (loc : Endpoint) (conditions : EndpointConditions)
    (shortcutcidrs : List CidrInfo) : List String → ScanState → ScanState
  | [], st => st
  | address :: rest, st =>
    addressLoop env loc conditions shortcutcidrs rest
      (cidrLoop env loc conditions address shortcutcidrs st)

/-- What `RemoteEndpointSliceEndpoints` returns, `remotes` and
`shortcutAddresses`, together with the record of the calls of `translator`: the
argument of each call, in call order. -/
structure ForgeResult where
  remotes : List Endpoint
  shortcutAddresses : List String
  translatorCalls : List (List String)
  deriving DecidableEq, Repr

/-- Body of the loop `for i := range locals` of `RemoteEndpointSliceEndpoints`.
Every endpoint emitted for one source endpoint holds the pointer
`local.TargetRef` of the copy of the source endpoint, so all of them show the
content that object has when the scan of the source endpoint ends. -/
def forgeStep (env : ForgeEnv) (localNodeClient : NodeLister) (translator : EndpointTranslator)
    (shortcutcidrs : List CidrInfo) (acc : ForgeResult) (src : Endpoint) : ForgeResult :=
  if EndpointToBeReflected env src localNodeClient = false then acc
  else
    let conditions : EndpointConditions := ⟨src.Conditions.Ready, none, none⟩
    let st := addressLoop env src conditions shortcutcidrs src.Addresses
      { emitted := [], shortcutAddresses := [], shortcutFound := false, targetRef := src.TargetRef }
    if st.shortcutFound then
      { remotes := acc.remotes ++ st.emitted.map (fun e => { e with TargetRef := st.targetRef })
        shortcutAddresses := acc.shortcutAddresses ++ st.shortcutAddresses
        translatorCalls := acc.translatorCalls }
    else
      { remotes := acc.remotes ++ st.emitted.map (fun e => { e with TargetRef := st.targetRef })
          ++ [{
            Addresses := translator src.Addresses
            Conditions := conditions
            Hostname := src.Hostname
            TargetRef := RemoteEndpointTargetRef env st.targetRef
            DeprecatedTopology := []
            NodeName := some env.LocalCluster
            Zone := src.Zone
            Hints := src.Hints }]
        shortcutAddresses := acc.shortcutAddresses ++ st.shortcutAddresses
        translatorCalls := acc.translatorCalls ++ [src.Addresses] }

/-- The value of the variable `shortcutcidrs` of `RemoteEndpointSliceEndpoints`:
`fcclist` is nil when `ListForeignClusterConnections` failed, and `shortcutcidrs`
is nil when `GetAllCidrsByClusterName` failed; both errors are only logged. -/
def shortcutcidrs (listResult : Except String (List ForeignClusterConnection))
    (clusterName : String) : List CidrInfo :=
  let fcclist := match listResult with
    | .ok l => some l
    | .error _ => none
  match GetAllCidrsByClusterName fcclist clusterName with
  | .ok c => c
  | .error _ => []

/-- Go `RemoteEndpointSliceEndpoints`. Besides the Go parameters it takes what the
Go function reads from its surroundings: the result `listResult` of
`vkutils.ListForeignClusterConnections` and the package variable `clusterName`. -/
def RemoteEndpointSliceEndpoints (env : ForgeEnv) (locals : List Endpoint)
    (localNodeClient : NodeLister) (translator : EndpointTranslator)
    (listResult : Except String (List ForeignClusterConnection)) (clusterName : String) :
    ForgeResult :=
  locals.foldl (forgeStep env localNodeClient translator (shortcutcidrs listResult clusterName))
    { remotes := [], shortcutAddresses := [], translatorCalls := [] }

/-- A Go `map[string]string`, as the list of its entries; a key is looked up with
`List.lookup`. -/
abbrev StringMap := List (String × String)

/-- The Go assignment `m[key] = value` on a map. -/
def mapSet (m : StringMap) (key value : String) : StringMap :=
  (key, value) :: m.filter (fun e => e.1 ≠ key)

/-- Go `labels.Merge` of `k8s.io/apimachinery`: the entries of `labels1`, then
those of `labels2`, written into a new map. -/
def labelsMerge (labels1 labels2 : StringMap) : StringMap :=
  labels2.foldl (fun m e => mapSet m e.1 e.2) (labels1.foldl (fun m e => mapSet m e.1 e.2) [])

/-- Kubernetes `metav1.ObjectMeta`, as far as the sources read and write it. -/
structure ObjectMeta where
  Name : String
  Namespace : String
  Labels : StringMap
  Annotations : StringMap
  deriving DecidableEq, Repr

/-- Kubernetes `discoveryv1.EndpointPort`. -/
structure EndpointPort where
  Name : Option String
  Protocol : Option String
  Port : Option Nat
  AppProtocol : Option String
  deriving DecidableEq, Repr

/-- Kubernetes `discoveryv1.EndpointSlice`. -/
structure EndpointSlice where
  ObjectMeta : ObjectMeta
  AddressType : String
  Endpoints : List Endpoint
  Ports : List EndpointPort
  deriving DecidableEq, Repr

/-- The liqo type `ShadowEndpointSlice`, with the fields of `Spec.Template`. -/
structure ShadowEndpointSlice where
  ObjectMeta : ObjectMeta
  AddressType : String
  Endpoints : List Endpoint
  Ports : List EndpointPort
  deriving DecidableEq, Repr

/-- The liqo type `ForgingOpts`, as far as `endpointslices.go` reads it. -/
structure ForgingOpts where
  LabelsNotReflected : List String
  AnnotationsNotReflected : List String
  deriving DecidableEq, Repr

/-- Functions of the package `forge` that `RemoteEndpointSliceObjectMeta` calls and
that are declared in other files: `RemoteObjectMeta` and `FilterNotReflected`. -/
structure MetaEnv where
  RemoteObjectMeta : ObjectMeta → ObjectMeta → ObjectMeta
  FilterNotReflected : StringMap → List String → StringMap

/-- Go `EndpointSliceManagedBy`. -/
def EndpointSliceManagedBy : String := "endpointslice.reflection.liqo.io"

/-- Go `EndpointSliceLabels`; the key is `discoveryv1.LabelManagedBy`. -/
def EndpointSliceLabels : StringMap :=
  [("endpointslice.kubernetes.io/managed-by", EndpointSliceManagedBy)]

/-- Go `RemoteEndpointSliceObjectMeta`. -/
def RemoteEndpointSliceObjectMeta (menv : MetaEnv) (loc remote : ObjectMeta)
    (forgingOpts : ForgingOpts) : ObjectMeta :=
  let objectMeta := menv.RemoteObjectMeta loc remote
  let objectMeta1 := { objectMeta with Labels := labelsMerge objectMeta.Labels EndpointSliceLabels }
  let objectMeta2 := { objectMeta1 with
    Labels := menv.FilterNotReflected objectMeta1.Labels forgingOpts.LabelsNotReflected }
  { objectMeta2 with
    Annotations := menv.FilterNotReflected objectMeta2.Annotations
      forgingOpts.AnnotationsNotReflected }

/-- Go `RemoteEndpointSlicePorts`. -/
def RemoteEndpointSlicePorts (locals : List EndpointPort) : List EndpointPort :=
  locals.map (fun l => l)

/-- Go `RemoteShadowEndpointSlice`; `remote` is `none` for a nil pointer. As for
`RemoteEndpointSliceEndpoints`, the result of the listing of the connections and
the package variable `clusterName` are parameters. -/
def RemoteShadowEndpointSlice (env : ForgeEnv) (menv : MetaEnv) (loc : EndpointSlice)
    (remote : Option ShadowEndpointSlice) (localNodeClient : NodeLister)
    (targetNamespace : String) (translator : EndpointTranslator) (forgingOpts : ForgingOpts)
    (listResult : Except String (List ForeignClusterConnection)) (clusterName : String) :
    ShadowEndpointSlice :=
  let remote1 : ShadowEndpointSlice := match remote with
    | some r => r
    | none => ⟨⟨loc.ObjectMeta.Name, targetNamespace, [], []⟩, "", [], []⟩
  let forged := RemoteEndpointSliceEndpoints env loc.Endpoints localNodeClient translator
    listResult clusterName
  let objMeta := RemoteEndpointSliceObjectMeta menv loc.ObjectMeta remote1.ObjectMeta forgingOpts
  let objMeta1 :=
    if forged.shortcutAddresses.length > 0 then
      { objMeta with
        Labels := mapSet objMeta.Labels "liqo.io/shortcut-addresses"
          (stringsJoin forged.shortcutAddresses ",") }
    else objMeta
  { ObjectMeta := objMeta1
    AddressType := loc.AddressType
    Endpoints := forged.remotes
    Ports := RemoteEndpointSlicePorts loc.Ports }

/-! ## `shadowendpointslice-controller/mapping.go` -/

/-- Go `contains`. -/
def contains (slice : List String) (str : String) : Bool :=
  match slice with
  | [] => false
  | s :: rest => if s = str then true else contains rest str

/-- How a run of `MapEndpointsWithConfiguration` ends: it returns `nil`, it returns
an error, or it stops on a nil pointer dereference. -/
inductive Outcome where
  | ok
  | error (msg : String)
  | nilDereference
  deriving DecidableEq, Repr

/-- Result of a run of `MapEndpointsWithConfiguration`: the endpoints as the run
leaves them (the function writes the addresses in place), how it ended, and the
record of the calls of `ipamips.MapAddress`: the address given to each call, in
call order. -/
structure MapResult where
  endpoints : List Endpoint
  outcome : Outcome
  mapperCalls : List String
  deriving DecidableEq, Repr

/-- The loop `for j := range endpoints[i].Addresses` for one endpoint, whose
`TargetRef` is `targetRef`: the addresses as the loop leaves them, whether the run
goes on (`Outcome.ok`) or how it stops, and the calls of the mapper. The
arguments of the log call of the skip branch are evaluated before the call, among
them `endpoints[i].TargetRef.Name`. -/
def mapAddressLoop (mapAddress : String → Except String String) (shortcutAddresses : List String)
    (targetRef : Option ObjectReference) : List String → List String × Outcome × List String
  | [] => ([], .ok, [])
  | addr :: rest =>
    if contains shortcutAddresses addr then
      match targetRef with
      | none => (addr :: rest, .nilDereference, [])
      | some _ =>
        match mapAddressLoop mapAddress shortcutAddresses targetRef rest with
        | (out, o, calls) => (addr :: out, o, calls)
    else
      match mapAddress addr with
      | .error e => (addr :: rest, .error e, [addr])
      | .ok rAddr =>
        match mapAddressLoop mapAddress shortcutAddresses targetRef rest with
        | (out, o, calls) => (rAddr :: out, o, addr :: calls)

/-- The loop `for i := range endpoints` of `MapEndpointsWithConfiguration`. -/
def mapEndpointLoop (mapAddress : String → Except String String)
    (shortcutAddresses : List String) : List Endpoint → MapResult
  | [] => { endpoints := [], outcome := .ok, mapperCalls := [] }
  | ep :: rest =>
    match mapAddressLoop mapAddress shortcutAddresses ep.TargetRef ep.Addresses with
    | (out, .ok, calls) =>
      match mapEndpointLoop mapAddress shortcutAddresses rest with
      | r => { endpoints := { ep with Addresses := out } :: r.endpoints, outcome := r.outcome,
               mapperCalls := calls ++ r.mapperCalls }
    | (out, o, calls) =>
      { endpoints := { ep with Addresses := out } :: rest, outcome := o, mapperCalls := calls }

/-- Go `MapEndpointsWithConfiguration`. The parameters `ctx`, `cl` and `clusterID`
are only passed on to `ipamips.MapAddress`, which is the function `mapAddress`. -/
def MapEndpointsWithConfiguration (mapAddress : String → Except String String)
    (endpoints : List Endpoint) (shortcutAddresses : List String) : MapResult :=
  mapEndpointLoop mapAddress shortcutAddresses endpoints

/-! ## Notions used to state the properties -/

/-- Whether a text is an IPv4 address in dotted decimal notation: `netip.ParseAddr`
accepts it as an `Is4` address. -/
def isIPv4Address (s : String) : Bool :=
  match ParseAddr s.toList with
  | some (.v4 _) => true
  | _ => false

/-- Whether a text is a well-formed IPv4 CIDR: `net.ParseCIDR` accepts it with a
4-byte mask. -/
def isIPv4CIDR (s : String) : Bool :=
  match ParseCIDR s with
  | some n => decide (n.Mask.length = 4)
  | none => false

/-- The 4-byte form of the address a text denotes, `ip.To4()` after
`net.ParseIP`, as `RemapAddressUsingCidr` computes it. -/
def addrBytes (s : String) : Option (List Nat) :=
  match ParseIP s with
  | none => none
  | some ip => To4 ip

/-- The host bits of an address under a mask: the bits outside the mask. -/
def hostBits (ip mask : List Nat) : List Nat :=
  List.zipWith (fun b m => b &&& notByte m) ip mask

/-- The prefix length a CIDR text states: the number after the slash, as
`net.ParseCIDR` reads it. -/
def prefixLength (s : String) : Option Nat :=
  match splitAtByte '/' s.toList with
  | none => none
  | some (_, mask) => some (dtoi mask).1

/-- The byte `RemapAddressUsingCidr` computes at one position, from the bytes of
the network, of the mask and of the address. -/
def remapByte (n m a : Nat) : Nat := (n &&& m) ||| (a &&& notByte m)

/-- Shortcut resolution of one address against the pairs, in the words of the
specification (`resolve`): the pairs are tried in order, a pair matches when its
`PodCIDR` contains the address and its `ShortcutPodCIDR` remaps it, an error of
either step counts as a non-match of that pair, and the first match gives the
remapped address. -/
def resolveShortcut (address : String) : List CidrInfo → Option (List String)
  | [] => none
  | c :: rest =>
    match IpBelongsToCIDR address c.PodCIDR with
    | .ok true =>
      match RemapAddressUsingCidr address c.ShortcutPodCIDR with
      | .ok remappedaddr => some remappedaddr
      | .error _ => resolveShortcut address rest
    | _ => resolveShortcut address rest

/-- The endpoint `RemoteEndpointSliceEndpoints` forges from the source endpoint
`src` with the addresses `addresses` and the target reference `ref`. -/
def forgedEndpoint (env : ForgeEnv) (src : Endpoint) (addresses : List String)
    (ref : Option ObjectReference) : Endpoint :=
  { Addresses := addresses
    Conditions := ⟨src.Conditions.Ready, none, none⟩
    Hostname := src.Hostname
    TargetRef := ref
    DeprecatedTopology := []
    NodeName := some env.LocalCluster
    Zone := src.Zone
    Hints := src.Hints }

/-- The endpoints the scan of one source endpoint appends for the remapped
addresses `matched`, as they are when they are appended: every one is built
after one more call of `RemoteEndpointTargetRef` on the object `ref`. -/
def emittedFrom (env : ForgeEnv) (src : Endpoint) (ref : Option ObjectReference) :
    List (List String) → List Endpoint
  | [] => []
  | r :: rest =>
    forgedEndpoint env src r (RemoteEndpointTargetRef env ref) ::
      emittedFrom env src (RemoteEndpointTargetRef env ref) rest

/-- The text of four bytes in dotted decimal notation. -/
def dotted (a b c d : Nat) : List Char :=
  appendByte a ++ ('.' :: (appendByte b ++ ('.' :: (appendByte c ++ ('.' :: appendByte d)))))

/-- A forging environment for the scenarios: `RemoteKind` prepends `Remote`, and the
cluster a node belongs to is read from its label `liqo.io/remote-cluster-id`. -/
def sampleEnv : ForgeEnv :=
  { RemoteCluster := "cluster-b"
    LocalCluster := "cluster-a"
    RemoteKind := fun k => "Remote" ++ k
    RetrieveRemoteClusterIDFromNode := fun n =>
      match n.Labels.lookup "liqo.io/remote-cluster-id" with
      | some v => .ok v
      | none => .error "cluster id label not found" }

/-- A node lister for the scenarios: `node-b` is a virtual node of `cluster-b`,
`node-c` a virtual node of `cluster-c`, `node-x` carries no cluster label. -/
def sampleNodes : NodeLister := fun name =>
  if name = "node-b" then .ok ⟨"node-b", [("liqo.io/remote-cluster-id", "cluster-b")]⟩
  else if name = "node-c" then .ok ⟨"node-c", [("liqo.io/remote-cluster-id", "cluster-c")]⟩
  else if name = "node-x" then .ok ⟨"node-x", []⟩
  else .error "node not found"

/-- A source endpoint for the scenarios, with the given addresses and node. -/
def sampleEndpoint (addresses : List String) (node : Option String) : Endpoint :=
  { Addresses := addresses
    Conditions := ⟨some true, some true, some false⟩
    Hostname := none
    TargetRef := some ⟨"Pod", "default", "web-0", "uid-0", "v1", "1", ""⟩
    DeprecatedTopology := []
    NodeName := node
    Zone := none
    Hints := none }

/-- The connection list of the scenarios: one shortcut, whose side A is
`cluster-b`, seen in `10.0.1.0/24` and remapped into `10.244.0.0/24`. -/
def sampleConnections : Except String (List ForeignClusterConnection) :=
  .ok [⟨"b-c", "cluster-b", "cluster-c", ⟨"10.0.1.0/24", "10.244.0.0/24"⟩, ⟨"", ""⟩⟩]

/-- An endpoint without target reference, as `RemoteEndpointSliceEndpoints` forges
it from a source endpoint that has none. -/
def bareEndpoint (addresses : List String) : Endpoint :=
  { Addresses := addresses
    Conditions := ⟨some true, none, none⟩
    Hostname := none
    TargetRef := none
    DeprecatedTopology := []
    NodeName := some "cluster-a"
    Zone := none
    Hints := none }

/-- The source endpoints of the hand-off scenario: the address of the first is
seen in the shortcut range `10.0.1.0/24`; the address of the second matches no
shortcut and equals the remapped address of the first. -/
def collidingEndpoints : List Endpoint :=
  [sampleEndpoint ["10.0.1.5"] none, sampleEndpoint ["10.244.0.5"] none]

/-- A connection list with two shortcuts that involve `cluster-b`, both on their
side A. -/
def twoShortcuts : List ForeignClusterConnection :=
  [⟨"b-c", "cluster-b", "cluster-c", ⟨"10.0.1.0/24", "10.244.0.0/24"⟩,
      ⟨"10.0.3.0/24", "10.246.0.0/24"⟩⟩,
   ⟨"b-d", "cluster-b", "cluster-d", ⟨"10.0.2.0/24", "10.245.0.0/24"⟩,
      ⟨"10.0.4.0/24", "10.247.0.0/24"⟩⟩]

/-- The connection list of the scenario with a malformed pair: the first record
gives `cluster-b` the observed range `10.0.1.0/24` with an empty remapped CIDR,
the second is the shortcut of `sampleConnections`. -/
def malformedConnections : Except String (List ForeignClusterConnection) :=
  .ok [⟨"d-b", "cluster-d", "cluster-b", ⟨"", ""⟩, ⟨"10.0.1.0/24", ""⟩⟩,
       ⟨"b-c", "cluster-b", "cluster-c", ⟨"10.0.1.0/24", "10.244.0.0/24"⟩, ⟨"", ""⟩⟩]

/-- Standard CIDR containment of an address in a CIDR, in the words of the
specification: prefix match over the 4-byte form, that is equality of address
and network under the mask. -/
def cidrContains (address : String) (cidr : String) : Bool :=
  match addrBytes address, ParseCIDR cidr with
  | some ab, some net =>
    decide (List.zipWith (fun b m => b &&& m) ab net.Mask =
      List.zipWith (fun b m => b &&& m) net.IP net.Mask)
  | _, _ => false

/-- The connection list of the scenario with overlapping observed ranges:
`cluster-b` is seen in `10.0.0.0/16`, remapped into `10.244.0.0/16`, by the first
record and in `10.0.1.0/24`, remapped into `10.245.0.0/24`, by the second. -/
def overlappingConnections : Except String (List ForeignClusterConnection) :=
  .ok [⟨"d-b", "cluster-d", "cluster-b", ⟨"", ""⟩, ⟨"10.0.0.0/16", "10.244.0.0/16"⟩⟩,
       ⟨"b-c", "cluster-b", "cluster-c", ⟨"10.0.1.0/24", "10.245.0.0/24"⟩, ⟨"", ""⟩⟩]

/-- What `MapEndpointsWithConfiguration` leaves at the place of an address it has
gone through without error: the address itself when it is in the shortcut list,
the mapped address `f y` otherwise. -/
def skipOrMap (S : List String) (f : String → String) (y : String) : String :=
  if contains S y then y else f y

/-- The dotted decimal text of the fields of `f` from the field `3 - n` on. -/
def dottedTail (f : List Nat) : Nat → List Char
  | 0 => appendByte (f.getD 3 0)
  | n + 1 => appendByte (f.getD (2 - n) 0) ++ ('.' :: dottedTail f n)

/-- The digits the IPv4 field loop has read of the current field. -/
def curDigits (digLen val : Nat) : List Char :=
  if digLen = 0 then [] else appendByte val

/-- The metadata `RemoteShadowEndpointSlice` hands to
`RemoteEndpointSliceObjectMeta` as `remote`: those of the remote object, or of a
new object when there is none. -/
def remoteMetaOrNew (loc : EndpointSlice) (remote : Option ShadowEndpointSlice)
    (targetNamespace : String) : ObjectMeta :=
  match remote with
  | some r => r.ObjectMeta
  | none => ⟨loc.ObjectMeta.Name, targetNamespace, [], []⟩

/-- Sample metadata helpers for the scenarios: the remote metadata take the
labels and annotations of the local ones, and `FilterNotReflected` drops the
listed keys. -/
def sampleMetaEnv : MetaEnv :=
  { RemoteObjectMeta := fun l r => ⟨r.Name, r.Namespace, l.Labels, l.Annotations⟩
    FilterNotReflected := fun m keys => m.filter (fun e => !keys.contains e.1) }

/-- Sample local endpoint slice for the scenarios, with the given endpoints. -/
def sampleSlice (endpoints : List Endpoint) : EndpointSlice :=
  { ObjectMeta := ⟨"web", "default", [("kubernetes.io/service-name", "web")], []⟩
    AddressType := "IPv4"
    Endpoints := endpoints
    Ports := [⟨some "http", some "TCP", some 80, none⟩] }

/-- Whether a text is a well-formed IPv6 address without zone: `netip.ParseAddr`
accepts it as an IPv6 address and its zone is empty (`net.ParseIP` and
`net.ParseCIDR` reject an address with a zone). -/
def isIPv6Address (s : String) : Bool :=
  match ParseAddr s.toList with
  | some (.v6 _ zone) => decide (zone = [])
  | _ => false

/-- Whether a text is an IPv4-mapped IPv6 address, such as `::ffff:10.0.1.5`: an
IPv6 address without zone whose first twelve bytes are those of `::ffff:0:0/96`. -/
def isIPv4MappedAddress (s : String) : Bool :=
  match ParseAddr s.toList with
  | some (.v6 b zone) => decide (zone = []) && decide (b.take 12 = v4InV6Prefix)
  | _ => false

/-- Whether a text is a well-formed IPv6 CIDR: `net.ParseCIDR` accepts it with a
16-byte mask. -/
def isIPv6CIDR (s : String) : Bool :=
  match ParseCIDR s with
  | some n => decide (n.Mask.length = 16)
  | none => false

/-- Whether a text is an IPv6 CIDR whose network address is IPv4-mapped, such as
`::ffff:10.244.0.0/120`: the first twelve bytes of the network are those of
`::ffff:0:0/96`. -/
def isIPv4MappedCIDR (s : String) : Bool :=
  match ParseCIDR s with
  | some n => decide (n.Mask.length = 16) && decide (n.IP.take 12 = v4InV6Prefix)
  | none => false

/-! ## Lemmas on bytes and on the parsers -/


theorem notByte_land_self (m : Nat) (hm : m < 256) : notByte m &&& m = 0 := by
  have h : m &&& 2 ^ 8 - 1 = m := Nat.and_pow_two_sub_one_of_lt_two_pow (by simpa using hm)
  have h2 : (255 : Nat) &&& m = m := by rw [Nat.and_comm]; simpa using h
  unfold notByte
  rw [Nat.and_xor_distrib_right, Nat.and_self, h2, Nat.xor_self]

theorem land_notByte_self (m : Nat) (hm : m < 256) : m &&& notByte m = 0 := by
  rw [Nat.and_comm]; exact notByte_land_self m hm

theorem notByte_lt (m : Nat) (hm : m < 256) : notByte m < 256 :=
  Nat.xor_lt_two_pow (n := 8) hm (by decide)

theorem remap_byte_land (n a m : Nat) (hm : m < 256) :
    ((n &&& m) ||| (a &&& notByte m)) &&& m = n &&& m := by
  rw [Nat.and_distrib_right, Nat.and_assoc, Nat.and_self, Nat.and_assoc,
    notByte_land_self m hm]
  simp

theorem remap_byte_host (n a m : Nat) (hm : m < 256) :
    ((n &&& m) ||| (a &&& notByte m)) &&& notByte m = a &&& notByte m := by
  rw [Nat.and_distrib_right, Nat.and_assoc, land_notByte_self m hm, Nat.and_assoc,
    Nat.and_self]
  simp

theorem remap_byte_lt (n a m : Nat) (hm : m < 256) :
    ((n &&& m) ||| (a &&& notByte m)) < 256 :=
  Nat.or_lt_two_pow (n := 8) (Nat.and_lt_two_pow n hm) (Nat.and_lt_two_pow a (notByte_lt m hm))


theorem parseIPv4FieldsLoop_length (s : List Char) :
    ∀ (fields : List Nat) (val pos digLen i : Nat) (prev : Char) (f : List Nat),
      parseIPv4FieldsLoop fields val pos digLen i prev s = some f → f.length = fields.length := by
  induction s with
  | nil =>
    intro fields val pos digLen i prev f h
    simp only [parseIPv4FieldsLoop] at h
    split at h
    · exact absurd h (by simp)
    · cases h; simp
  | cons c rest ih =>
    intro fields val pos digLen i prev f h
    simp only [parseIPv4FieldsLoop] at h
    split at h
    · split at h
      · exact absurd h (by simp)
      · split at h
        · exact absurd h (by simp)
        · exact ih _ _ _ _ _ _ _ h
    · split at h
      · split at h
        · exact absurd h (by simp)
        · split at h
          · exact absurd h (by simp)
          · rw [ih _ _ _ _ _ _ _ h]; simp
      · exact absurd h (by simp)

theorem parseIPv4Fields_length (s : List Char) (f : List Nat)
    (h : parseIPv4Fields s = some f) : f.length = 4 := by
  have := parseIPv4FieldsLoop_length s _ _ _ _ _ _ f h
  simpa using this

theorem parseIPv6Finish_not_v4 (ip : List Nat) (e : Option Nat) (i : Nat) (s zone : List Char)
    (b : List Nat) : parseIPv6Finish ip e i s zone ≠ some (.v4 b) := by
  unfold parseIPv6Finish
  split
  · simp
  · split
    · cases e <;> simp
    · cases e <;> simp

theorem parseIPv6Loop_not_v4 (fuel : Nat) :
    ∀ (ip : List Nat) (e : Option Nat) (i : Nat) (s zone : List Char) (b : List Nat),
      parseIPv6Loop fuel ip e i s zone ≠ some (.v4 b) := by
  induction fuel with
  | zero => intro ip e i s zone b; simpa [parseIPv6Loop] using parseIPv6Finish_not_v4 ip e i s zone b
  | succ n ih =>
    intro ip e i s zone b
    simp only [parseIPv6Loop]
    split
    · exact parseIPv6Finish_not_v4 _ _ _ _ _ _
    · split
      · simp
      · split
        · simp
        · split
          · split
            · simp
            · split
              · simp
              · split
                · simp
                · exact parseIPv6Finish_not_v4 _ _ _ _ _ _
          · split
            · exact parseIPv6Finish_not_v4 _ _ _ _ _ _
            · split
              · simp
              · split
                · simp
                · split
                  · split
                    · simp
                    · split
                      · exact parseIPv6Finish_not_v4 _ _ _ _ _ _
                      · exact ih _ _ _ _ _ _
                  · exact ih _ _ _ _ _ _

theorem parseIPv6_not_v4 (s : List Char) (b : List Nat) : parseIPv6 s ≠ some (.v4 b) := by
  unfold parseIPv6
  split
  · simp
  · split
    · simp
    · exact parseIPv6Loop_not_v4 _ _ _ _ _ _ _
    · exact parseIPv6Loop_not_v4 _ _ _ _ _ _ _
  · split
    · simp
    · exact parseIPv6Loop_not_v4 _ _ _ _ _ _ _
    · exact parseIPv6Loop_not_v4 _ _ _ _ _ _ _

theorem ParseAddrScan_v4 (s : List Char) (b : List Nat) :
    ∀ t : List Char, ParseAddrScan s t = some (.v4 b) → parseIPv4Fields s = some b := by
  intro t
  induction t with
  | nil => intro h; simp [ParseAddrScan] at h
  | cons c rest ih =>
    intro h
    simp only [ParseAddrScan] at h
    split at h
    · cases hp : parseIPv4Fields s with
      | none => rw [hp] at h; simp at h
      | some f => rw [hp] at h; simp at h; rw [h]
    · split at h
      · exact absurd h (parseIPv6_not_v4 s b)
      · split at h
        · exact absurd h (by simp)
        · exact ih h

theorem ParseAddr_v4_length (s : List Char) (b : List Nat)
    (h : ParseAddr s = some (.v4 b)) : b.length = 4 :=
  parseIPv4Fields_length s b (ParseAddrScan_v4 s b s h)


theorem digitChar_toNat (d : Nat) (hd : d < 10) : (Char.ofNat (48 + d)).toNat = 48 + d := by
  interval_cases d <;> rfl

theorem digitChar_isDigit (d : Nat) (hd : d < 10) : isDigit (Char.ofNat (48 + d)) = true := by
  interval_cases d <;> rfl

theorem digitChar_ne (d : Nat) (hd : d < 10) :
    Char.ofNat (48 + d) ≠ '.' ∧ Char.ofNat (48 + d) ≠ ':' ∧ Char.ofNat (48 + d) ≠ '%' := by
  interval_cases d <;> decide

/-- One digit read by the IPv4 field loop. -/
theorem parseIPv4FieldsLoop_digit (fields : List Nat) (val pos digLen i : Nat) (prev : Char)
    (d : Nat) (rest : List Char) (hd : d < 10) (h0 : ¬ (digLen = 1 ∧ val = 0))
    (hv : val * 10 + d ≤ 255) :
    parseIPv4FieldsLoop fields val pos digLen i prev (Char.ofNat (48 + d) :: rest) =
      parseIPv4FieldsLoop fields (val * 10 + d) pos (digLen + 1) (i + 1) (Char.ofNat (48 + d))
        rest := by
  rw [parseIPv4FieldsLoop]
  simp only [digitChar_isDigit d hd, digitChar_toNat d hd, if_true, Nat.add_sub_cancel_left]
  rw [if_neg h0, if_neg (by omega)]

/-- The digits of a byte, read by the IPv4 field loop from the start of a field. -/
theorem parseIPv4FieldsLoop_appendByte (b : Nat) (hb : b < 256) :
    ∃ (k : Nat) (c : Char), c ≠ '.' ∧
      ∀ (fields : List Nat) (pos i : Nat) (prev : Char) (rest : List Char),
        parseIPv4FieldsLoop fields 0 pos 0 i prev (appendByte b ++ rest) =
          parseIPv4FieldsLoop fields b pos (k + 1) (i + (k + 1)) c rest := by
  by_cases h100 : b ≥ 100
  · refine ⟨2, Char.ofNat (48 + b % 10), (digitChar_ne _ (by omega)).1, ?_⟩
    intro fields pos i prev rest
    simp only [appendByte, if_pos h100, List.cons_append, List.nil_append]
    rw [parseIPv4FieldsLoop_digit _ _ _ _ _ _ _ _ (by omega) (by omega) (by omega),
      parseIPv4FieldsLoop_digit _ _ _ _ _ _ _ _ (by omega) (by omega) (by omega),
      parseIPv4FieldsLoop_digit _ _ _ _ _ _ _ _ (by omega) (by omega) (by omega)]
    have : (0 * 10 + b / 100) * 10 + b / 10 % 10 = b / 10 := by omega
    have e : ((0 * 10 + b / 100) * 10 + b / 10 % 10) * 10 + b % 10 = b := by omega
    rw [e]
  · by_cases h10 : b ≥ 10
    · refine ⟨1, Char.ofNat (48 + b % 10), (digitChar_ne _ (by omega)).1, ?_⟩
      intro fields pos i prev rest
      simp only [appendByte, if_neg h100, if_pos h10, List.cons_append, List.nil_append]
      rw [parseIPv4FieldsLoop_digit _ _ _ _ _ _ _ _ (by omega) (by omega) (by omega),
        parseIPv4FieldsLoop_digit _ _ _ _ _ _ _ _ (by omega) (by omega) (by omega)]
      have e : (0 * 10 + b / 10) * 10 + b % 10 = b := by omega
      rw [e]
    · refine ⟨0, Char.ofNat (48 + b), (digitChar_ne _ (by omega)).1, ?_⟩
      intro fields pos i prev rest
      simp only [appendByte, if_neg h100, if_neg h10, List.cons_append, List.nil_append]
      rw [parseIPv4FieldsLoop_digit _ _ _ _ _ _ _ _ (by omega) (by omega) (by omega)]
      simp

theorem appendByte_ne_nil (b : Nat) : appendByte b ≠ [] := by
  unfold appendByte; split
  · simp
  · split <;> simp

/-- A dot read by the IPv4 field loop after a field. -/
theorem parseIPv4FieldsLoop_dot (fields : List Nat) (val pos digLen i : Nat) (prev : Char)
    (rest : List Char) (hi : i ≠ 0) (hr : rest ≠ []) (hp : prev ≠ '.') (hpos : pos ≠ 3) :
    parseIPv4FieldsLoop fields val pos digLen i prev ('.' :: rest) =
      parseIPv4FieldsLoop (fields.set pos (val % 256)) 0 (pos + 1) 0 (i + 1) '.' rest := by
  rw [parseIPv4FieldsLoop]
  have hnd : isDigit '.' = false := by rfl
  simp [hnd, hi, hr, hp, hpos]


theorem parseIPv4Fields_dotted (a b c d : Nat) (ha : a < 256) (hb : b < 256) (hc : c < 256)
    (hd : d < 256) : parseIPv4Fields (dotted a b c d) = some [a, b, c, d] := by
  obtain ⟨ka, ca, hca, Ha⟩ := parseIPv4FieldsLoop_appendByte a ha
  obtain ⟨kb, cb, hcb, Hb⟩ := parseIPv4FieldsLoop_appendByte b hb
  obtain ⟨kc, cc, hcc, Hc⟩ := parseIPv4FieldsLoop_appendByte c hc
  obtain ⟨kd, cd, hcd, Hd⟩ := parseIPv4FieldsLoop_appendByte d hd
  have nb := appendByte_ne_nil b
  have nc := appendByte_ne_nil c
  have nd := appendByte_ne_nil d
  unfold parseIPv4Fields dotted
  rw [Ha, parseIPv4FieldsLoop_dot _ _ _ _ _ _ _ (by omega) (by simp [nb]) hca (by omega),
    Hb, parseIPv4FieldsLoop_dot _ _ _ _ _ _ _ (by omega) (by simp [nc]) hcb (by omega),
    Hc, parseIPv4FieldsLoop_dot _ _ _ _ _ _ _ (by omega) (by simp [nd]) hcc (by omega)]
  have := Hd (([0, 0, 0, 0].set 0 (a % 256)).set (0 + 1) (b % 256) |>.set (0 + 1 + 1) (c % 256))
    (0 + 1 + 1 + 1) (0 + (ka + 1) + 1 + (kb + 1) + 1 + (kc + 1) + 1) '.' []
  rw [List.append_nil] at this
  rw [this]
  simp [parseIPv4FieldsLoop, Nat.mod_eq_of_lt ha, Nat.mod_eq_of_lt hb, Nat.mod_eq_of_lt hc,
    Nat.mod_eq_of_lt hd]

theorem ParseAddrScan_appendByte (s : List Char) (b : Nat) (hb : b < 256) (rest : List Char) :
    ParseAddrScan s (appendByte b ++ '.' :: rest) = (parseIPv4Fields s).map Addr.v4 := by
  have step : ∀ (d : Nat) (t : List Char), d < 10 →
      ParseAddrScan s (Char.ofNat (48 + d) :: t) = ParseAddrScan s t := by
    intro d t hd
    obtain ⟨h1, h2, h3⟩ := digitChar_ne d hd
    rw [ParseAddrScan]; simp [h1, h2, h3]
  have fin : ParseAddrScan s ('.' :: rest) = (parseIPv4Fields s).map Addr.v4 := by
    rw [ParseAddrScan]; simp
  unfold appendByte
  split
  · simp only [List.cons_append, List.nil_append]
    rw [step _ _ (by omega), step _ _ (by omega), step _ _ (by omega), fin]
  · split
    · simp only [List.cons_append, List.nil_append]
      rw [step _ _ (by omega), step _ _ (by omega), fin]
    · simp only [List.cons_append, List.nil_append]
      rw [step _ _ (by omega), fin]

theorem ParseAddr_dotted (a b c d : Nat) (ha : a < 256) (hb : b < 256) (hc : c < 256)
    (hd : d < 256) : ParseAddr (dotted a b c d) = some (.v4 [a, b, c, d]) := by
  unfold ParseAddr
  have : dotted a b c d =
      appendByte a ++ ('.' :: (appendByte b ++ ('.' :: (appendByte c ++ ('.' :: appendByte d))))) :=
    rfl
  rw [this, ParseAddrScan_appendByte _ a ha, ← this, parseIPv4Fields_dotted a b c d ha hb hc hd]
  rfl


theorem CIDRMaskLoop_length (l : Nat) : ∀ n, (CIDRMaskLoop l n).length = l := by
  induction l with
  | zero => intro n; rfl
  | succ l ih => intro n; rw [CIDRMaskLoop]; split <;> simp [ih]

theorem CIDRMaskLoop_lt (l : Nat) : ∀ n, ∀ x ∈ CIDRMaskLoop l n, x < 256 := by
  induction l with
  | zero => intro n x hx; simp [CIDRMaskLoop] at hx
  | succ l ih =>
    intro n x hx
    rw [CIDRMaskLoop] at hx
    split at hx
    · rcases List.mem_cons.1 hx with h | h
      · omega
      · exact ih _ _ h
    · rcases List.mem_cons.1 hx with h | h
      · rw [h]
        have hle : 255 >>> n ≤ 255 := by
          rw [Nat.shiftRight_eq_div_pow]; exact Nat.div_le_self _ _
        exact notByte_lt _ (by omega)
      · exact ih _ _ h

theorem length_four {α : Type} (l : List α) (h : l.length = 4) :
    ∃ a b c d, l = [a, b, c, d] := by
  match l, h with
  | [a, b, c, d], _ => exact ⟨a, b, c, d, rfl⟩

theorem CIDRMask_32 (n : Nat) :
    ∃ m0 m1 m2 m3, CIDRMask n 32 = [m0, m1, m2, m3] ∧ m0 < 256 ∧ m1 < 256 ∧ m2 < 256 ∧
      m3 < 256 := by
  have hl : (CIDRMask n 32).length = 4 := CIDRMaskLoop_length 4 n
  obtain ⟨m0, m1, m2, m3, h⟩ := length_four _ hl
  have hlt : ∀ x ∈ CIDRMask n 32, x < 256 := CIDRMaskLoop_lt 4 n
  rw [h] at hlt
  exact ⟨m0, m1, m2, m3, h, hlt m0 (by simp), hlt m1 (by simp), hlt m2 (by simp),
    hlt m3 (by simp)⟩

theorem To4_four (a b c d : Nat) : To4 [a, b, c, d] = some [a, b, c, d] := by
  simp [To4]

theorem To4_mapped (a b c d : Nat) : To4 (v4InV6Prefix ++ [a, b, c, d]) = some [a, b, c, d] := by
  simp [To4, v4InV6Prefix]

/-- Shape of what `ParseCIDR` returns for an IPv4 CIDR. -/
theorem ParseCIDR_v4 (c : String) (net : IPNet) (h : ParseCIDR c = some net)
    (h4 : net.Mask.length = 4) :
    ∃ b0 b1 b2 b3 m0 m1 m2 m3, m0 < 256 ∧ m1 < 256 ∧ m2 < 256 ∧ m3 < 256 ∧
      net = ⟨[b0 &&& m0, b1 &&& m1, b2 &&& m2, b3 &&& m3], [m0, m1, m2, m3]⟩ := by
  unfold ParseCIDR at h
  split at h
  · exact absurd h (by simp)
  · rename_i addr mask hs
    split at h
    · exact absurd h (by simp)
    · rename_i ipAddr hp
      split at h
      · exact absurd h (by simp)
      · split at h
        rename_i n i ok hd
        split at h
        · exact absurd h (by simp)
        · cases ipAddr with
          | v6 b z =>
            split at h
            · exact absurd h (by simp)
            · simp only [Option.some.injEq] at h
              rw [← h] at h4
              have : (CIDRMask n 128).length = 16 := CIDRMaskLoop_length 16 n
              simp only [Addr.BitLen] at h4
              omega
          | v4 b =>
            have hb := ParseAddr_v4_length addr b hp
            obtain ⟨b0, b1, b2, b3, rfl⟩ := length_four b hb
            obtain ⟨m0, m1, m2, m3, hm, h0, h1, h2, h3⟩ := CIDRMask_32 n
            simp only [Addr.BitLen, Addr.As16, hm, IPMaskApply, v4InV6Prefix] at h
            simp at h
            exact ⟨b0, b1, b2, b3, m0, m1, m2, m3, h0, h1, h2, h3, h.symm⟩




theorem IPv4String_toList (a b c d : Nat) : (IPv4String [a, b, c, d]).toList = dotted a b c d := by
  rfl

theorem ParseIP_of_v4 (s : String) (b : List Nat) (h : ParseAddr s.toList = some (.v4 b)) :
    ParseIP s = some (v4InV6Prefix ++ b) := by
  unfold ParseIP
  rw [h]
  simp [Addr.Zone, Addr.As16]

theorem isIPv4Address_iff (s : String) (h : isIPv4Address s = true) :
    ∃ a0 a1 a2 a3, ParseAddr s.toList = some (.v4 [a0, a1, a2, a3]) := by
  unfold isIPv4Address at h
  split at h
  · rename_i b hb
    obtain ⟨a0, a1, a2, a3, rfl⟩ := length_four b (ParseAddr_v4_length _ _ hb)
    exact ⟨a0, a1, a2, a3, hb⟩
  · exact absurd h (by simp)

theorem isIPv4CIDR_iff (c : String) (h : isIPv4CIDR c = true) :
    ∃ b0 b1 b2 b3 m0 m1 m2 m3, m0 < 256 ∧ m1 < 256 ∧ m2 < 256 ∧ m3 < 256 ∧
      ParseCIDR c = some ⟨[b0 &&& m0, b1 &&& m1, b2 &&& m2, b3 &&& m3], [m0, m1, m2, m3]⟩ := by
  unfold isIPv4CIDR at h
  split at h
  · rename_i n hn
    obtain ⟨b0, b1, b2, b3, m0, m1, m2, m3, h0, h1, h2, h3, e⟩ :=
      ParseCIDR_v4 c n hn (by simpa using h)
    exact ⟨b0, b1, b2, b3, m0, m1, m2, m3, h0, h1, h2, h3, by rw [hn, e]⟩
  · exact absurd h (by simp)


theorem RemapAddressUsingCidr_v4 (a c : String) (a0 a1 a2 a3 n0 n1 n2 n3 m0 m1 m2 m3 : Nat)
    (ha : ParseAddr a.toList = some (.v4 [a0, a1, a2, a3]))
    (hc : ParseCIDR c = some ⟨[n0, n1, n2, n3], [m0, m1, m2, m3]⟩) :
    RemapAddressUsingCidr a c = .ok [IPv4String [remapByte n0 m0 a0, remapByte n1 m1 a1,
      remapByte n2 m2 a2, remapByte n3 m3 a3]] := by
  unfold RemapAddressUsingCidr
  rw [ParseIP_of_v4 a _ ha, hc]
  simp only [To4_mapped, To4_four]
  rfl

theorem Contains_v4 (n0 n1 n2 n3 m0 m1 m2 m3 a0 a1 a2 a3 : Nat) :
    (IPNet.mk [n0, n1, n2, n3] [m0, m1, m2, m3]).Contains (v4InV6Prefix ++ [a0, a1, a2, a3]) =
      decide (n0 &&& m0 = a0 &&& m0 ∧ n1 &&& m1 = a1 &&& m1 ∧ n2 &&& m2 = a2 &&& m2 ∧
        n3 &&& m3 = a3 &&& m3) := by
  simp [IPNet.Contains, networkNumberAndMask, To4_mapped, To4_four, List.range, List.range.loop,
    List.all, Bool.decide_and]

theorem IpBelongsToCIDR_v4 (a c : String) (a0 a1 a2 a3 n0 n1 n2 n3 m0 m1 m2 m3 : Nat)
    (ha : ParseAddr a.toList = some (.v4 [a0, a1, a2, a3]))
    (hc : ParseCIDR c = some ⟨[n0, n1, n2, n3], [m0, m1, m2, m3]⟩) :
    IpBelongsToCIDR a c = .ok (decide (n0 &&& m0 = a0 &&& m0 ∧ n1 &&& m1 = a1 &&& m1 ∧
      n2 &&& m2 = a2 &&& m2 ∧ n3 &&& m3 = a3 &&& m3)) := by
  unfold IpBelongsToCIDR
  rw [ParseIP_of_v4 a _ ha, hc]
  simp only [Contains_v4]

theorem ParseAddr_IPv4String (a b c d : Nat) (ha : a < 256) (hb : b < 256) (hc : c < 256)
    (hd : d < 256) : ParseAddr (IPv4String [a, b, c, d]).toList = some (.v4 [a, b, c, d]) := by
  rw [IPv4String_toList]; exact ParseAddr_dotted a b c d ha hb hc hd

/-- The scan of the pairs for one address emits the endpoint of the first match. -/
theorem cidrLoop_eq (env : ForgeEnv) (loc : Endpoint)
    (address : String) (cidrs : List CidrInfo) (st : ScanState) :
    cidrLoop env loc ⟨loc.Conditions.Ready, none, none⟩ address cidrs st =
      match resolveShortcut address cidrs with
      | none => st
      | some remappedaddr =>
        { emitted := st.emitted ++
            [forgedEndpoint env loc remappedaddr (RemoteEndpointTargetRef env st.targetRef)]
          shortcutAddresses := st.shortcutAddresses ++ [remappedaddr.getD 0 ""]
          shortcutFound := true
          targetRef := RemoteEndpointTargetRef env st.targetRef } := by
  induction cidrs with
  | nil => simp [cidrLoop, resolveShortcut]
  | cons c rest ih =>
    rw [cidrLoop, resolveShortcut]
    cases h1 : IpBelongsToCIDR address c.PodCIDR with
    | error e => simpa using ih
    | ok result =>
      cases result with
      | false => simpa using ih
      | true =>
        cases h2 : RemapAddressUsingCidr address c.ShortcutPodCIDR with
        | error e => simpa using ih
        | ok r => simp [forgedEndpoint]

/-- What the scan of the addresses of one source endpoint leaves in its state. -/
theorem addressLoop_eq (env : ForgeEnv) (loc : Endpoint)
    (cidrs : List CidrInfo) (addrs : List String) :
    ∀ st : ScanState,
      addressLoop env loc ⟨loc.Conditions.Ready, none, none⟩ cidrs addrs st =
        { emitted := st.emitted ++
            emittedFrom env loc st.targetRef (addrs.filterMap (fun a => resolveShortcut a cidrs))
          shortcutAddresses := st.shortcutAddresses ++
            (addrs.filterMap (fun a => resolveShortcut a cidrs)).map (fun r => r.getD 0 "")
          shortcutFound := st.shortcutFound ||
            !(addrs.filterMap (fun a => resolveShortcut a cidrs)).isEmpty
          targetRef := (RemoteEndpointTargetRef env)^[(addrs.filterMap
            (fun a => resolveShortcut a cidrs)).length] st.targetRef } := by
  induction addrs with
  | nil => intro st; simp [addressLoop, emittedFrom]
  | cons a rest ih =>
    intro st
    rw [addressLoop, ih, cidrLoop_eq]
    cases hr : resolveShortcut a cidrs with
    | none => simp [List.filterMap_cons, hr]
    | some r => simp [List.filterMap_cons, hr, emittedFrom]

theorem emittedFrom_patch (env : ForgeEnv) (loc : Endpoint) (final : Option ObjectReference)
    (matched : List (List String)) :
    ∀ ref, (emittedFrom env loc ref matched).map (fun e => { e with TargetRef := final }) =
      matched.map (fun r => forgedEndpoint env loc r final) := by
  induction matched with
  | nil => intro ref; rfl
  | cons r rest ih => intro ref; simp [emittedFrom, ih, forgedEndpoint]

/-- The step of `RemoteEndpointSliceEndpoints` for one source endpoint. -/
theorem forgeStep_eq (env : ForgeEnv) (nodes : NodeLister) (translator : EndpointTranslator)
    (cidrs : List CidrInfo) (acc : ForgeResult) (src : Endpoint) :
    forgeStep env nodes translator cidrs acc src =
      if EndpointToBeReflected env src nodes = false then acc
      else if (src.Addresses.filterMap (fun a => resolveShortcut a cidrs)).isEmpty = false then
        { remotes := acc.remotes ++
            (src.Addresses.filterMap (fun a => resolveShortcut a cidrs)).map (fun r =>
              forgedEndpoint env src r ((RemoteEndpointTargetRef env)^[(src.Addresses.filterMap
                (fun a => resolveShortcut a cidrs)).length] src.TargetRef))
          shortcutAddresses := acc.shortcutAddresses ++
            (src.Addresses.filterMap (fun a => resolveShortcut a cidrs)).map
              (fun r => r.getD 0 "")
          translatorCalls := acc.translatorCalls }
      else
        { remotes := acc.remotes ++ [forgedEndpoint env src (translator src.Addresses)
            (RemoteEndpointTargetRef env src.TargetRef)]
          shortcutAddresses := acc.shortcutAddresses
          translatorCalls := acc.translatorCalls ++ [src.Addresses] } := by
  unfold forgeStep
  split
  · rfl
  · simp only [addressLoop_eq, List.nil_append, Bool.false_or, emittedFrom_patch]
    cases hm : src.Addresses.filterMap (fun a => resolveShortcut a cidrs) with
    | nil => simp [forgedEndpoint]
    | cons r rest => simp

theorem RemapAddressUsingCidr_singleton (a c : String) (l : List String)
    (h : RemapAddressUsingCidr a c = .ok l) : ∃ r, l = [r] := by
  unfold RemapAddressUsingCidr at h
  split at h
  · exact absurd h (by simp)
  · split at h
    · exact absurd h (by simp)
    · split at h
      · exact absurd h (by simp)
      · split at h
        · exact absurd h (by simp)
        · simp only [Except.ok.injEq] at h
          exact ⟨_, h.symm⟩

theorem resolveShortcut_singleton (a : String) (cidrs : List CidrInfo) (l : List String)
    (h : resolveShortcut a cidrs = some l) : ∃ r, l = [r] := by
  induction cidrs with
  | nil => simp [resolveShortcut] at h
  | cons c rest ih =>
    rw [resolveShortcut] at h
    split at h
    · split at h
      · rename_i r hr
        simp only [Option.some.injEq] at h
        subst h
        exact RemapAddressUsingCidr_singleton _ _ _ hr
      · exact ih h
    · exact ih h

theorem RemoteEndpointSliceEndpoints_append (env : ForgeEnv) (pre : List Endpoint) (src : Endpoint)
    (nodes : NodeLister) (translator : EndpointTranslator)
    (listResult : Except String (List ForeignClusterConnection)) (clusterName : String) :
    RemoteEndpointSliceEndpoints env (pre ++ [src]) nodes translator listResult clusterName =
      forgeStep env nodes translator (shortcutcidrs listResult clusterName)
        (RemoteEndpointSliceEndpoints env pre nodes translator listResult clusterName) src := by
  simp [RemoteEndpointSliceEndpoints, List.foldl_append]

theorem shortcutcidrs_error (e : String) (clusterName : String) :
    shortcutcidrs (.error e) clusterName = [] := by
  simp [shortcutcidrs, GetAllCidrsByClusterName]

theorem filterMap_resolve_nil_iff (addrs : List String) (cidrs : List CidrInfo) :
    addrs.filterMap (fun a => resolveShortcut a cidrs) = [] ↔
      ∀ a ∈ addrs, resolveShortcut a cidrs = none := by
  simp [List.filterMap_eq_nil_iff]

theorem resolveShortcut_nil (a : String) : resolveShortcut a [] = none := rfl

theorem contains_eq_true_iff (S : List String) (a : String) : contains S a = true ↔ a ∈ S := by
  induction S with
  | nil => simp [contains]
  | cons s rest ih =>
    rw [contains]
    by_cases h : s = a
    · simp [h]
    · simp [h, ih, Ne.symm h]

/-- The address loop of `MapEndpointsWithConfiguration` when the log call of the
skip branch cannot fail and the mapper succeeds on the addresses it is given. -/
theorem mapAddressLoop_ok (m : String → Except String String) (f : String → String)
    (S : List String) (ref : Option ObjectReference) (addrs : List String)
    (hT : ref ≠ none ∨ ∀ a ∈ addrs, contains S a = false)
    (hm : ∀ a ∈ addrs, contains S a = false → m a = .ok (f a)) :
    mapAddressLoop m S ref addrs =
      (addrs.map (fun a => if contains S a then a else f a), .ok,
        addrs.filter (fun a => !contains S a)) := by
  induction addrs with
  | nil => simp [mapAddressLoop]
  | cons a rest ih =>
    have ih1 := ih (by
      rcases hT with h | h
      · exact Or.inl h
      · exact Or.inr (fun x hx => h x (List.mem_cons_of_mem _ hx)))
      (fun x hx => hm x (List.mem_cons_of_mem _ hx))
    simp only [mapAddressLoop]
    cases hc : contains S a with
    | true =>
      cases ref with
      | none =>
        rcases hT with h | h
        · exact absurd rfl h
        · have := h a (List.mem_cons_self _ _)
          rw [hc] at this; exact absurd this (by simp)
      | some r => simp [ih1, hc]
    | false =>
      simp only [Bool.false_eq_true, if_false]
      rw [hm a (List.mem_cons_self _ _) hc]
      simp [ih1, hc]

/-- The endpoint loop of `MapEndpointsWithConfiguration` under the same conditions. -/
theorem mapEndpointLoop_ok (m : String → Except String String) (f : String → String)
    (S : List String) (endpoints : List Endpoint)
    (hT : ∀ ep ∈ endpoints, ep.TargetRef ≠ none ∨ ∀ a ∈ ep.Addresses, contains S a = false)
    (hm : ∀ ep ∈ endpoints, ∀ a ∈ ep.Addresses, contains S a = false → m a = .ok (f a)) :
    mapEndpointLoop m S endpoints =
      { endpoints := endpoints.map (fun ep =>
          { ep with Addresses := ep.Addresses.map (fun a => if contains S a then a else f a) })
        outcome := .ok
        mapperCalls := (endpoints.map (fun ep => ep.Addresses)).flatten.filter
          (fun a => !contains S a) } := by
  induction endpoints with
  | nil => simp [mapEndpointLoop]
  | cons ep rest ih =>
    have ih1 := ih (fun e he => hT e (List.mem_cons_of_mem _ he))
      (fun e he => hm e (List.mem_cons_of_mem _ he))
    rw [mapEndpointLoop, mapAddressLoop_ok m f S ep.TargetRef ep.Addresses
      (hT ep (List.mem_cons_self _ _)) (hm ep (List.mem_cons_self _ _))]
    simp [ih1]

theorem forgeStep_append (env : ForgeEnv) (nodes : NodeLister) (translator : EndpointTranslator)
    (cidrs : List CidrInfo) (acc : ForgeResult) (src : Endpoint) :
    forgeStep env nodes translator cidrs acc src =
      { remotes := acc.remotes ++ (forgeStep env nodes translator cidrs ⟨[], [], []⟩ src).remotes
        shortcutAddresses := acc.shortcutAddresses ++
          (forgeStep env nodes translator cidrs ⟨[], [], []⟩ src).shortcutAddresses
        translatorCalls := acc.translatorCalls ++
          (forgeStep env nodes translator cidrs ⟨[], [], []⟩ src).translatorCalls } := by
  rw [forgeStep_eq, forgeStep_eq]
  split
  · simp
  · split <;> simp

theorem foldl_forgeStep (env : ForgeEnv) (nodes : NodeLister) (translator : EndpointTranslator)
    (cidrs : List CidrInfo) (locals : List Endpoint) :
    ∀ acc : ForgeResult,
      locals.foldl (forgeStep env nodes translator cidrs) acc =
        { remotes := acc.remotes ++ (locals.map (fun src =>
            (forgeStep env nodes translator cidrs ⟨[], [], []⟩ src).remotes)).flatten
          shortcutAddresses := acc.shortcutAddresses ++ (locals.map (fun src =>
            (forgeStep env nodes translator cidrs ⟨[], [], []⟩ src).shortcutAddresses)).flatten
          translatorCalls := acc.translatorCalls ++ (locals.map (fun src =>
            (forgeStep env nodes translator cidrs ⟨[], [], []⟩ src).translatorCalls)).flatten } := by
  induction locals with
  | nil => intro acc; simp
  | cons src rest ih =>
    intro acc
    rw [List.foldl_cons, ih, forgeStep_append]
    simp

/-- The result of `RemoteEndpointSliceEndpoints` is the concatenation, in source
order, of what its loop body produces for each source endpoint. -/
theorem RemoteEndpointSliceEndpoints_flatten (env : ForgeEnv) (locals : List Endpoint)
    (nodes : NodeLister) (translator : EndpointTranslator)
    (listResult : Except String (List ForeignClusterConnection)) (clusterName : String) :
    RemoteEndpointSliceEndpoints env locals nodes translator listResult clusterName =
      { remotes := (locals.map (fun src => (forgeStep env nodes translator
          (shortcutcidrs listResult clusterName) ⟨[], [], []⟩ src).remotes)).flatten
        shortcutAddresses := (locals.map (fun src => (forgeStep env nodes translator
          (shortcutcidrs listResult clusterName) ⟨[], [], []⟩ src).shortcutAddresses)).flatten
        translatorCalls := (locals.map (fun src => (forgeStep env nodes translator
          (shortcutcidrs listResult clusterName) ⟨[], [], []⟩ src).translatorCalls)).flatten } := by
  unfold RemoteEndpointSliceEndpoints
  rw [foldl_forgeStep]
  simp

theorem RemoteEndpointTargetRef_ne_none (env : ForgeEnv) (ref : Option ObjectReference)
    (h : ref ≠ none) : RemoteEndpointTargetRef env ref ≠ none := by
  cases ref with
  | none => exact absurd rfl h
  | some r => simp [RemoteEndpointTargetRef]

theorem iterate_RemoteEndpointTargetRef_ne_none (env : ForgeEnv) (k : Nat) :
    ∀ ref : Option ObjectReference, ref ≠ none →
      (RemoteEndpointTargetRef env)^[k] ref ≠ none := by
  induction k with
  | zero => intro ref h; simpa using h
  | succ k ih =>
    intro ref h
    rw [Function.iterate_succ_apply]
    exact ih _ (RemoteEndpointTargetRef_ne_none env ref h)

/-- Every endpoint forged from a source endpoint with a target reference has one. -/
theorem forgeStep_targetRef_ne_none (env : ForgeEnv) (nodes : NodeLister)
    (translator : EndpointTranslator) (cidrs : List CidrInfo) (src : Endpoint)
    (h : src.TargetRef ≠ none) :
    ∀ ep ∈ (forgeStep env nodes translator cidrs ⟨[], [], []⟩ src).remotes,
      ep.TargetRef ≠ none := by
  intro ep hep
  rw [forgeStep_eq] at hep
  split at hep
  · simp at hep
  · split at hep
    · simp only [List.nil_append, List.mem_map] at hep
      obtain ⟨r, _, rfl⟩ := hep
      exact iterate_RemoteEndpointTargetRef_ne_none env _ _ h
    · simp only [List.nil_append, List.mem_singleton] at hep
      subst hep
      exact RemoteEndpointTargetRef_ne_none env _ h

/-- The remapped address of every matched address of a reflected source endpoint
is in the shortcut-address list the call returns. -/
theorem matched_mem_shortcutAddresses (env : ForgeEnv) (locals : List Endpoint)
    (nodes : NodeLister) (translator : EndpointTranslator)
    (listResult : Except String (List ForeignClusterConnection)) (clusterName : String)
    (src : Endpoint) (hsrc : src ∈ locals) (hrefl : EndpointToBeReflected env src nodes = true)
    (r : List String)
    (hr : r ∈ src.Addresses.filterMap
      (fun a => resolveShortcut a (shortcutcidrs listResult clusterName))) :
    ∃ x, r = [x] ∧ x ∈ (RemoteEndpointSliceEndpoints env locals nodes translator listResult
      clusterName).shortcutAddresses := by
  obtain ⟨a, _, ha⟩ := List.mem_filterMap.1 hr
  obtain ⟨x, rfl⟩ := resolveShortcut_singleton _ _ _ ha
  refine ⟨x, rfl, ?_⟩
  rw [RemoteEndpointSliceEndpoints_flatten]
  simp only [List.mem_flatten, List.mem_map]
  refine ⟨_, ⟨src, hsrc, rfl⟩, ?_⟩
  rw [forgeStep_eq, if_neg (by simp [hrefl])]
  have hne : (src.Addresses.filterMap
      (fun a => resolveShortcut a (shortcutcidrs listResult clusterName))).isEmpty = false := by
    cases hm : src.Addresses.filterMap
        (fun a => resolveShortcut a (shortcutcidrs listResult clusterName)) with
    | nil => rw [hm] at hr; simp at hr
    | cons r rest => rfl
  rw [if_pos hne]
  simp only [List.nil_append, List.mem_map]
  exact ⟨[x], hr, rfl⟩

/-- A pair whose `PodCIDR` or `ShortcutPodCIDR` is rejected by `net.ParseCIDR` never
resolves an address. -/
theorem resolveShortcut_skip_malformed (a : String) (p : CidrInfo) (rest : List CidrInfo)
    (hbad : ParseCIDR p.PodCIDR = none ∨ ParseCIDR p.ShortcutPodCIDR = none) :
    resolveShortcut a (p :: rest) = resolveShortcut a rest := by
  rw [resolveShortcut]
  rcases hbad with h | h
  · have : ∃ e, IpBelongsToCIDR a p.PodCIDR = .error e := by
      unfold IpBelongsToCIDR
      cases ParseIP a with
      | none => exact ⟨_, rfl⟩
      | some ip => simp [h]
    obtain ⟨e, he⟩ := this
    rw [he]
  · have : ∃ e, RemapAddressUsingCidr a p.ShortcutPodCIDR = .error e := by
      unfold RemapAddressUsingCidr
      cases ParseIP a with
      | none => exact ⟨_, rfl⟩
      | some ip => simp [h]
    obtain ⟨e, he⟩ := this
    rw [he]
    split <;> rfl

theorem resolveShortcut_remove_malformed (a : String) (p : CidrInfo) (l2 : List CidrInfo)
    (hbad : ParseCIDR p.PodCIDR = none ∨ ParseCIDR p.ShortcutPodCIDR = none) :
    ∀ l1 : List CidrInfo, resolveShortcut a (l1 ++ p :: l2) = resolveShortcut a (l1 ++ l2) := by
  intro l1
  induction l1 with
  | nil => exact resolveShortcut_skip_malformed a p l2 hbad
  | cons c rest ih =>
    rw [List.cons_append, List.cons_append, resolveShortcut, resolveShortcut, ih]

/-- The step for one source endpoint depends on the pair list only through the
resolution of the addresses. -/
theorem forgeStep_congr (env : ForgeEnv) (nodes : NodeLister) (translator : EndpointTranslator)
    (cidrs1 cidrs2 : List CidrInfo)
    (h : ∀ a, resolveShortcut a cidrs1 = resolveShortcut a cidrs2) :
    forgeStep env nodes translator cidrs1 = forgeStep env nodes translator cidrs2 := by
  funext acc src
  have e : (fun a => resolveShortcut a cidrs1) = (fun a => resolveShortcut a cidrs2) :=
    funext h
  rw [forgeStep_eq, forgeStep_eq, e]

/-- What one step appends for a source endpoint, field by field: every
appended endpoint is forged from the source endpoint. -/
theorem forgeStep_remotes_forged (env : ForgeEnv) (nodes : NodeLister)
    (translator : EndpointTranslator) (cidrs : List CidrInfo) (src : Endpoint) :
    ∀ e ∈ (forgeStep env nodes translator cidrs ⟨[], [], []⟩ src).remotes,
      ∃ addresses ref, e = forgedEndpoint env src addresses ref := by
  intro e he
  rw [forgeStep_eq] at he
  split at he
  · simp at he
  · split at he
    · simp only [List.nil_append, List.mem_map] at he
      obtain ⟨r, _, rfl⟩ := he
      exact ⟨_, _, rfl⟩
    · simp only [List.nil_append, List.mem_singleton] at he
      exact ⟨_, _, he⟩

theorem To4_none_length (ip : List Nat) (h : To4 ip = none) : ip.length ≠ 4 := by
  intro h4
  simp [To4, h4] at h

/-- An address that `IpBelongsToCIDR` finds in an IPv4 CIDR has a 4-byte form. -/
theorem addrBytes_of_belongs (a c : String) (hc : isIPv4CIDR c = true)
    (h : IpBelongsToCIDR a c = .ok true) : ∃ ip x, ParseIP a = some ip ∧ To4 ip = some x := by
  obtain ⟨b0, b1, b2, b3, m0, m1, m2, m3, _, _, _, _, hp⟩ := isIPv4CIDR_iff c hc
  unfold IpBelongsToCIDR at h
  cases hip : ParseIP a with
  | none => simp [hip] at h
  | some ip =>
    cases h4 : To4 ip with
    | some x => exact ⟨ip, x, rfl, h4⟩
    | none =>
      exfalso
      have hl := To4_none_length ip h4
      simp [hip, hp, IPNet.Contains, networkNumberAndMask, To4_four, h4, hl] at h

/-- With well-formed IPv4 CIDRs, an address found in the observed CIDR is always
remapped. -/
theorem RemapAddressUsingCidr_ok_of_belongs (a : String) (p : CidrInfo)
    (hpod : isIPv4CIDR p.PodCIDR = true) (hsc : isIPv4CIDR p.ShortcutPodCIDR = true)
    (h : IpBelongsToCIDR a p.PodCIDR = .ok true) :
    ∃ r, RemapAddressUsingCidr a p.ShortcutPodCIDR = .ok [r] := by
  obtain ⟨ip, x, hip, hx⟩ := addrBytes_of_belongs a _ hpod h
  obtain ⟨b0, b1, b2, b3, m0, m1, m2, m3, _, _, _, _, hp⟩ := isIPv4CIDR_iff _ hsc
  unfold RemapAddressUsingCidr
  simp only [hip, hp, hx, To4_four]
  exact ⟨_, rfl⟩

theorem resolveShortcut_skip (a : String) (q : CidrInfo) (rest : List CidrInfo)
    (h : IpBelongsToCIDR a q.PodCIDR ≠ .ok true) :
    resolveShortcut a (q :: rest) = resolveShortcut a rest := by
  rw [resolveShortcut]
  split
  · rename_i heq; exact absurd heq h
  · rfl

theorem resolveShortcut_none_of_no_pair (a : String) (cidrs : List CidrInfo)
    (h : ∀ q ∈ cidrs, IpBelongsToCIDR a q.PodCIDR ≠ .ok true) :
    resolveShortcut a cidrs = none := by
  induction cidrs with
  | nil => rfl
  | cons q rest ih =>
    rw [resolveShortcut_skip a q rest (h q (List.mem_cons_self _ _))]
    exact ih (fun x hx => h x (List.mem_cons_of_mem _ hx))

theorem resolveShortcut_first (a : String) (p : CidrInfo) (l2 : List CidrInfo) (r : List String)
    (hp : IpBelongsToCIDR a p.PodCIDR = .ok true)
    (hr : RemapAddressUsingCidr a p.ShortcutPodCIDR = .ok r) :
    ∀ l1 : List CidrInfo, (∀ q ∈ l1, IpBelongsToCIDR a q.PodCIDR ≠ .ok true) →
      resolveShortcut a (l1 ++ p :: l2) = some r := by
  intro l1
  induction l1 with
  | nil => intro _; simp [resolveShortcut, hp, hr]
  | cons q rest ih =>
    intro h
    rw [List.cons_append, resolveShortcut_skip a q _ (h q (List.mem_cons_self _ _))]
    exact ih (fun x hx => h x (List.mem_cons_of_mem _ hx))

/-- For an IPv4 address and an IPv4 CIDR, `IpBelongsToCIDR` returns no error and
tells standard CIDR containment. -/
theorem IpBelongsToCIDR_eq_cidrContains (a c : String) (ha : isIPv4Address a = true)
    (hc : isIPv4CIDR c = true) : IpBelongsToCIDR a c = .ok (cidrContains a c) := by
  obtain ⟨a0, a1, a2, a3, hpa⟩ := isIPv4Address_iff a ha
  obtain ⟨b0, b1, b2, b3, m0, m1, m2, m3, _, _, _, _, hp⟩ := isIPv4CIDR_iff c hc
  rw [IpBelongsToCIDR_v4 a c _ _ _ _ _ _ _ _ _ _ _ _ hpa hp]
  have hb : addrBytes a = some [a0, a1, a2, a3] := by
    simp only [addrBytes, ParseIP_of_v4 a _ hpa, To4_mapped]
  simp only [cidrContains, hb, hp, List.zipWith]
  congr 1
  rw [decide_eq_decide]
  simp only [List.cons.injEq, and_true, Nat.and_assoc, Nat.and_self]
  constructor
  · rintro ⟨h0, h1, h2, h3⟩; exact ⟨h0.symm, h1.symm, h2.symm, h3.symm⟩
  · rintro ⟨h0, h1, h2, h3⟩; exact ⟨h0.symm, h1.symm, h2.symm, h3.symm⟩

theorem iterate_RemoteEndpointTargetRef_some (env : ForgeEnv) (k : Nat) :
    ∀ t : ObjectReference, (RemoteEndpointTargetRef env)^[k] (some t) =
      some { t with Kind := env.RemoteKind^[k] t.Kind } := by
  induction k with
  | zero => intro t; rfl
  | succ k ih =>
    intro t
    rw [Function.iterate_succ_apply, Function.iterate_succ_apply]
    simp only [RemoteEndpointTargetRef]
    rw [ih]

/-- The target reference of the endpoints emitted for a reflected source endpoint:
`RemoteKind` is applied to the kind of the source once per matched address, and
once on the default path. -/
theorem forgeStep_targetRef_kind (env : ForgeEnv) (nodes : NodeLister)
    (translator : EndpointTranslator) (cidrs : List CidrInfo) (src : Endpoint)
    (t : ObjectReference) (ht : src.TargetRef = some t) :
    ∀ e ∈ (forgeStep env nodes translator cidrs ⟨[], [], []⟩ src).remotes,
      ∃ k, k = max 1 (src.Addresses.filterMap (fun a => resolveShortcut a cidrs)).length ∧
        e.TargetRef = some { t with Kind := env.RemoteKind^[k] t.Kind } := by
  intro e he
  refine ⟨_, rfl, ?_⟩
  rw [forgeStep_eq] at he
  split at he
  · simp at he
  · split at he
    · rename_i hne
      simp only [List.nil_append, List.mem_map] at he
      obtain ⟨r, hr, rfl⟩ := he
      have hpos : 1 ≤ (src.Addresses.filterMap (fun a => resolveShortcut a cidrs)).length :=
        List.length_pos.2 (List.ne_nil_of_mem hr)
      simp only [forgedEndpoint, ht, iterate_RemoteEndpointTargetRef_some, max_eq_right hpos]
    · rename_i hne
      simp only [List.nil_append, List.mem_singleton] at he
      subst he
      have hnil : src.Addresses.filterMap (fun a => resolveShortcut a cidrs) = [] := by
        cases hm : src.Addresses.filterMap (fun a => resolveShortcut a cidrs) with
        | nil => rfl
        | cons r rest => rw [hm] at hne; simp at hne
      simp [forgedEndpoint, ht, hnil, RemoteEndpointTargetRef]

/-- The address loop of `MapEndpointsWithConfiguration` when the mapper fails on
the address `a`, the first address outside the shortcut list on which it fails. -/
theorem mapAddressLoop_error (m : String → Except String String) (f : String → String)
    (S : List String) (ref : Option ObjectReference) (as1 as2 : List String) (a e : String)
    (hT : ref ≠ none ∨ ∀ y ∈ as1, contains S y = false)
    (hm : ∀ y ∈ as1, contains S y = false → m y = .ok (f y))
    (ha : contains S a = false) (hfail : m a = .error e) :
    mapAddressLoop m S ref (as1 ++ a :: as2) =
      (as1.map (skipOrMap S f) ++ a :: as2, .error e,
        as1.filter (fun y => !contains S y) ++ [a]) := by
  induction as1 with
  | nil => simp [mapAddressLoop, ha, hfail]
  | cons y rest ih =>
    have ih1 := ih (by
      rcases hT with h | h
      · exact Or.inl h
      · exact Or.inr (fun x hx => h x (List.mem_cons_of_mem _ hx)))
      (fun x hx => hm x (List.mem_cons_of_mem _ hx))
    simp only [List.cons_append, mapAddressLoop]
    cases hc : contains S y with
    | true =>
      cases ref with
      | none =>
        rcases hT with h | h
        · exact absurd rfl h
        · have := h y (List.mem_cons_self _ _)
          rw [hc] at this; exact absurd this (by simp)
      | some r => simp [ih1, hc, skipOrMap]
    | false =>
      simp only [Bool.false_eq_true, if_false]
      rw [hm y (List.mem_cons_self _ _) hc]
      simp [ih1, hc, skipOrMap]

/-- `MapEndpointsWithConfiguration` when the mapper fails: with `a`, in the endpoint
`ep`, the first address outside the shortcut list on which the mapper fails, and
no log call of the skip branch failing before it, the run returns the error of
`a`, calls the mapper on no later address, leaves `a` and every later address
unchanged, and has replaced every earlier address outside the list. -/
theorem mapEndpointLoop_error (m : String → Except String String) (f : String → String)
    (S : List String) (ep : Endpoint) (post : List Endpoint) (as1 as2 : List String)
    (a e : String) (hep : ep.Addresses = as1 ++ a :: as2)
    (hT1 : ep.TargetRef ≠ none ∨ ∀ y ∈ as1, contains S y = false)
    (hm1 : ∀ y ∈ as1, contains S y = false → m y = .ok (f y))
    (ha : contains S a = false) (hfail : m a = .error e) :
    ∀ pre : List Endpoint,
      (∀ x ∈ pre, x.TargetRef ≠ none ∨ ∀ y ∈ x.Addresses, contains S y = false) →
      (∀ x ∈ pre, ∀ y ∈ x.Addresses, contains S y = false → m y = .ok (f y)) →
      mapEndpointLoop m S (pre ++ ep :: post) =
        { endpoints :=
            pre.map (fun x => { x with Addresses := x.Addresses.map (skipOrMap S f) }) ++
              { ep with Addresses := as1.map (skipOrMap S f) ++ a :: as2 } :: post
          outcome := .error e
          mapperCalls := ((pre.map (fun x => x.Addresses)).flatten ++ as1).filter
            (fun y => !contains S y) ++ [a] } := by
  intro pre
  induction pre with
  | nil =>
    intro _ _
    simp only [List.nil_append, mapEndpointLoop, hep,
      mapAddressLoop_error m f S ep.TargetRef as1 as2 a e hT1 hm1 ha hfail]
    simp
  | cons x rest ih =>
    intro hT hm
    have ih1 := ih (fun z hz => hT z (List.mem_cons_of_mem _ hz))
      (fun z hz => hm z (List.mem_cons_of_mem _ hz))
    simp only [List.cons_append, mapEndpointLoop]
    rw [mapAddressLoop_ok m f S x.TargetRef x.Addresses (hT x (List.mem_cons_self _ _))
      (hm x (List.mem_cons_self _ _))]
    simp [ih1, skipOrMap]

theorem lor_notByte_self (m : Nat) (hm : m < 256) : m ||| notByte m = 255 := by
  apply Nat.eq_of_testBit_eq
  intro i
  have h255 : (255 : Nat) = 2 ^ 8 - 1 := by norm_num
  simp only [notByte, Nat.testBit_or, Nat.testBit_xor, h255, Nat.testBit_two_pow_sub_one]
  by_cases hi : i < 8
  · simp [hi]
  · have : m.testBit i = false :=
      Nat.testBit_lt_two_pow (lt_of_lt_of_le hm (by
        have : 2 ^ 8 ≤ 2 ^ i := Nat.pow_le_pow_right (by norm_num) (by omega)
        simpa using this))
    simp [hi, this]

/-- A byte is made of its bits under a mask and its bits outside the mask. -/
theorem byte_split (a m : Nat) (ha : a < 256) (hm : m < 256) :
    (a &&& m) ||| (a &&& notByte m) = a := by
  rw [← Nat.and_or_distrib_left, lor_notByte_self m hm]
  have h : a &&& 2 ^ 8 - 1 = a := Nat.and_pow_two_sub_one_of_lt_two_pow (by simpa using ha)
  simpa using h

theorem byte_eq_of_masked_eq (a b m : Nat) (ha : a < 256) (hb : b < 256) (hm : m < 256)
    (h1 : a &&& m = b &&& m) (h2 : a &&& notByte m = b &&& notByte m) : a = b := by
  rw [← byte_split a m ha hm, ← byte_split b m hb hm, h1, h2]

theorem parseIPv4FieldsLoop_lt (s : List Char) :
    ∀ (fields : List Nat) (val pos digLen i : Nat) (prev : Char) (f : List Nat),
      (∀ x ∈ fields, x < 256) →
      parseIPv4FieldsLoop fields val pos digLen i prev s = some f → ∀ x ∈ f, x < 256 := by
  induction s with
  | nil =>
    intro fields val pos digLen i prev f hf h
    simp only [parseIPv4FieldsLoop] at h
    split at h
    · exact absurd h (by simp)
    · cases h
      intro x hx
      rcases List.mem_or_eq_of_mem_set hx with h1 | h1
      · exact hf x h1
      · rw [h1]; exact Nat.mod_lt _ (by norm_num)
  | cons c rest ih =>
    intro fields val pos digLen i prev f hf h
    simp only [parseIPv4FieldsLoop] at h
    split at h
    · split at h
      · exact absurd h (by simp)
      · split at h
        · exact absurd h (by simp)
        · exact ih _ _ _ _ _ _ _ hf h
    · split at h
      · split at h
        · exact absurd h (by simp)
        · split at h
          · exact absurd h (by simp)
          · refine ih _ _ _ _ _ _ _ ?_ h
            intro x hx
            rcases List.mem_or_eq_of_mem_set hx with h1 | h1
            · exact hf x h1
            · rw [h1]; exact Nat.mod_lt _ (by norm_num)
      · exact absurd h (by simp)

theorem ParseAddr_v4_lt (s : List Char) (b : List Nat) (h : ParseAddr s = some (.v4 b)) :
    ∀ x ∈ b, x < 256 :=
  parseIPv4FieldsLoop_lt s _ _ _ _ _ _ b (by decide) (ParseAddrScan_v4 s b s h)

/-- The mask `ParseCIDR` gives an IPv4 CIDR is `CIDRMask` of the prefix length the
text states. -/
theorem ParseCIDR_v4_mask (c : String) (net : IPNet) (h : ParseCIDR c = some net)
    (h4 : net.Mask.length = 4) :
    ∃ n, prefixLength c = some n ∧ net.Mask = CIDRMask n 32 := by
  unfold ParseCIDR at h
  unfold prefixLength
  split at h
  · exact absurd h (by simp)
  · rename_i addr mask hs
    split at h
    · exact absurd h (by simp)
    · rename_i ipAddr hp
      split at h
      · exact absurd h (by simp)
      · split at h
        rename_i n i ok hd
        split at h
        · exact absurd h (by simp)
        · cases ipAddr with
          | v6 b z =>
            split at h
            · exact absurd h (by simp)
            · simp only [Option.some.injEq] at h
              rw [← h] at h4
              have : (CIDRMask n 128).length = 16 := CIDRMaskLoop_length 16 n
              simp only [Addr.BitLen] at h4
              omega
          | v4 b =>
            split at h
            · exact absurd h (by simp)
            · simp only [Option.some.injEq] at h
              refine ⟨n, by simp [hd], ?_⟩
              rw [← h]
              simp only [Addr.BitLen]

theorem appendByte_digit (d : Nat) (hd : d < 10) : appendByte d = [Char.ofNat (48 + d)] := by
  unfold appendByte
  rw [if_neg (by omega), if_neg (by omega)]

theorem appendByte_snoc (v d : Nat) (hv : 1 ≤ v) (hd : d < 10) (hle : v * 10 + d ≤ 255) :
    appendByte (v * 10 + d) = appendByte v ++ [Char.ofNat (48 + d)] := by
  by_cases h10 : v < 10
  · have e1 : (v * 10 + d) / 10 = v := by omega
    have e2 : (v * 10 + d) % 10 = d := by omega
    unfold appendByte
    rw [if_neg (by omega), if_pos (by omega), if_neg (by omega), if_neg (by omega), e1, e2]
    rfl
  · have e1 : (v * 10 + d) / 100 = v / 10 := by omega
    have e2 : (v * 10 + d) / 10 % 10 = v % 10 := by omega
    have e3 : (v * 10 + d) % 10 = d := by omega
    unfold appendByte
    rw [if_pos (by omega), if_neg (by omega), if_pos (by omega), e1, e2, e3]
    rfl

theorem getD_set_self (l : List Nat) (k v : Nat) (h : k < l.length) :
    (l.set k v).getD k 0 = v := by
  simp [List.getD_eq_getElem?_getD, List.getElem?_set, h]

theorem getD_set_ne (l : List Nat) (k j v : Nat) (h : k ≠ j) :
    (l.set k v).getD j 0 = l.getD j 0 := by
  simp [List.getD_eq_getElem?_getD, List.getElem?_set, h]

theorem isDigit_iff (c : Char) : isDigit c = true ↔ 48 ≤ c.toNat ∧ c.toNat ≤ 57 := by
  simp [isDigit]

/-- The text accepted by the IPv4 field loop is the dotted decimal text of the
fields it returns: what has been read of the current field, followed by what is
left of the text, is the text of the fields from the current one on. -/
theorem parseIPv4FieldsLoop_canonical (s : List Char) :
    ∀ (fields : List Nat) (val pos digLen i : Nat) (prev : Char) (f : List Nat) (n : Nat),
      fields.length = 4 → pos + n = 3 →
      (digLen = 0 → val = 0 ∧ (pos = 0 ∨ s ≠ []) ∧ (i = 0 ∨ prev = '.')) →
      (digLen ≠ 0 → i ≠ 0 ∧ prev ≠ '.' ∧ val ≤ 255 ∧ (val = 0 → digLen = 1)) →
      parseIPv4FieldsLoop fields val pos digLen i prev s = some f →
      curDigits digLen val ++ s = dottedTail f n ∧ ∀ k < pos, f.getD k 0 = fields.getD k 0 := by
  induction s with
  | nil =>
    intro fields val pos digLen i prev f n hlen hn h0 h1 h
    simp only [parseIPv4FieldsLoop] at h
    split at h
    · exact absurd h (by simp)
    · rename_i hpos
      cases h
      have hp3 : pos = 3 := by omega
      have hn0 : n = 0 := by omega
      have hd : digLen ≠ 0 := by
        intro hd
        rcases (h0 hd).2.1 with h | h
        · omega
        · exact h rfl
      obtain ⟨_, _, hv, _⟩ := h1 hd
      subst hn0
      refine ⟨?_, ?_⟩
      · simp only [curDigits, if_neg hd, List.append_nil, dottedTail]
        rw [getD_set_self _ _ _ (by omega), Nat.mod_eq_of_lt (by omega)]
      · intro k hk
        exact getD_set_ne _ _ _ _ (by omega)
  | cons c rest ih =>
    intro fields val pos digLen i prev f n hlen hn h0 h1 h
    simp only [parseIPv4FieldsLoop] at h
    split at h
    · rename_i hdig
      obtain ⟨hc1, hc2⟩ := (isDigit_iff c).1 hdig
      split at h
      · exact absurd h (by simp)
      · rename_i hlz
        split at h
        · exact absurd h (by simp)
        · rename_i hle
          have hcne : c ≠ '.' := by
            intro hc; rw [hc] at hc1; exact absurd hc1 (by decide)
          have hce : c = Char.ofNat (48 + (c.toNat - 48)) := by
            rw [Nat.add_sub_cancel' hc1, Char.ofNat_toNat]
          have hih := ih fields (val * 10 + (c.toNat - 48)) pos (digLen + 1) (i + 1) c f n hlen hn
            (by intro hh; omega)
            (by
              intro _
              refine ⟨by omega, hcne, by omega, ?_⟩
              intro hz
              by_contra hd1
              have hd : digLen ≠ 0 := by omega
              have hv0 : val = 0 := by omega
              exact hlz ⟨(h1 hd).2.2.2 hv0, hv0⟩)
            h
          refine ⟨?_, hih.2⟩
          rw [← hih.1]
          simp only [curDigits, Nat.succ_ne_zero, if_false]
          by_cases hd : digLen = 0
          · have hv0 := (h0 hd).1
            rw [if_pos hd, hv0, Nat.zero_mul, Nat.zero_add, appendByte_digit _ (by omega),
              ← hce]
            rfl
          · have hv1 : 1 ≤ val := by
              by_contra hv
              have hv0 : val = 0 := by omega
              exact hlz ⟨(h1 hd).2.2.2 hv0, hv0⟩
            rw [if_neg hd, appendByte_snoc val _ hv1 (by omega) (by omega), ← hce]
            simp
    · split at h
      · rename_i hnd hdot
        split at h
        · exact absurd h (by simp)
        · rename_i hacc
          split at h
          · exact absurd h (by simp)
          · rename_i hp3
            have hi : i ≠ 0 := fun hh => hacc (Or.inl hh)
            have hr : rest ≠ [] := fun hh => hacc (Or.inr (Or.inl hh))
            have hpv : prev ≠ '.' := fun hh => hacc (Or.inr (Or.inr hh))
            have hd : digLen ≠ 0 := by
              intro hd
              rcases (h0 hd).2.2 with h | h
              · exact hi h
              · exact hpv h
            obtain ⟨_, _, hv, _⟩ := h1 hd
            obtain ⟨n1, rfl⟩ : ∃ n1, n = n1 + 1 := ⟨n - 1, by omega⟩
            rw [hdot] at h
            have hih := ih (fields.set pos (val % 256)) 0 (pos + 1) 0 (i + 1) '.' f n1
              (by simp [hlen]) (by omega)
              (by intro _; exact ⟨rfl, Or.inr hr, Or.inr rfl⟩)
              (by intro hh; exact absurd rfl hh)
              h
            refine ⟨?_, ?_⟩
            · have hfp : f.getD pos 0 = val := by
                rw [hih.2 pos (by omega), getD_set_self _ _ _ (by omega),
                  Nat.mod_eq_of_lt (by omega)]
              have hidx : 2 - n1 = pos := by omega
              simp only [curDigits, if_neg hd, dottedTail, hidx, hfp, hdot]
              rw [← hih.1]
              simp [curDigits]
            · intro k hk
              rw [hih.2 k (by omega), getD_set_ne _ _ _ _ (by omega)]
      · exact absurd h (by simp)

/-- An IPv4 text is the dotted decimal notation of its bytes. -/
theorem parseIPv4Fields_eq_dotted (s : List Char) (b0 b1 b2 b3 : Nat)
    (h : parseIPv4Fields s = some [b0, b1, b2, b3]) : s = dotted b0 b1 b2 b3 := by
  have := (parseIPv4FieldsLoop_canonical s [0, 0, 0, 0] 0 0 0 0 ' ' [b0, b1, b2, b3] 3 rfl rfl
    (by intro _; exact ⟨rfl, Or.inl rfl, Or.inl rfl⟩) (by intro hh; exact absurd rfl hh) h).1
  simpa [curDigits, dottedTail, dotted] using this

/-- Two IPv4 texts with the same bytes are the same text. -/
theorem ParseAddr_v4_injective (s1 s2 : String) (b0 b1 b2 b3 : Nat)
    (h1 : ParseAddr s1.toList = some (.v4 [b0, b1, b2, b3]))
    (h2 : ParseAddr s2.toList = some (.v4 [b0, b1, b2, b3])) : s1 = s2 := by
  have e1 := parseIPv4Fields_eq_dotted _ _ _ _ _ (ParseAddrScan_v4 _ _ _ h1)
  have e2 := parseIPv4Fields_eq_dotted _ _ _ _ _ (ParseAddrScan_v4 _ _ _ h2)
  apply String.ext
  exact e1.trans e2.symm

theorem isIPv4Address_bytes (s : String) (h : isIPv4Address s = true) :
    ∃ a0 a1 a2 a3, ParseAddr s.toList = some (.v4 [a0, a1, a2, a3]) ∧
      a0 < 256 ∧ a1 < 256 ∧ a2 < 256 ∧ a3 < 256 := by
  obtain ⟨a0, a1, a2, a3, hp⟩ := isIPv4Address_iff s h
  have hlt := ParseAddr_v4_lt _ _ hp
  exact ⟨a0, a1, a2, a3, hp, hlt a0 (by simp), hlt a1 (by simp), hlt a2 (by simp),
    hlt a3 (by simp)⟩

theorem remapByte_injective (n m a b : Nat) (ha : a < 256) (hb : b < 256) (hm : m < 256)
    (hin : a &&& m = b &&& m) (h : remapByte n m a = remapByte n m b) : a = b := by
  apply byte_eq_of_masked_eq a b m ha hb hm hin
  have h1 := remap_byte_host n a m hm
  have h2 := remap_byte_host n b m hm
  unfold remapByte at h
  rw [← h1, ← h2, h]

theorem digitChar_ne_comma (n : Nat) : Char.ofNat (48 + n) ≠ ',' := by
  intro h
  have h2 := congrArg Char.toNat h
  by_cases hv : (48 + n).isValidChar
  · have : (Char.ofNat (48 + n)).toNat = 48 + n := by
      simp [Char.ofNat, hv, Char.ofNatAux, Char.toNat, UInt32.toNat, BitVec.toNat_ofNatLt]
    rw [this] at h2
    have : (',' : Char).toNat = 44 := by decide
    omega
  · have : Char.ofNat (48 + n) = Char.ofNat 0 := by
      simp [Char.ofNat, hv]
      rfl
    rw [this] at h2
    exact absurd h2 (by decide)

theorem appendByte_no_comma (b : Nat) : ∀ c ∈ appendByte b, c ≠ ',' := by
  intro c hc
  unfold appendByte at hc
  split at hc
  · simp only [List.mem_cons, List.mem_singleton, List.not_mem_nil, or_false] at hc
    rcases hc with h | h | h <;> rw [h] <;> exact digitChar_ne_comma _
  · split at hc
    · simp only [List.mem_cons, List.mem_singleton, List.not_mem_nil, or_false] at hc
      rcases hc with h | h <;> rw [h] <;> exact digitChar_ne_comma _
    · simp only [List.mem_singleton] at hc
      rw [hc]; exact digitChar_ne_comma _

/-- The dotted decimal notation of an address holds no comma. -/
theorem IPv4String_no_comma (ip : List Nat) : ∀ c ∈ (IPv4String ip).toList, c ≠ ',' := by
  intro c hc
  simp only [IPv4String, String.toList, List.mem_append, List.mem_cons] at hc
  rcases hc with h | h | h | h | h | h | h
  · exact appendByte_no_comma _ c h
  · rw [h]; decide
  · exact appendByte_no_comma _ c h
  · rw [h]; decide
  · exact appendByte_no_comma _ c h
  · rw [h]; decide
  · exact appendByte_no_comma _ c h

theorem RemapAddressUsingCidr_dotted (a c : String) (l : List String)
    (h : RemapAddressUsingCidr a c = .ok l) : ∃ ip, l = [IPv4String ip] := by
  unfold RemapAddressUsingCidr at h
  split at h
  · exact absurd h (by simp)
  · split at h
    · exact absurd h (by simp)
    · split at h
      · exact absurd h (by simp)
      · split at h
        · exact absurd h (by simp)
        · simp only [Except.ok.injEq] at h
          exact ⟨_, h.symm⟩

theorem resolveShortcut_dotted (a : String) (cidrs : List CidrInfo) (l : List String)
    (h : resolveShortcut a cidrs = some l) : ∃ ip, l = [IPv4String ip] := by
  induction cidrs with
  | nil => simp [resolveShortcut] at h
  | cons c rest ih =>
    rw [resolveShortcut] at h
    split at h
    · split at h
      · rename_i r hr
        simp only [Option.some.injEq] at h
        subst h
        exact RemapAddressUsingCidr_dotted _ _ _ hr
      · exact ih h
    · exact ih h

/-- Every shortcut address `RemoteEndpointSliceEndpoints` returns is the dotted
decimal notation of an address. -/
theorem shortcutAddresses_dotted (env : ForgeEnv) (locals : List Endpoint)
    (nodes : NodeLister) (translator : EndpointTranslator)
    (listResult : Except String (List ForeignClusterConnection)) (clusterName : String) :
    ∀ x ∈ (RemoteEndpointSliceEndpoints env locals nodes translator listResult
      clusterName).shortcutAddresses, ∃ ip, x = IPv4String ip := by
  intro x hx
  rw [RemoteEndpointSliceEndpoints_flatten] at hx
  simp only [List.mem_flatten, List.mem_map] at hx
  obtain ⟨l, ⟨src, _, rfl⟩, hl⟩ := hx
  rw [forgeStep_eq] at hl
  split at hl
  · simp at hl
  · split at hl
    · simp only [List.nil_append, List.mem_map, List.mem_filterMap] at hl
      obtain ⟨r, ⟨a, _, hres⟩, rfl⟩ := hl
      obtain ⟨ip, rfl⟩ := resolveShortcut_dotted _ _ _ hres
      exact ⟨ip, rfl⟩
    · simp at hl

theorem splitByte_no_sep (sep : Char) (l : List Char) (h : ∀ c ∈ l, c ≠ sep) :
    splitByte sep l = [l] := by
  induction l with
  | nil => rfl
  | cons c rest ih =>
    rw [splitByte, if_neg (h c (List.mem_cons_self _ _)),
      ih (fun x hx => h x (List.mem_cons_of_mem _ hx))]

theorem splitByte_append_sep (sep : Char) (l rest : List Char) (h : ∀ c ∈ l, c ≠ sep) :
    splitByte sep (l ++ sep :: rest) = l :: splitByte sep rest := by
  induction l with
  | nil => simp [splitByte]
  | cons c l1 ih =>
    rw [List.cons_append, splitByte, if_neg (h c (List.mem_cons_self _ _)),
      ih (fun x hx => h x (List.mem_cons_of_mem _ hx))]

/-- Splitting the join of a non-empty list of texts without separator gives the
list back. -/
theorem stringsSplit_stringsJoin (l : List String) (hne : l ≠ [])
    (h : ∀ e ∈ l, ∀ c ∈ e.toList, c ≠ ',') : stringsSplit (stringsJoin l ",") ',' = l := by
  induction l with
  | nil => exact absurd rfl hne
  | cons e rest ih =>
    cases rest with
    | nil =>
      simp only [stringsJoin, stringsSplit]
      rw [splitByte_no_sep _ _ (h e (List.mem_cons_self _ _))]
      rfl
    | cons e2 rest2 =>
      have ih1 := ih (by simp) (fun x hx => h x (List.mem_cons_of_mem _ hx))
      simp only [stringsSplit] at ih1 ⊢
      have hj : (stringsJoin (e :: e2 :: rest2) ",").toList =
          e.toList ++ ',' :: (stringsJoin (e2 :: rest2) ",").toList := by
        simp [stringsJoin, String.toList]
      rw [hj, splitByte_append_sep _ _ _ (h e (List.mem_cons_self _ _)), List.map_cons, ih1]
      rfl

theorem lookup_mapSet_self (m : StringMap) (k v : String) : (mapSet m k v).lookup k = some v := by
  simp [mapSet, List.lookup]

theorem lookup_filter_ne (m : StringMap) (k j : String) (h : j ≠ k) :
    (m.filter (fun e => e.1 ≠ k)).lookup j = m.lookup j := by
  induction m with
  | nil => rfl
  | cons e rest ih =>
    obtain ⟨ek, ev⟩ := e
    by_cases hek : ek = k
    · subst hek
      have hb : (j == ek) = false := by simpa using h
      simp only [List.filter, ne_eq, not_true_eq_false, decide_False, List.lookup, hb]
      simpa using ih
    · by_cases hj : j = ek
      · subst hj
        simp [List.filter, hek, List.lookup]
      · have hb : (j == ek) = false := by simpa using hj
        simp only [List.filter, ne_eq, hek, not_false_eq_true, decide_True, List.lookup, hb]
        simpa using ih

theorem lookup_mapSet_ne (m : StringMap) (k v j : String) (h : j ≠ k) :
    (mapSet m k v).lookup j = m.lookup j := by
  have hb : (j == k) = false := by simpa using h
  simp only [mapSet, List.lookup, hb]
  exact lookup_filter_ne m k j h

theorem RemoteShadowEndpointSlice_meta (env : ForgeEnv) (menv : MetaEnv) (loc : EndpointSlice)
    (remote : Option ShadowEndpointSlice) (nodes : NodeLister) (targetNamespace : String)
    (translator : EndpointTranslator) (forgingOpts : ForgingOpts)
    (listResult : Except String (List ForeignClusterConnection)) (clusterName : String) :
    (RemoteShadowEndpointSlice env menv loc remote nodes targetNamespace translator forgingOpts
      listResult clusterName).ObjectMeta =
      if (RemoteEndpointSliceEndpoints env loc.Endpoints nodes translator listResult
          clusterName).shortcutAddresses.length > 0 then
        { RemoteEndpointSliceObjectMeta menv loc.ObjectMeta
            (remoteMetaOrNew loc remote targetNamespace) forgingOpts with
          Labels := mapSet (RemoteEndpointSliceObjectMeta menv loc.ObjectMeta
              (remoteMetaOrNew loc remote targetNamespace) forgingOpts).Labels
            "liqo.io/shortcut-addresses"
            (stringsJoin (RemoteEndpointSliceEndpoints env loc.Endpoints nodes translator listResult
              clusterName).shortcutAddresses ",") }
      else RemoteEndpointSliceObjectMeta menv loc.ObjectMeta
        (remoteMetaOrNew loc remote targetNamespace) forgingOpts := by
  cases remote <;> simp [RemoteShadowEndpointSlice, remoteMetaOrNew]

theorem setFour_length (ip : List Nat) (i : Nat) (f : List Nat) :
    (setFour ip i f).length = ip.length := by
  simp [setFour]

theorem parseIPv6Finish_length (ip : List Nat) (e : Option Nat) (i : Nat) (s zone z : List Char)
    (b : List Nat) (hip : ip.length = 16) (hi : i ≤ 16) (he : ∀ x, e = some x → x ≤ i)
    (h : parseIPv6Finish ip e i s zone = some (.v6 b z)) : b.length = 16 := by
  unfold parseIPv6Finish at h
  split at h
  · simp at h
  · split at h
    · cases e with
      | none => simp at h
      | some x =>
        simp only [Option.some.injEq, Addr.v6.injEq] at h
        have hx := he x rfl
        rw [← h.1]
        simp only [List.length_append, List.length_take, List.length_drop, List.length_replicate]
        omega
    · cases e with
      | some x => simp at h
      | none =>
        simp only [Option.some.injEq, Addr.v6.injEq] at h
        rw [← h.1]; exact hip

theorem parseIPv6Loop_length (fuel : Nat) :
    ∀ (ip : List Nat) (e : Option Nat) (i : Nat) (s zone z : List Char) (b : List Nat),
      ip.length = 16 → i ≤ 16 → i % 2 = 0 → (∀ x, e = some x → x ≤ i) →
      parseIPv6Loop fuel ip e i s zone = some (.v6 b z) → b.length = 16 := by
  induction fuel with
  | zero =>
    intro ip e i s zone z b hip hi hev he h
    simp only [parseIPv6Loop] at h
    exact parseIPv6Finish_length _ _ _ _ _ _ _ hip hi he h
  | succ n ih =>
    intro ip e i s zone z b hip hi hev he h
    simp only [parseIPv6Loop] at h
    split at h
    · exact parseIPv6Finish_length _ _ _ _ _ _ _ hip hi he h
    · have hi2 : i + 2 ≤ 16 := by omega
      have hev2 : (i + 2) % 2 = 0 := by omega
      have he2 : ∀ x, e = some x → x ≤ i + 2 := fun x hx => Nat.le_trans (he x hx) (by omega)
      have he3 : ∀ x, some (i + 2) = some x → x ≤ i + 2 := fun x hx => by
        simp only [Option.some.injEq] at hx; omega
      have hl1 : ∀ u v : Nat, ((ip.set i u).set (i + 1) v).length = 16 := fun u v => by
        simp [hip]
      split at h
      · simp at h
      · split at h
        · simp at h
        · split at h
          · split at h
            · simp at h
            · split at h
              · simp at h
              · split at h
                · simp at h
                · refine parseIPv6Finish_length _ _ _ _ _ _ _ ?_ ?_ ?_ h
                  · rw [setFour_length]; exact hip
                  · omega
                  · exact fun x hx => Nat.le_trans (he x hx) (by omega)
          · split at h
            · exact parseIPv6Finish_length _ _ _ _ _ _ _ (hl1 _ _) hi2 he2 h
            · split at h
              · simp at h
              · split at h
                · simp at h
                · split at h
                  · split at h
                    · simp at h
                    · split at h
                      · exact parseIPv6Finish_length _ _ _ _ _ _ _ (hl1 _ _) hi2 he3 h
                      · exact ih _ _ _ _ _ _ _ (hl1 _ _) hi2 hev2 he3 h
                  · exact ih _ _ _ _ _ _ _ (hl1 _ _) hi2 hev2 he2 h

theorem parseIPv6_length (s z : List Char) (b : List Nat)
    (h : parseIPv6 s = some (.v6 b z)) : b.length = 16 := by
  have h0 : (List.replicate 16 0 : List Nat).length = 16 := by simp
  have hs : ∀ x, some 0 = some x → x ≤ 0 := fun x hx => by
    simp only [Option.some.injEq] at hx; omega
  have hn : ∀ x, (none : Option Nat) = some x → x ≤ 0 := fun x hx => by simp at hx
  unfold parseIPv6 at h
  split at h
  · simp at h
  · split at h
    · simp only [Option.some.injEq, Addr.v6.injEq] at h
      rw [← h.1]; exact h0
    · exact parseIPv6Loop_length _ _ _ _ _ _ _ _ h0 (by omega) (by omega) hs h
    · exact parseIPv6Loop_length _ _ _ _ _ _ _ _ h0 (by omega) (by omega) hn h
  · split at h
    · simp only [Option.some.injEq, Addr.v6.injEq] at h
      rw [← h.1]; exact h0
    · exact parseIPv6Loop_length _ _ _ _ _ _ _ _ h0 (by omega) (by omega) hs h
    · exact parseIPv6Loop_length _ _ _ _ _ _ _ _ h0 (by omega) (by omega) hn h

theorem ParseAddrScan_v6 (s z : List Char) (b : List Nat) :
    ∀ t : List Char, ParseAddrScan s t = some (.v6 b z) → b.length = 16 := by
  intro t
  induction t with
  | nil => intro h; simp [ParseAddrScan] at h
  | cons c rest ih =>
    intro h
    simp only [ParseAddrScan] at h
    split at h
    · cases hp : parseIPv4Fields s with
      | none => rw [hp] at h; simp at h
      | some f => rw [hp] at h; simp at h
    · split at h
      · exact parseIPv6_length s z b h
      · split at h
        · exact absurd h (by simp)
        · exact ih h

theorem ParseAddr_v6_length (s z : List Char) (b : List Nat)
    (h : ParseAddr s = some (.v6 b z)) : b.length = 16 :=
  ParseAddrScan_v6 s z b s h

theorem length_sixteen {α : Type} (l : List α) (h : l.length = 16) :
    ∃ x0 x1 x2 x3 x4 x5 x6 x7 x8 x9 x10 x11 x12 x13 x14 x15,
      l = [x0, x1, x2, x3, x4, x5, x6, x7, x8, x9, x10, x11, x12, x13, x14, x15] := by
  match l, h with
  | [x0, x1, x2, x3, x4, x5, x6, x7, x8, x9, x10, x11, x12, x13, x14, x15], _ =>
    exact ⟨x0, x1, x2, x3, x4, x5, x6, x7, x8, x9, x10, x11, x12, x13, x14, x15, rfl⟩

theorem To4_sixteen_none (b : List Nat) (h : b.length = 16) (hp : b.take 12 ≠ v4InV6Prefix) :
    To4 b = none := by
  obtain ⟨x0, x1, x2, x3, x4, x5, x6, x7, x8, x9, x10, x11, x12, x13, x14, x15, rfl⟩ :=
    length_sixteen b h
  simp only [v4InV6Prefix, List.take] at hp
  simp only [To4, List.length_cons, List.length_nil]
  simp only [List.take, List.replicate, List.getD_cons_succ, List.getD_cons_zero]
  simp at hp ⊢
  intro h0 h1 h2 h3 h4 h5 h6 h7 h8 h9 h10
  exact hp h0 h1 h2 h3 h4 h5 h6 h7 h8 h9 h10

theorem IPMaskApply_sixteen (ip mask r : List Nat) (hi : ip.length = 16) (hm : mask.length = 16)
    (h : IPMaskApply ip mask = some r) : r.length = 16 := by
  unfold IPMaskApply at h
  simp only [hi, hm] at h
  simp at h
  rw [← h.2]
  simp [hi, hm]

/-- Shape of what `ParseCIDR` returns: a 4-byte mask, or a 16-byte mask with a
16-byte network. -/
theorem ParseCIDR_lengths (c : String) (net : IPNet) (h : ParseCIDR c = some net) :
    net.Mask.length = 4 ∨ (net.Mask.length = 16 ∧ net.IP.length = 16) := by
  unfold ParseCIDR at h
  split at h
  · exact absurd h (by simp)
  · rename_i addr mask hs
    split at h
    · exact absurd h (by simp)
    · rename_i ipAddr hp
      split at h
      · exact absurd h (by simp)
      · split at h
        rename_i n i ok hd
        split at h
        · exact absurd h (by simp)
        · cases ipAddr with
          | v6 b z =>
            have hb := ParseAddr_v6_length addr z b hp
            have hm : (CIDRMask n 128).length = 16 := CIDRMaskLoop_length 16 n
            simp only [Addr.BitLen, Addr.As16] at h
            split at h
            · exact absurd h (by simp)
            · rename_i r hr
              simp only [Option.some.injEq] at h
              rw [← h]
              exact Or.inr ⟨hm, IPMaskApply_sixteen _ _ _ hb hm hr⟩
          | v4 b =>
            have hm : (CIDRMask n 32).length = 4 := CIDRMaskLoop_length 4 n
            simp only [Addr.BitLen, Addr.As16] at h
            split at h
            · exact absurd h (by simp)
            · simp only [Option.some.injEq] at h
              rw [← h]
              exact Or.inl hm

theorem ParseIP_eq_none_iff (a : String) :
    ParseIP a = none ↔ (isIPv4Address a = false ∧ isIPv6Address a = false) := by
  unfold ParseIP isIPv4Address isIPv6Address
  cases h : ParseAddr a.toList with
  | none => simp
  | some x =>
    cases x with
    | v4 b => simp [Addr.Zone]
    | v6 b z => simp [Addr.Zone]

theorem ParseCIDR_eq_none_iff (c : String) :
    ParseCIDR c = none ↔ (isIPv4CIDR c = false ∧ isIPv6CIDR c = false) := by
  unfold isIPv4CIDR isIPv6CIDR
  cases h : ParseCIDR c with
  | none => simp
  | some n =>
    have := ParseCIDR_lengths c n h
    simp only [decide_eq_false_iff_not]
    constructor
    · intro h0; exact absurd h0 (by simp)
    · intro h0; omega

/-- An address text that is neither IPv4 nor IPv4-mapped IPv6 has no 4-byte form. -/
theorem addrBytes_none_of_not_IPv4 (a : String) (h4 : isIPv4Address a = false)
    (hm : isIPv4MappedAddress a = false) : addrBytes a = none := by
  unfold addrBytes ParseIP
  unfold isIPv4Address at h4
  unfold isIPv4MappedAddress at hm
  cases h : ParseAddr a.toList with
  | none => rfl
  | some x =>
    cases x with
    | v4 b => rw [h] at h4; simp at h4
    | v6 b z =>
      rw [h] at hm
      by_cases hz : z = []
      · subst hz
        simp only [decide_True, Bool.true_and, decide_eq_false_iff_not] at hm
        simp only [Addr.Zone, Addr.As16, ne_eq, not_true_eq_false, if_false]
        exact To4_sixteen_none b (ParseAddr_v6_length _ _ _ h) hm
      · simp [Addr.Zone, hz]

/-- The network of a CIDR that is neither an IPv4 CIDR nor an IPv6 CIDR with an
IPv4-mapped network has no 4-byte form. -/
theorem network_To4_none_of_not_IPv4 (c : String) (n : IPNet) (h : ParseCIDR c = some n)
    (h4 : isIPv4CIDR c = false) (hm : isIPv4MappedCIDR c = false) : To4 n.IP = none := by
  unfold isIPv4CIDR at h4
  unfold isIPv4MappedCIDR at hm
  rw [h] at h4 hm
  simp only [decide_eq_false_iff_not] at h4
  rcases ParseCIDR_lengths c n h with h1 | ⟨h1, h2⟩
  · exact absurd h1 h4
  · simp only [h1, decide_True, Bool.true_and, decide_eq_false_iff_not] at hm
    exact To4_sixteen_none n.IP h2 hm

theorem RemapAddressUsingCidr_error_of_addrBytes_none (a c : String) (h : addrBytes a = none) :
    ∃ e, RemapAddressUsingCidr a c = .error e := by
  unfold addrBytes at h
  unfold RemapAddressUsingCidr
  cases hp : ParseIP a with
  | none => exact ⟨_, rfl⟩
  | some ip =>
    rw [hp] at h
    cases hc : ParseCIDR c with
    | none => exact ⟨_, rfl⟩
    | some n =>
      have h2 : To4 ip = none := h
      simp [h2]

theorem RemapAddressUsingCidr_error_of_network_none (a c : String)
    (h : ∀ n, ParseCIDR c = some n → To4 n.IP = none) :
    ∃ e, RemapAddressUsingCidr a c = .error e := by
  unfold RemapAddressUsingCidr
  cases hp : ParseIP a with
  | none => exact ⟨_, rfl⟩
  | some ip =>
    cases hc : ParseCIDR c with
    | none => exact ⟨_, rfl⟩
    | some n =>
      have hn := h n hc
      cases h4 : To4 ip with
      | none => simp [h4]
      | some ip4 => simp [h4, hn]

/-- An IPv6 address that is not IPv4-mapped is in no IPv4 CIDR. -/
theorem IpBelongsToCIDR_v6_in_v4 (a c : String) (h6 : isIPv6Address a = true)
    (hm : isIPv4MappedAddress a = false) (hc : isIPv4CIDR c = true) :
    IpBelongsToCIDR a c = .ok false := by
  obtain ⟨b0, b1, b2, b3, m0, m1, m2, m3, _, _, _, _, hn⟩ := isIPv4CIDR_iff c hc
  unfold isIPv6Address at h6
  unfold isIPv4MappedAddress at hm
  cases h : ParseAddr a.toList with
  | none => rw [h] at h6; simp at h6
  | some x =>
    cases x with
    | v4 b => rw [h] at h6; simp at h6
    | v6 b z =>
      rw [h] at h6 hm
      simp only [decide_eq_true_eq] at h6
      subst h6
      simp only [decide_True, Bool.true_and, decide_eq_false_iff_not] at hm
      have hl := ParseAddr_v6_length _ _ _ h
      have h4 := To4_sixteen_none b hl hm
      unfold IpBelongsToCIDR ParseIP
      rw [h, hn]
      simp [Addr.Zone, Addr.As16, IPNet.Contains, networkNumberAndMask, To4_four, h4, hl]

/-- An IPv4 address is in no IPv6 CIDR whose network is not IPv4-mapped. -/
theorem IpBelongsToCIDR_v4_in_v6 (a c : String) (h4 : isIPv4Address a = true)
    (h6 : isIPv6CIDR c = true) (hm : isIPv4MappedCIDR c = false) :
    IpBelongsToCIDR a c = .ok false := by
  obtain ⟨a0, a1, a2, a3, ha⟩ := isIPv4Address_iff a h4
  unfold isIPv6CIDR at h6
  unfold isIPv4MappedCIDR at hm
  cases h : ParseCIDR c with
  | none => rw [h] at h6; simp at h6
  | some n =>
    rw [h] at h6 hm
    simp only [decide_eq_true_eq] at h6
    simp only [h6, decide_True, Bool.true_and, decide_eq_false_iff_not] at hm
    rcases ParseCIDR_lengths c n h with h1 | ⟨h1, h2⟩
    · omega
    · have hn := To4_sixteen_none n.IP h2 hm
      unfold IpBelongsToCIDR
      rw [ParseIP_of_v4 a _ ha, h]
      simp [IPNet.Contains, networkNumberAndMask, To4_mapped, hn, h1, h2]

theorem isIPv4MappedAddress_of_not_IPv6 (a : String) (h : isIPv6Address a = false) :
    isIPv4MappedAddress a = false := by
  unfold isIPv6Address at h
  unfold isIPv4MappedAddress
  cases hp : ParseAddr a.toList with
  | none => rfl
  | some x =>
    cases x with
    | v4 b => rfl
    | v6 b z =>
      rw [hp] at h
      simp only [decide_eq_false_iff_not] at h
      simp [h]

theorem isIPv4MappedCIDR_of_not_IPv6 (c : String) (h : isIPv6CIDR c = false) :
    isIPv4MappedCIDR c = false := by
  unfold isIPv6CIDR at h
  unfold isIPv4MappedCIDR
  cases hp : ParseCIDR c with
  | none => rfl
  | some n =>
    rw [hp] at h
    simp only [decide_eq_false_iff_not] at h
    simp [h]

/-- On an IPv6 CIDR whose network is IPv4-mapped, `RemapAddressUsingCidr` passes its
check of the network and then reads the first four bytes of the 16-byte mask:
the address is remapped to the network address, without its host bits. -/
theorem RemapAddressUsingCidr_mapped_network :
    isIPv4MappedCIDR "::ffff:10.244.0.0/120" = true ∧
    RemapAddressUsingCidr "10.0.1.5" "::ffff:10.244.0.0/120" = .ok ["10.244.0.0"] ∧
    RemapAddressUsingCidr "10.0.1.77" "::ffff:10.244.0.0/120" = .ok ["10.244.0.0"] := by
  decide

/-! ## The claims -/

/-- C1. For every IPv4 address `a` and every `CidrInfo` `p` with well-formed IPv4
CIDRs such that `IpBelongsToCIDR a p.PodCIDR` is true,
`RemapAddressUsingCidr a p.ShortcutPodCIDR` succeeds with exactly one address
`r`; `r` lies inside `p.ShortcutPodCIDR`, and the host bits of `r` under the mask
of `p.ShortcutPodCIDR` are the host bits of `a`; that mask is the mask of
`p.PodCIDR` when both CIDRs have the same prefix length. -/
theorem remap_lies_in_shortcut_cidr_and_keeps_host_bits (a : String) (p : CidrInfo)
    (ha : isIPv4Address a = true) (hpod : isIPv4CIDR p.PodCIDR = true)
    (hsc : isIPv4CIDR p.ShortcutPodCIDR = true)
    (hin : IpBelongsToCIDR a p.PodCIDR = .ok true) :
    ∃ (r : String) (ab rb : List Nat) (net : IPNet),
      RemapAddressUsingCidr a p.ShortcutPodCIDR = .ok [r] ∧
      IpBelongsToCIDR r p.ShortcutPodCIDR = .ok true ∧
      ParseCIDR p.ShortcutPodCIDR = some net ∧
      addrBytes a = some ab ∧ addrBytes r = some rb ∧
      hostBits rb net.Mask = hostBits ab net.Mask ∧
      ∀ podNet : IPNet, ParseCIDR p.PodCIDR = some podNet → podNet.Mask = net.Mask →
        hostBits rb podNet.Mask = hostBits ab podNet.Mask := by
  obtain ⟨a0, a1, a2, a3, hpa⟩ := isIPv4Address_iff a ha
  obtain ⟨b0, b1, b2, b3, m0, m1, m2, m3, h0, h1, h2, h3, hc⟩ := isIPv4CIDR_iff _ hsc
  have hr := ParseAddr_IPv4String (remapByte (b0 &&& m0) m0 a0) (remapByte (b1 &&& m1) m1 a1)
    (remapByte (b2 &&& m2) m2 a2) (remapByte (b3 &&& m3) m3 a3) (remap_byte_lt _ _ _ h0)
    (remap_byte_lt _ _ _ h1) (remap_byte_lt _ _ _ h2) (remap_byte_lt _ _ _ h3)
  refine ⟨_, [a0, a1, a2, a3], [remapByte (b0 &&& m0) m0 a0, remapByte (b1 &&& m1) m1 a1,
    remapByte (b2 &&& m2) m2 a2, remapByte (b3 &&& m3) m3 a3], _,
    RemapAddressUsingCidr_v4 a _ _ _ _ _ _ _ _ _ _ _ _ _ hpa hc, ?_, hc, ?_, ?_, ?_, ?_⟩
  · rw [IpBelongsToCIDR_v4 _ _ _ _ _ _ _ _ _ _ _ _ _ _ hr hc]
    simp only [remapByte, remap_byte_land _ _ _ h0, remap_byte_land _ _ _ h1,
      remap_byte_land _ _ _ h2, remap_byte_land _ _ _ h3, Nat.and_assoc, Nat.and_self]
    simp
  · simp only [addrBytes, ParseIP_of_v4 a _ hpa, To4_mapped]
  · simp only [addrBytes, ParseIP_of_v4 _ _ hr, To4_mapped]
  · simp only [hostBits, List.zipWith, remapByte, remap_byte_host _ _ _ h0,
      remap_byte_host _ _ _ h1, remap_byte_host _ _ _ h2, remap_byte_host _ _ _ h3]
  · intro podNet _ hmask
    rw [hmask]
    simp only [hostBits, List.zipWith, remapByte, remap_byte_host _ _ _ h0,
      remap_byte_host _ _ _ h1, remap_byte_host _ _ _ h2, remap_byte_host _ _ _ h3]

/-- C1, the scenario of the specification: `10.0.1.5` seen in `10.0.1.0/24` with the
shortcut CIDR `10.244.0.0/24` is remapped to `10.244.0.5`. -/
theorem remap_lies_in_shortcut_cidr_and_keeps_host_bits_witness :
    RemapAddressUsingCidr "10.0.1.5" "10.244.0.0/24" = .ok ["10.244.0.5"] ∧
    ∃ (r : String) (ab rb : List Nat) (net : IPNet),
      RemapAddressUsingCidr "10.0.1.5" (CidrInfo.mk "10.0.1.0/24" "10.244.0.0/24").ShortcutPodCIDR
        = .ok [r] ∧
      IpBelongsToCIDR r (CidrInfo.mk "10.0.1.0/24" "10.244.0.0/24").ShortcutPodCIDR = .ok true ∧
      ParseCIDR (CidrInfo.mk "10.0.1.0/24" "10.244.0.0/24").ShortcutPodCIDR = some net ∧
      addrBytes "10.0.1.5" = some ab ∧ addrBytes r = some rb ∧
      hostBits rb net.Mask = hostBits ab net.Mask ∧
      ∀ podNet : IPNet,
        ParseCIDR (CidrInfo.mk "10.0.1.0/24" "10.244.0.0/24").PodCIDR = some podNet →
        podNet.Mask = net.Mask → hostBits rb podNet.Mask = hostBits ab podNet.Mask :=
  ⟨by decide, remap_lies_in_shortcut_cidr_and_keeps_host_bits "10.0.1.5"
    ⟨"10.0.1.0/24", "10.244.0.0/24"⟩ (by decide) (by decide) (by decide) (by decide)⟩

/-- C2. For every reflected source endpoint of which at least one address matches
a shortcut pair (the resolution of the address against the pairs succeeds),
`RemoteEndpointSliceEndpoints` emits for it exactly one endpoint per matched
address, in address order, each carrying only the single remapped address, and
no default-path endpoint: the addresses of the endpoints emitted for it are
exactly the remapped addresses, and the translator is not called. -/
theorem one_shortcut_endpoint_per_matched_address (env : ForgeEnv) (pre : List Endpoint)
    (src : Endpoint) (nodes : NodeLister) (translator : EndpointTranslator)
    (listResult : Except String (List ForeignClusterConnection)) (clusterName : String)
    (hrefl : EndpointToBeReflected env src nodes = true)
    (hmatch : ∃ a ∈ src.Addresses,
      (resolveShortcut a (shortcutcidrs listResult clusterName)).isSome = true) :
    ∃ emitted : List Endpoint,
      (RemoteEndpointSliceEndpoints env (pre ++ [src]) nodes translator listResult
        clusterName).remotes =
        (RemoteEndpointSliceEndpoints env pre nodes translator listResult clusterName).remotes
          ++ emitted ∧
      emitted.map (fun e => e.Addresses) =
        src.Addresses.filterMap (fun a => resolveShortcut a (shortcutcidrs listResult clusterName)) ∧
      (∀ e ∈ emitted, ∃ r, e.Addresses = [r]) ∧
      (RemoteEndpointSliceEndpoints env (pre ++ [src]) nodes translator listResult
        clusterName).translatorCalls =
        (RemoteEndpointSliceEndpoints env pre nodes translator listResult
          clusterName).translatorCalls := by
  obtain ⟨a, ha, hsome⟩ := hmatch
  have hne : (src.Addresses.filterMap
      (fun a => resolveShortcut a (shortcutcidrs listResult clusterName))).isEmpty = false := by
    cases hm : src.Addresses.filterMap
        (fun a => resolveShortcut a (shortcutcidrs listResult clusterName)) with
    | nil =>
      have := (filterMap_resolve_nil_iff _ _).1 hm a ha
      rw [this] at hsome; simp at hsome
    | cons r rest => rfl
  rw [RemoteEndpointSliceEndpoints_append, forgeStep_eq, if_neg (by simp [hrefl]), if_pos hne]
  refine ⟨_, rfl, ?_, ?_, rfl⟩
  · simp [forgedEndpoint, Function.comp_def]
  · intro e he
    simp only [List.mem_map, List.mem_filterMap] at he
    obtain ⟨r, ⟨a1, _, hres⟩, rfl⟩ := he
    exact resolveShortcut_singleton _ _ _ hres

/-- C2, the scenario of the specification: the addresses `10.0.1.5` and `10.0.9.9`
with the single pair `10.0.1.0/24 → 10.244.0.0/24` yield exactly one endpoint,
with the addresses `[10.244.0.5]`. -/
theorem one_shortcut_endpoint_per_matched_address_witness :
    (RemoteEndpointSliceEndpoints sampleEnv [sampleEndpoint ["10.0.1.5", "10.0.9.9"] none]
      sampleNodes (fun l => l) sampleConnections "cluster-b").remotes.map (fun e => e.Addresses)
      = [["10.244.0.5"]] ∧
    ∃ emitted : List Endpoint,
      (RemoteEndpointSliceEndpoints sampleEnv ([] ++ [sampleEndpoint ["10.0.1.5", "10.0.9.9"] none])
        sampleNodes (fun l => l) sampleConnections "cluster-b").remotes =
        (RemoteEndpointSliceEndpoints sampleEnv [] sampleNodes (fun l => l) sampleConnections
          "cluster-b").remotes ++ emitted ∧
      emitted.map (fun e => e.Addresses) =
        (sampleEndpoint ["10.0.1.5", "10.0.9.9"] none).Addresses.filterMap
          (fun a => resolveShortcut a (shortcutcidrs sampleConnections "cluster-b")) ∧
      (∀ e ∈ emitted, ∃ r, e.Addresses = [r]) ∧
      (RemoteEndpointSliceEndpoints sampleEnv ([] ++ [sampleEndpoint ["10.0.1.5", "10.0.9.9"] none])
        sampleNodes (fun l => l) sampleConnections "cluster-b").translatorCalls =
        (RemoteEndpointSliceEndpoints sampleEnv [] sampleNodes (fun l => l) sampleConnections
          "cluster-b").translatorCalls :=
  ⟨by decide, one_shortcut_endpoint_per_matched_address sampleEnv []
    (sampleEndpoint ["10.0.1.5", "10.0.9.9"] none) sampleNodes (fun l => l) sampleConnections
    "cluster-b" (by decide) ⟨"10.0.1.5", by decide, by decide⟩⟩

/-- C3. For every reflected source endpoint none of whose addresses matches a
shortcut pair - in particular when the connection list could not be obtained or
the pair list is empty - `RemoteEndpointSliceEndpoints` emits exactly
one endpoint for it, whose address list is the translator applied once to the full
original address list, and adds nothing to the shortcut-address list. -/
theorem default_endpoint_when_no_address_matches (env : ForgeEnv) (pre : List Endpoint)
    (src : Endpoint) (nodes : NodeLister) (translator : EndpointTranslator)
    (listResult : Except String (List ForeignClusterConnection)) (clusterName : String)
    (hrefl : EndpointToBeReflected env src nodes = true)
    (hno : (∃ e, listResult = .error e) ∨ shortcutcidrs listResult clusterName = [] ∨
      ∀ a ∈ src.Addresses, resolveShortcut a (shortcutcidrs listResult clusterName) = none) :
    RemoteEndpointSliceEndpoints env (pre ++ [src]) nodes translator listResult clusterName =
      { remotes :=
          (RemoteEndpointSliceEndpoints env pre nodes translator listResult clusterName).remotes
            ++ [forgedEndpoint env src (translator src.Addresses)
              (RemoteEndpointTargetRef env src.TargetRef)]
        shortcutAddresses :=
          (RemoteEndpointSliceEndpoints env pre nodes translator listResult
            clusterName).shortcutAddresses
        translatorCalls :=
          (RemoteEndpointSliceEndpoints env pre nodes translator listResult
            clusterName).translatorCalls ++ [src.Addresses] } := by
  have hnone : ∀ a ∈ src.Addresses,
      resolveShortcut a (shortcutcidrs listResult clusterName) = none := by
    rcases hno with ⟨e, he⟩ | h | h
    · intro a _; rw [he, shortcutcidrs_error]; rfl
    · intro a _; rw [h]; rfl
    · exact h
  have hnil := (filterMap_resolve_nil_iff _ _).2 hnone
  rw [RemoteEndpointSliceEndpoints_append, forgeStep_eq, if_neg (by simp [hrefl]), hnil]
  simp

/-- C3, the scenario of the specification: the endpoint with the address
`10.0.9.9`, which no shortcut matches, yields one endpoint whose addresses are
the translator applied to `[10.0.9.9]`; the same holds when the connection list
could not be obtained. -/
theorem default_endpoint_when_no_address_matches_witness :
    (RemoteEndpointSliceEndpoints sampleEnv [sampleEndpoint ["10.0.9.9"] none] sampleNodes
      (fun l => l.map (fun a => "mapped-" ++ a)) sampleConnections "cluster-b").remotes.map
        (fun e => e.Addresses) = [["mapped-10.0.9.9"]] ∧
    RemoteEndpointSliceEndpoints sampleEnv ([] ++ [sampleEndpoint ["10.0.1.5"] none]) sampleNodes
      (fun l => l.map (fun a => "mapped-" ++ a)) (.error "connection refused") "cluster-b" =
      { remotes :=
          (RemoteEndpointSliceEndpoints sampleEnv [] sampleNodes
            (fun l => l.map (fun a => "mapped-" ++ a)) (.error "connection refused")
            "cluster-b").remotes
            ++ [forgedEndpoint sampleEnv (sampleEndpoint ["10.0.1.5"] none)
              ((fun l => l.map (fun a => "mapped-" ++ a)) (sampleEndpoint ["10.0.1.5"] none).Addresses)
              (RemoteEndpointTargetRef sampleEnv (sampleEndpoint ["10.0.1.5"] none).TargetRef)]
        shortcutAddresses :=
          (RemoteEndpointSliceEndpoints sampleEnv [] sampleNodes
            (fun l => l.map (fun a => "mapped-" ++ a)) (.error "connection refused")
            "cluster-b").shortcutAddresses
        translatorCalls :=
          (RemoteEndpointSliceEndpoints sampleEnv [] sampleNodes
            (fun l => l.map (fun a => "mapped-" ++ a)) (.error "connection refused")
            "cluster-b").translatorCalls ++ [(sampleEndpoint ["10.0.1.5"] none).Addresses] } :=
  ⟨by decide, default_endpoint_when_no_address_matches sampleEnv []
    (sampleEndpoint ["10.0.1.5"] none) sampleNodes (fun l => l.map (fun a => "mapped-" ++ a))
    (.error "connection refused") "cluster-b" (by decide) (Or.inl ⟨_, rfl⟩)⟩

/-- C6. `EndpointToBeReflected` returns true if and only if the endpoint has no
node name, or the node is found, its owning cluster ID is resolved without error
and differs from the destination (remote) cluster; it returns false when the node
lookup fails, when the cluster ID cannot be retrieved from the node, and when the
owning cluster equals the destination cluster. -/
theorem EndpointToBeReflected_iff (env : ForgeEnv) (endpoint : Endpoint) (nodes : NodeLister) :
    (EndpointToBeReflected env endpoint nodes = true ↔
      (endpoint.NodeName = none ∨
        ∃ name node id, endpoint.NodeName = some name ∧ nodes name = .ok node ∧
          env.RetrieveRemoteClusterIDFromNode node = .ok id ∧ id ≠ env.RemoteCluster)) ∧
    (∀ name e, endpoint.NodeName = some name → nodes name = .error e →
      EndpointToBeReflected env endpoint nodes = false) ∧
    (∀ name node e, endpoint.NodeName = some name → nodes name = .ok node →
      env.RetrieveRemoteClusterIDFromNode node = .error e →
      EndpointToBeReflected env endpoint nodes = false) ∧
    (∀ name node, endpoint.NodeName = some name → nodes name = .ok node →
      env.RetrieveRemoteClusterIDFromNode node = .ok env.RemoteCluster →
      EndpointToBeReflected env endpoint nodes = false) := by
  refine ⟨?_, ?_, ?_, ?_⟩
  · unfold EndpointToBeReflected
    cases hn : endpoint.NodeName with
    | none => simp
    | some name =>
      cases hl : nodes name with
      | error e => simp [hl]
      | ok node =>
        cases hr : env.RetrieveRemoteClusterIDFromNode node with
        | error e => simp [hl, hr]
        | ok id => simp [hl, hr]
  · intro name e hn hl
    simp [EndpointToBeReflected, hn, hl]
  · intro name node e hn hl hr
    simp [EndpointToBeReflected, hn, hl, hr]
  · intro name node hn hl hr
    simp [EndpointToBeReflected, hn, hl, hr]

/-- C6 on the scenarios: an endpoint without node and an endpoint on a node of a
third cluster are reflected; an endpoint on an unknown node, on a node without
cluster label, or on a node of the destination cluster is not. -/
theorem EndpointToBeReflected_iff_witness :
    EndpointToBeReflected sampleEnv (sampleEndpoint ["10.0.1.5"] none) sampleNodes = true ∧
    EndpointToBeReflected sampleEnv (sampleEndpoint ["10.0.1.5"] (some "node-c")) sampleNodes
      = true ∧
    EndpointToBeReflected sampleEnv (sampleEndpoint ["10.0.1.5"] (some "node-z")) sampleNodes
      = false ∧
    EndpointToBeReflected sampleEnv (sampleEndpoint ["10.0.1.5"] (some "node-x")) sampleNodes
      = false ∧
    EndpointToBeReflected sampleEnv (sampleEndpoint ["10.0.1.5"] (some "node-b")) sampleNodes
      = false :=
  ⟨((EndpointToBeReflected_iff sampleEnv (sampleEndpoint ["10.0.1.5"] none) sampleNodes).1).2
      (Or.inl rfl),
    ((EndpointToBeReflected_iff sampleEnv (sampleEndpoint ["10.0.1.5"] (some "node-c"))
      sampleNodes).1).2 (Or.inr ⟨"node-c", ⟨"node-c", [("liqo.io/remote-cluster-id", "cluster-c")]⟩,
        "cluster-c", rfl, by decide, by decide, by decide⟩),
    (EndpointToBeReflected_iff sampleEnv (sampleEndpoint ["10.0.1.5"] (some "node-z"))
      sampleNodes).2.1 "node-z" "node not found" rfl (by decide),
    (EndpointToBeReflected_iff sampleEnv (sampleEndpoint ["10.0.1.5"] (some "node-x"))
      sampleNodes).2.2.1 "node-x" ⟨"node-x", []⟩ "cluster id label not found" rfl (by decide)
      (by decide),
    (EndpointToBeReflected_iff sampleEnv (sampleEndpoint ["10.0.1.5"] (some "node-b"))
      sampleNodes).2.2.2 "node-b" ⟨"node-b", [("liqo.io/remote-cluster-id", "cluster-b")]⟩ rfl
      (by decide) (by decide)⟩

/-- C7. In `RemoteEndpointSliceEndpoints` a source endpoint contributes at least
one emitted endpoint if and only if `EndpointToBeReflected` accepts it: a
rejected endpoint, in particular one whose node is owned by the destination cluster,
contributes no endpoint and no shortcut address, and an endpoint with no node
reference always contributes at least one endpoint. -/
theorem contributes_iff_reflected (env : ForgeEnv) (pre : List Endpoint)
    (src : Endpoint) (nodes : NodeLister) (translator : EndpointTranslator)
    (listResult : Except String (List ForeignClusterConnection)) (clusterName : String) :
    (∃ emitted : List Endpoint,
      (RemoteEndpointSliceEndpoints env (pre ++ [src]) nodes translator listResult
        clusterName).remotes =
        (RemoteEndpointSliceEndpoints env pre nodes translator listResult clusterName).remotes
          ++ emitted ∧
      (emitted ≠ [] ↔ EndpointToBeReflected env src nodes = true)) ∧
    (EndpointToBeReflected env src nodes = false →
      RemoteEndpointSliceEndpoints env (pre ++ [src]) nodes translator listResult clusterName =
        RemoteEndpointSliceEndpoints env pre nodes translator listResult clusterName) ∧
    (∀ name node, src.NodeName = some name → nodes name = .ok node →
      env.RetrieveRemoteClusterIDFromNode node = .ok env.RemoteCluster →
      RemoteEndpointSliceEndpoints env (pre ++ [src]) nodes translator listResult clusterName =
        RemoteEndpointSliceEndpoints env pre nodes translator listResult clusterName) ∧
    (src.NodeName = none →
      (RemoteEndpointSliceEndpoints env pre nodes translator listResult
        clusterName).remotes.length <
      (RemoteEndpointSliceEndpoints env (pre ++ [src]) nodes translator listResult
        clusterName).remotes.length) := by
  have key : ∃ emitted : List Endpoint,
      (RemoteEndpointSliceEndpoints env (pre ++ [src]) nodes translator listResult
        clusterName).remotes =
        (RemoteEndpointSliceEndpoints env pre nodes translator listResult clusterName).remotes
          ++ emitted ∧
      (emitted ≠ [] ↔ EndpointToBeReflected env src nodes = true) := by
    rw [RemoteEndpointSliceEndpoints_append, forgeStep_eq]
    cases hr : EndpointToBeReflected env src nodes with
    | false => exact ⟨[], by simp, by simp⟩
    | true =>
      cases hm : src.Addresses.filterMap
          (fun a => resolveShortcut a (shortcutcidrs listResult clusterName)) with
      | nil => exact ⟨_, by simp; rfl, by simp⟩
      | cons r rest => exact ⟨_, by simp; rfl, by simp⟩
  have hrej : EndpointToBeReflected env src nodes = false →
      RemoteEndpointSliceEndpoints env (pre ++ [src]) nodes translator listResult clusterName =
        RemoteEndpointSliceEndpoints env pre nodes translator listResult clusterName := by
    intro h
    rw [RemoteEndpointSliceEndpoints_append, forgeStep_eq, if_pos h]
  refine ⟨key, hrej, ?_, ?_⟩
  · intro name node hn hl hid
    exact hrej (by simp [EndpointToBeReflected, hn, hl, hid])
  · intro hn
    obtain ⟨emitted, he, hiff⟩ := key
    have hr : EndpointToBeReflected env src nodes = true := by
      simp [EndpointToBeReflected, hn]
    have hne := hiff.2 hr
    rw [he, List.length_append]
    have : 0 < emitted.length := List.length_pos.2 hne
    omega

/-- C7 on the scenarios: an endpoint on a node of the destination cluster changes
nothing in the result, whatever its addresses, and an endpoint without node adds
an endpoint even when the connection list could not be obtained. -/
theorem contributes_iff_reflected_witness :
    RemoteEndpointSliceEndpoints sampleEnv ([] ++ [sampleEndpoint ["10.0.1.5"] (some "node-b")])
      sampleNodes (fun l => l) sampleConnections "cluster-b" =
      RemoteEndpointSliceEndpoints sampleEnv [] sampleNodes (fun l => l) sampleConnections
        "cluster-b" ∧
    (RemoteEndpointSliceEndpoints sampleEnv [] sampleNodes (fun l => l)
      (.error "connection refused") "cluster-b").remotes.length <
    (RemoteEndpointSliceEndpoints sampleEnv ([] ++ [sampleEndpoint [] none]) sampleNodes
      (fun l => l) (.error "connection refused") "cluster-b").remotes.length :=
  ⟨(contributes_iff_reflected sampleEnv [] (sampleEndpoint ["10.0.1.5"] (some "node-b"))
      sampleNodes (fun l => l) sampleConnections "cluster-b").2.2.1 "node-b"
      ⟨"node-b", [("liqo.io/remote-cluster-id", "cluster-b")]⟩ rfl (by decide) (by decide),
    (contributes_iff_reflected sampleEnv [] (sampleEndpoint [] none) sampleNodes (fun l => l)
      (.error "connection refused") "cluster-b").2.2.2 rfl⟩

/-- C4, at the failing input: an endpoint without `TargetRef` whose one address is
in the shortcut-address list. The run stops on the nil pointer dereference of
`endpoints[i].TargetRef.Name`, an argument of the log call of the skip branch,
instead of returning no error. -/
theorem MapEndpointsWithConfiguration_nil_targetRef :
    MapEndpointsWithConfiguration (fun a => .ok ("mapped-" ++ a)) [bareEndpoint ["10.244.0.5"]]
      ["10.244.0.5"] =
      { endpoints := [bareEndpoint ["10.244.0.5"]]
        outcome := .nilDereference
        mapperCalls := [] } := by
  decide

/-- C5, as amended. For every input of `RemoteEndpointSliceEndpoints` whose
source endpoints carry a target reference and every mapper that succeeds on the
addresses outside the emitted shortcut-address list, running
`MapEndpointsWithConfiguration` on the emitted endpoints with the emitted list
returns no error and applies the mapper to an address occurrence if and only if
the address is not (by value) in the emitted list: every address of a
shortcut-emitted endpoint is in the list and stays untouched, and any other
address is replaced by the mapper's result unless it equals an emitted shortcut
address. -/
theorem handoff_maps_exactly_addresses_outside_the_list (env : ForgeEnv) (locals : List Endpoint)
    (nodes : NodeLister) (translator : EndpointTranslator)
    (listResult : Except String (List ForeignClusterConnection)) (clusterName : String)
    (m : String → Except String String) (f : String → String)
    (hT : ∀ src ∈ locals, src.TargetRef ≠ none)
    (hm : ∀ a, contains (RemoteEndpointSliceEndpoints env locals nodes translator listResult
      clusterName).shortcutAddresses a = false → m a = .ok (f a)) :
    MapEndpointsWithConfiguration m
      (RemoteEndpointSliceEndpoints env locals nodes translator listResult clusterName).remotes
      (RemoteEndpointSliceEndpoints env locals nodes translator listResult
        clusterName).shortcutAddresses =
      { endpoints := (RemoteEndpointSliceEndpoints env locals nodes translator listResult
          clusterName).remotes.map (fun ep =>
            { ep with Addresses := ep.Addresses.map (fun a =>
                if contains (RemoteEndpointSliceEndpoints env locals nodes translator listResult
                  clusterName).shortcutAddresses a then a else f a) })
        outcome := .ok
        mapperCalls := ((RemoteEndpointSliceEndpoints env locals nodes translator listResult
          clusterName).remotes.map (fun ep => ep.Addresses)).flatten.filter (fun a =>
            !contains (RemoteEndpointSliceEndpoints env locals nodes translator listResult
              clusterName).shortcutAddresses a) } ∧
    ∀ src ∈ locals, EndpointToBeReflected env src nodes = true →
      ∀ r ∈ src.Addresses.filterMap
        (fun a => resolveShortcut a (shortcutcidrs listResult clusterName)),
        ∃ x, r = [x] ∧ contains (RemoteEndpointSliceEndpoints env locals nodes translator
          listResult clusterName).shortcutAddresses x = true := by
  refine ⟨?_, ?_⟩
  · unfold MapEndpointsWithConfiguration
    apply mapEndpointLoop_ok
    · intro ep hep
      left
      rw [RemoteEndpointSliceEndpoints_flatten] at hep
      simp only [List.mem_flatten, List.mem_map] at hep
      obtain ⟨l, ⟨src, hsrc, rfl⟩, hl⟩ := hep
      exact forgeStep_targetRef_ne_none env nodes translator _ src (hT src hsrc) ep hl
    · intro ep _ a _ hc
      exact hm a hc
  · intro src hsrc hrefl r hr
    obtain ⟨x, hx, hmem⟩ := matched_mem_shortcutAddresses env locals nodes translator listResult
      clusterName src hsrc hrefl r hr
    exact ⟨x, hx, (contains_eq_true_iff _ _).2 hmem⟩

/-- C5, as amended, on the hand-off scenario. -/
theorem handoff_maps_exactly_addresses_outside_the_list_witness :
    (MapEndpointsWithConfiguration (fun a => .ok ("mapped-" ++ a))
      (RemoteEndpointSliceEndpoints sampleEnv
        [sampleEndpoint ["10.0.1.5"] none, sampleEndpoint ["10.0.9.9"] none] sampleNodes
        (fun l => l) sampleConnections "cluster-b").remotes
      (RemoteEndpointSliceEndpoints sampleEnv
        [sampleEndpoint ["10.0.1.5"] none, sampleEndpoint ["10.0.9.9"] none] sampleNodes
        (fun l => l) sampleConnections "cluster-b").shortcutAddresses).outcome = .ok ∧
    (MapEndpointsWithConfiguration (fun a => .ok ("mapped-" ++ a))
      (RemoteEndpointSliceEndpoints sampleEnv
        [sampleEndpoint ["10.0.1.5"] none, sampleEndpoint ["10.0.9.9"] none] sampleNodes
        (fun l => l) sampleConnections "cluster-b").remotes
      (RemoteEndpointSliceEndpoints sampleEnv
        [sampleEndpoint ["10.0.1.5"] none, sampleEndpoint ["10.0.9.9"] none] sampleNodes
        (fun l => l) sampleConnections "cluster-b").shortcutAddresses).mapperCalls
      = ["10.0.9.9"] := by
  have h := (handoff_maps_exactly_addresses_outside_the_list sampleEnv
    [sampleEndpoint ["10.0.1.5"] none, sampleEndpoint ["10.0.9.9"] none] sampleNodes
    (fun l => l) sampleConnections "cluster-b" (fun a => .ok ("mapped-" ++ a))
    (fun a => "mapped-" ++ a) (by decide) (fun _ _ => rfl)).1
  rw [h]
  exact ⟨rfl, by decide⟩

/-- C5, counterexample. With the pair `10.0.1.0/24 → 10.244.0.0/24`, the
source endpoint `10.0.1.5` is emitted on the shortcut path as `10.244.0.5`, and the
source endpoint `10.244.0.5`, which matches no shortcut, is emitted on the default
path by the translator (here the identity). The hand-off then applies the mapper
to no address at all: the address of the default-path endpoint is skipped
because it equals an emitted shortcut address. -/
theorem handoff_skips_default_path_address_equal_to_shortcut_address :
    (RemoteEndpointSliceEndpoints sampleEnv collidingEndpoints sampleNodes (fun l => l)
      sampleConnections "cluster-b").remotes.map (fun e => e.Addresses)
      = [["10.244.0.5"], ["10.244.0.5"]] ∧
    (RemoteEndpointSliceEndpoints sampleEnv collidingEndpoints sampleNodes (fun l => l)
      sampleConnections "cluster-b").shortcutAddresses = ["10.244.0.5"] ∧
    (RemoteEndpointSliceEndpoints sampleEnv collidingEndpoints sampleNodes (fun l => l)
      sampleConnections "cluster-b").translatorCalls = [["10.244.0.5"]] ∧
    (MapEndpointsWithConfiguration (fun a => .ok ("mapped-" ++ a))
      (RemoteEndpointSliceEndpoints sampleEnv collidingEndpoints sampleNodes (fun l => l)
        sampleConnections "cluster-b").remotes
      (RemoteEndpointSliceEndpoints sampleEnv collidingEndpoints sampleNodes (fun l => l)
        sampleConnections "cluster-b").shortcutAddresses).mapperCalls = [] ∧
    (MapEndpointsWithConfiguration (fun a => .ok ("mapped-" ++ a))
      (RemoteEndpointSliceEndpoints sampleEnv collidingEndpoints sampleNodes (fun l => l)
        sampleConnections "cluster-b").remotes
      (RemoteEndpointSliceEndpoints sampleEnv collidingEndpoints sampleNodes (fun l => l)
        sampleConnections "cluster-b").shortcutAddresses).endpoints.map (fun e => e.Addresses)
      = [["10.244.0.5"], ["10.244.0.5"]] := by
  decide

/-- C8, at the failing input: two records whose side A is `cluster-b`, both with a
`PodCIDR`. The `break` after the first match on side A leaves the loop, so only
the first record's CIDRs are returned and the second record is omitted. -/
theorem GetAllCidrsByClusterName_stops_at_first_match_on_side_A :
    GetAllCidrsByClusterName (some twoShortcuts) "cluster-b" =
      .ok [⟨"10.0.1.0/24", "10.244.0.0/24"⟩] ∧
    twoShortcuts.map (fun fcc => (fcc.ForeignClusterA, fcc.ForeignClusterANetworking.PodCIDR)) =
      [("cluster-b", "10.0.1.0/24"), ("cluster-b", "10.0.2.0/24")] := by
  decide

/-- C10, counterexample. `IpBelongsToCIDR` returns `(false, nil)`, not an error, for
the IPv6 address `2001:db8::1` tested against an IPv4 CIDR and for an IPv4
address tested against the IPv6 CIDR `2001:db8::/32`. The text `::ffff:10.0.1.5`,
an IPv6 address and no IPv4 address, is read by Go as the IPv4 address it
embeds: `IpBelongsToCIDR` finds it in `10.0.1.0/24` and `RemapAddressUsingCidr`
remaps it, both without error. -/
theorem IpBelongsToCIDR_no_error_for_IPv6 :
    isIPv4Address "2001:db8::1" = false ∧
    IpBelongsToCIDR "2001:db8::1" "10.0.1.0/24" = .ok false ∧
    isIPv4CIDR "2001:db8::/32" = false ∧
    IpBelongsToCIDR "10.0.1.5" "2001:db8::/32" = .ok false ∧
    isIPv4Address "::ffff:10.0.1.5" = false ∧
    IpBelongsToCIDR "::ffff:10.0.1.5" "10.0.1.0/24" = .ok true ∧
    RemapAddressUsingCidr "::ffff:10.0.1.5" "10.244.0.0/24" = .ok ["10.244.0.5"] := by
  decide

/-- C10, as amended. For an address text that is neither an IPv4 address nor an
IPv6 address without zone, and for a CIDR text that is neither an IPv4 nor an
IPv6 CIDR, `IpBelongsToCIDR` and `RemapAddressUsingCidr` return an error rather
than a non-match, and `IpBelongsToCIDR` returns an error in no other case.
`RemapAddressUsingCidr` also returns an error for every address that is neither
an IPv4 address nor an IPv4-mapped IPv6 address, and for every CIDR that is
neither an IPv4 CIDR nor an IPv6 CIDR whose network address is IPv4-mapped.
`IpBelongsToCIDR` returns `(false, nil)` for an IPv6 address that is not
IPv4-mapped tested against an IPv4 CIDR, and for an IPv4 address tested against
an IPv6 CIDR whose network address is not IPv4-mapped. -/
theorem resolution_helpers_errors_by_family (a c : String) :
    ((∃ e, IpBelongsToCIDR a c = .error e) ↔
      ((isIPv4Address a = false ∧ isIPv6Address a = false) ∨
        (isIPv4CIDR c = false ∧ isIPv6CIDR c = false))) ∧
    (((isIPv4Address a = false ∧ isIPv6Address a = false) ∨
        (isIPv4CIDR c = false ∧ isIPv6CIDR c = false)) →
      ∃ e, RemapAddressUsingCidr a c = .error e) ∧
    ((isIPv4Address a = false ∧ isIPv4MappedAddress a = false) →
      ∃ e, RemapAddressUsingCidr a c = .error e) ∧
    ((isIPv4CIDR c = false ∧ isIPv4MappedCIDR c = false) →
      ∃ e, RemapAddressUsingCidr a c = .error e) ∧
    ((isIPv6Address a = true ∧ isIPv4MappedAddress a = false ∧ isIPv4CIDR c = true) →
      IpBelongsToCIDR a c = .ok false) ∧
    ((isIPv4Address a = true ∧ isIPv6CIDR c = true ∧ isIPv4MappedCIDR c = false) →
      IpBelongsToCIDR a c = .ok false) := by
  have hA := fun (h4 : isIPv4Address a = false) (hm : isIPv4MappedAddress a = false) =>
    RemapAddressUsingCidr_error_of_addrBytes_none a c (addrBytes_none_of_not_IPv4 a h4 hm)
  have hC := fun (h4 : isIPv4CIDR c = false) (hm : isIPv4MappedCIDR c = false) =>
    RemapAddressUsingCidr_error_of_network_none a c
      (fun n hn => network_To4_none_of_not_IPv4 c n hn h4 hm)
  refine ⟨?_, ?_, ?_, ?_, ?_, ?_⟩
  · rw [← ParseIP_eq_none_iff, ← ParseCIDR_eq_none_iff]
    unfold IpBelongsToCIDR
    cases hp : ParseIP a with
    | none => simp
    | some ip =>
      cases hc : ParseCIDR c with
      | none => simp
      | some n => simp
  · rintro (⟨h4, h6⟩ | ⟨h4, h6⟩)
    · exact hA h4 (isIPv4MappedAddress_of_not_IPv6 a h6)
    · exact hC h4 (isIPv4MappedCIDR_of_not_IPv6 c h6)
  · exact fun h => hA h.1 h.2
  · exact fun h => hC h.1 h.2
  · exact fun h => IpBelongsToCIDR_v6_in_v4 a c h.1 h.2.1 h.2.2
  · exact fun h => IpBelongsToCIDR_v4_in_v6 a c h.1 h.2.1 h.2.2

/-- C10, as amended, on examples: `10.0.1` is no address and `10.0.1.0` no CIDR, so
both helpers return an error; `RemapAddressUsingCidr` returns an error for the
IPv6 address `2001:db8::1` and for the IPv6 CIDR `2001:db8::/32`, for which
`IpBelongsToCIDR` returns `(false, nil)`. -/
theorem resolution_helpers_errors_by_family_witness :
    (∃ e, IpBelongsToCIDR "10.0.1" "10.0.1.0/24" = .error e) ∧
    (∃ e, RemapAddressUsingCidr "10.0.1.5" "10.0.1.0" = .error e) ∧
    (∃ e, RemapAddressUsingCidr "2001:db8::1" "10.244.0.0/24" = .error e) ∧
    (∃ e, RemapAddressUsingCidr "10.0.1.5" "2001:db8::/32" = .error e) ∧
    IpBelongsToCIDR "2001:db8::1" "10.0.1.0/24" = .ok false ∧
    IpBelongsToCIDR "10.0.1.5" "2001:db8::/32" = .ok false :=
  ⟨(resolution_helpers_errors_by_family "10.0.1" "10.0.1.0/24").1.2
      (Or.inl ⟨by decide, by decide⟩),
    (resolution_helpers_errors_by_family "10.0.1.5" "10.0.1.0").2.1
      (Or.inr ⟨by decide, by decide⟩),
    (resolution_helpers_errors_by_family "2001:db8::1" "10.244.0.0/24").2.2.1
      ⟨by decide, by decide⟩,
    (resolution_helpers_errors_by_family "10.0.1.5" "2001:db8::/32").2.2.2.1
      ⟨by decide, by decide⟩,
    (resolution_helpers_errors_by_family "2001:db8::1" "10.0.1.0/24").2.2.2.2.1
      ⟨by decide, by decide, by decide⟩,
    (resolution_helpers_errors_by_family "10.0.1.5" "2001:db8::/32").2.2.2.2.2
      ⟨by decide, by decide, by decide⟩⟩

/-- C11. A pair with a malformed CIDR never aborts translation and behaves as a
non-matching pair: `RemoteEndpointSliceEndpoints` run with a pair list that
contains a `CidrInfo` whose `PodCIDR` or `ShortcutPodCIDR` cannot be parsed
returns the same endpoints and the same shortcut-address list (and makes the same
translator calls) as the run with that pair removed from the list. -/
theorem malformed_pair_behaves_as_removed (env : ForgeEnv) (locals : List Endpoint)
    (nodes : NodeLister) (translator : EndpointTranslator)
    (listResult listResult1 : Except String (List ForeignClusterConnection))
    (clusterName clusterName1 : String) (l1 l2 : List CidrInfo) (p : CidrInfo)
    (hbad : ParseCIDR p.PodCIDR = none ∨ ParseCIDR p.ShortcutPodCIDR = none)
    (hwith : shortcutcidrs listResult clusterName = l1 ++ p :: l2)
    (hwithout : shortcutcidrs listResult1 clusterName1 = l1 ++ l2) :
    RemoteEndpointSliceEndpoints env locals nodes translator listResult clusterName =
      RemoteEndpointSliceEndpoints env locals nodes translator listResult1 clusterName1 := by
  unfold RemoteEndpointSliceEndpoints
  rw [hwith, hwithout, forgeStep_congr env nodes translator (l1 ++ p :: l2) (l1 ++ l2)
    (fun a => resolveShortcut_remove_malformed a p l2 hbad l1)]

/-- C11 on a scenario: with the pair `10.0.1.0/24 → ""` before the pair
`10.0.1.0/24 → 10.244.0.0/24`, the address `10.0.1.5` is resolved by the second
pair, as without the first. -/
theorem malformed_pair_behaves_as_removed_witness :
    (RemoteEndpointSliceEndpoints sampleEnv [sampleEndpoint ["10.0.1.5"] none] sampleNodes
      (fun l => l) malformedConnections "cluster-b").shortcutAddresses = ["10.244.0.5"] ∧
    RemoteEndpointSliceEndpoints sampleEnv [sampleEndpoint ["10.0.1.5"] none] sampleNodes
      (fun l => l) malformedConnections "cluster-b" =
      RemoteEndpointSliceEndpoints sampleEnv [sampleEndpoint ["10.0.1.5"] none] sampleNodes
        (fun l => l) sampleConnections "cluster-b" :=
  ⟨by decide, malformed_pair_behaves_as_removed sampleEnv [sampleEndpoint ["10.0.1.5"] none]
    sampleNodes (fun l => l) malformedConnections sampleConnections "cluster-b" "cluster-b"
    [] [⟨"10.0.1.0/24", "10.244.0.0/24"⟩] ⟨"10.0.1.0/24", ""⟩ (Or.inr (by decide)) (by decide)
    (by decide)⟩

/-- C14. Order preservation as concatenation: for all endpoint lists `xs` and `ys`,
`RemoteEndpointSliceEndpoints` on `xs ++ ys` returns the endpoints of `xs`
followed by the endpoints of `ys`, and the shortcut addresses of `xs` followed by
those of `ys` (and likewise for the translator calls). -/
theorem RemoteEndpointSliceEndpoints_concat (env : ForgeEnv) (xs ys : List Endpoint)
    (nodes : NodeLister) (translator : EndpointTranslator)
    (listResult : Except String (List ForeignClusterConnection)) (clusterName : String) :
    (RemoteEndpointSliceEndpoints env (xs ++ ys) nodes translator listResult clusterName).remotes =
      (RemoteEndpointSliceEndpoints env xs nodes translator listResult clusterName).remotes ++
      (RemoteEndpointSliceEndpoints env ys nodes translator listResult clusterName).remotes ∧
    (RemoteEndpointSliceEndpoints env (xs ++ ys) nodes translator listResult
      clusterName).shortcutAddresses =
      (RemoteEndpointSliceEndpoints env xs nodes translator listResult
        clusterName).shortcutAddresses ++
      (RemoteEndpointSliceEndpoints env ys nodes translator listResult
        clusterName).shortcutAddresses ∧
    (RemoteEndpointSliceEndpoints env (xs ++ ys) nodes translator listResult
      clusterName).translatorCalls =
      (RemoteEndpointSliceEndpoints env xs nodes translator listResult
        clusterName).translatorCalls ++
      (RemoteEndpointSliceEndpoints env ys nodes translator listResult
        clusterName).translatorCalls := by
  simp only [RemoteEndpointSliceEndpoints_flatten, List.map_append, List.flatten_append,
    and_self]

/-- C15, counterexample. A source endpoint whose conditions are `Ready = true`,
`Serving = true`, `Terminating = false` is emitted, on the shortcut path and on
the default path, with `Serving` and `Terminating` unset: the emitted conditions
differ from the conditions of the source. -/
theorem emitted_conditions_drop_serving_and_terminating :
    (sampleEndpoint ["10.0.1.5"] none).Conditions = ⟨some true, some true, some false⟩ ∧
    (RemoteEndpointSliceEndpoints sampleEnv [sampleEndpoint ["10.0.1.5"] none] sampleNodes
      (fun l => l) sampleConnections "cluster-b").remotes.map (fun e => e.Conditions)
      = [⟨some true, none, none⟩] ∧
    (RemoteEndpointSliceEndpoints sampleEnv [sampleEndpoint ["10.0.9.9"] none] sampleNodes
      (fun l => l) sampleConnections "cluster-b").remotes.map (fun e => e.Conditions)
      = [⟨some true, none, none⟩] := by
  decide

/-- C15, as amended. Every endpoint emitted by `RemoteEndpointSliceEndpoints` for a
source endpoint (shortcut or default path) carries the source endpoint's
`Hostname`, `Zone` and `Hints` unchanged, and of its conditions the `Ready`
condition only: `Serving` and `Terminating` are unset in the emitted endpoint
whatever they are in the source. -/
theorem emitted_endpoint_carries_hostname_zone_hints_ready (env : ForgeEnv)
    (pre : List Endpoint) (src : Endpoint) (nodes : NodeLister) (translator : EndpointTranslator)
    (listResult : Except String (List ForeignClusterConnection)) (clusterName : String) :
    ∃ emitted : List Endpoint,
      (RemoteEndpointSliceEndpoints env (pre ++ [src]) nodes translator listResult
        clusterName).remotes =
        (RemoteEndpointSliceEndpoints env pre nodes translator listResult clusterName).remotes
          ++ emitted ∧
      ∀ e ∈ emitted, e.Hostname = src.Hostname ∧ e.Zone = src.Zone ∧ e.Hints = src.Hints ∧
        e.Conditions.Ready = src.Conditions.Ready ∧ e.Conditions.Serving = none ∧
        e.Conditions.Terminating = none := by
  refine ⟨(forgeStep env nodes translator (shortcutcidrs listResult clusterName) ⟨[], [], []⟩
    src).remotes, ?_, ?_⟩
  · rw [RemoteEndpointSliceEndpoints_append, forgeStep_append]
  · intro e he
    obtain ⟨addresses, ref, rfl⟩ := forgeStep_remotes_forged env nodes translator _ src e he
    simp [forgedEndpoint]

/-- C12. First match wins: for every address and every list of well-formed IPv4
pairs, the scan of the pairs for the address emits at most one
shortcut endpoint: none when no `PodCIDR` contains the address, and otherwise exactly one,
whose address is `RemapAddressUsingCidr` of the address with the
`ShortcutPodCIDR` of the first pair in list order whose `PodCIDR` contains the
address, whatever pairs follow it. -/
theorem first_match_wins (env : ForgeEnv) (loc : Endpoint) (a : String)
    (cidrs : List CidrInfo) (st : ScanState)
    (hwf : ∀ p ∈ cidrs, isIPv4CIDR p.PodCIDR = true ∧ isIPv4CIDR p.ShortcutPodCIDR = true) :
    ((∀ q ∈ cidrs, IpBelongsToCIDR a q.PodCIDR ≠ .ok true) →
      cidrLoop env loc ⟨loc.Conditions.Ready, none, none⟩ a cidrs st = st) ∧
    ∀ (l1 l2 : List CidrInfo) (p : CidrInfo), cidrs = l1 ++ p :: l2 →
      (∀ q ∈ l1, IpBelongsToCIDR a q.PodCIDR ≠ .ok true) →
      IpBelongsToCIDR a p.PodCIDR = .ok true →
      ∃ r : String, RemapAddressUsingCidr a p.ShortcutPodCIDR = .ok [r] ∧
        cidrLoop env loc ⟨loc.Conditions.Ready, none, none⟩ a cidrs st =
          { emitted := st.emitted ++
              [forgedEndpoint env loc [r] (RemoteEndpointTargetRef env st.targetRef)]
            shortcutAddresses := st.shortcutAddresses ++ [r]
            shortcutFound := true
            targetRef := RemoteEndpointTargetRef env st.targetRef } := by
  refine ⟨?_, ?_⟩
  · intro h
    rw [cidrLoop_eq, resolveShortcut_none_of_no_pair a cidrs h]
  · intro l1 l2 p hc hl1 hp
    have hmem : p ∈ cidrs := by rw [hc]; simp
    obtain ⟨r, hr⟩ := RemapAddressUsingCidr_ok_of_belongs a p (hwf p hmem).1 (hwf p hmem).2 hp
    refine ⟨r, hr, ?_⟩
    rw [cidrLoop_eq, hc, resolveShortcut_first a p l2 [r] hp hr l1 hl1]
    rfl

/-- C12 on the scenario with overlapping ranges: `10.0.1.5` lies in `10.0.0.0/16`
and in `10.0.1.0/24`; it is remapped by the first pair only, to `10.244.1.5`. -/
theorem first_match_wins_witness :
    (RemoteEndpointSliceEndpoints sampleEnv [sampleEndpoint ["10.0.1.5"] none] sampleNodes
      (fun l => l) overlappingConnections "cluster-b").remotes.map (fun e => e.Addresses)
      = [["10.244.1.5"]] ∧
    ∃ r : String, RemapAddressUsingCidr "10.0.1.5"
        (CidrInfo.mk "10.0.0.0/16" "10.244.0.0/16").ShortcutPodCIDR = .ok [r] ∧
      cidrLoop sampleEnv (sampleEndpoint ["10.0.1.5"] none)
          ⟨(sampleEndpoint ["10.0.1.5"] none).Conditions.Ready, none, none⟩ "10.0.1.5"
          [⟨"10.0.0.0/16", "10.244.0.0/16"⟩, ⟨"10.0.1.0/24", "10.245.0.0/24"⟩]
          ⟨[], [], false, none⟩ =
        { emitted := (ScanState.mk [] [] false none).emitted ++
            [forgedEndpoint sampleEnv (sampleEndpoint ["10.0.1.5"] none) [r]
              (RemoteEndpointTargetRef sampleEnv (ScanState.mk [] [] false none).targetRef)]
          shortcutAddresses := (ScanState.mk [] [] false none).shortcutAddresses ++ [r]
          shortcutFound := true
          targetRef := RemoteEndpointTargetRef sampleEnv
            (ScanState.mk [] [] false none).targetRef } :=
  ⟨by decide, (first_match_wins sampleEnv (sampleEndpoint ["10.0.1.5"] none) "10.0.1.5"
    [⟨"10.0.0.0/16", "10.244.0.0/16"⟩, ⟨"10.0.1.0/24", "10.245.0.0/24"⟩] ⟨[], [], false, none⟩
    (by decide)).2 [] [⟨"10.0.1.0/24", "10.245.0.0/24"⟩] ⟨"10.0.0.0/16", "10.244.0.0/16"⟩ rfl
    (by simp) (by decide)⟩

/-- C17. For every IPv4 address and every list of well-formed IPv4 pairs none of
whose `PodCIDR` contains the address, resolution reports no match and no error:
`IpBelongsToCIDR` returns `(false, nil)` for each pair, the scan of the pairs
emits no shortcut endpoint for the address and adds nothing to the
shortcut-address list. -/
theorem no_match_and_no_error_outside_every_PodCIDR (env : ForgeEnv) (loc : Endpoint)
    (a : String) (cidrs : List CidrInfo) (st : ScanState)
    (ha : isIPv4Address a = true)
    (hwf : ∀ p ∈ cidrs, isIPv4CIDR p.PodCIDR = true ∧ isIPv4CIDR p.ShortcutPodCIDR = true)
    (hout : ∀ p ∈ cidrs, cidrContains a p.PodCIDR = false) :
    (∀ p ∈ cidrs, IpBelongsToCIDR a p.PodCIDR = .ok false) ∧
    resolveShortcut a cidrs = none ∧
    cidrLoop env loc ⟨loc.Conditions.Ready, none, none⟩ a cidrs st = st := by
  have h1 : ∀ p ∈ cidrs, IpBelongsToCIDR a p.PodCIDR = .ok false := by
    intro p hp
    rw [IpBelongsToCIDR_eq_cidrContains a _ ha (hwf p hp).1, hout p hp]
  have h2 : resolveShortcut a cidrs = none :=
    resolveShortcut_none_of_no_pair a cidrs (fun q hq => by rw [h1 q hq]; simp)
  exact ⟨h1, h2, by rw [cidrLoop_eq, h2]⟩

/-- C17 on a scenario: `10.0.9.9` lies in neither `10.0.0.0/24` nor `10.0.1.0/24`. -/
theorem no_match_and_no_error_outside_every_PodCIDR_witness :
    (∀ p ∈ [CidrInfo.mk "10.0.0.0/24" "10.244.0.0/24", CidrInfo.mk "10.0.1.0/24" "10.245.0.0/24"],
      IpBelongsToCIDR "10.0.9.9" p.PodCIDR = .ok false) ∧
    resolveShortcut "10.0.9.9"
      [CidrInfo.mk "10.0.0.0/24" "10.244.0.0/24", CidrInfo.mk "10.0.1.0/24" "10.245.0.0/24"]
      = none ∧
    cidrLoop sampleEnv (sampleEndpoint ["10.0.9.9"] none)
      ⟨(sampleEndpoint ["10.0.9.9"] none).Conditions.Ready, none, none⟩ "10.0.9.9"
      [CidrInfo.mk "10.0.0.0/24" "10.244.0.0/24", CidrInfo.mk "10.0.1.0/24" "10.245.0.0/24"]
      ⟨[], [], false, none⟩ = ⟨[], [], false, none⟩ :=
  no_match_and_no_error_outside_every_PodCIDR sampleEnv (sampleEndpoint ["10.0.9.9"] none)
    "10.0.9.9"
    [CidrInfo.mk "10.0.0.0/24" "10.244.0.0/24", CidrInfo.mk "10.0.1.0/24" "10.245.0.0/24"]
    ⟨[], [], false, none⟩ (by decide) (by decide) (by decide)

/-- C19, at the failing input: a source endpoint of kind `Pod` two of whose
addresses match the shortcut. Both emitted endpoints hold the pointer
`local.TargetRef`, and `RemoteEndpointTargetRef` overwrites the kind of that one
object at each emission: both show `RemoteKind` applied twice. -/
theorem RemoteKind_applied_once_per_matched_address :
    (sampleEndpoint ["10.0.1.5", "10.0.1.7"] none).TargetRef.map (fun t => t.Kind) = some "Pod" ∧
    sampleEnv.RemoteKind "Pod" = "RemotePod" ∧
    (RemoteEndpointSliceEndpoints sampleEnv [sampleEndpoint ["10.0.1.5", "10.0.1.7"] none]
      sampleNodes (fun l => l) sampleConnections "cluster-b").remotes.map (fun e => e.Addresses)
      = [["10.244.0.5"], ["10.244.0.7"]] ∧
    (RemoteEndpointSliceEndpoints sampleEnv [sampleEndpoint ["10.0.1.5", "10.0.1.7"] none]
      sampleNodes (fun l => l) sampleConnections "cluster-b").remotes.map
        (fun e => e.TargetRef.map (fun t => t.Kind))
      = [some "RemoteRemotePod", some "RemoteRemotePod"] := by
  decide

/-- C13, at the failing input: the first endpoint has no `TargetRef` and its address
is in the shortcut-address list, the mapper fails on the address of the
second endpoint. The run stops on the nil pointer dereference of the log call at the
first endpoint; it never reaches the failing address and returns no error. -/
theorem MapEndpointsWithConfiguration_stops_before_mapper_error :
    MapEndpointsWithConfiguration (fun a => .error ("no mapping for " ++ a))
      [bareEndpoint ["10.244.0.5"], bareEndpoint ["10.0.9.9"]] ["10.244.0.5"] =
      { endpoints := [bareEndpoint ["10.244.0.5"], bareEndpoint ["10.0.9.9"]]
        outcome := .nilDereference
        mapperCalls := [] } := by
  decide

/-- C18. For every value `ns` of `POD_NAMESPACE`, `GetClusterNameFromNamespace`
returns `s` when `ns` is `liqo-tenant-` followed by a non-empty `s`, and the empty
string for every other `ns` (no such prefix, empty, or the bare prefix). -/
theorem GetClusterNameFromNamespace_strips_liqo_tenant (ns : String) :
    (∀ s : String, s ≠ "" → ns = "liqo-tenant-" ++ s → GetClusterNameFromNamespace ns = s) ∧
    ((¬ ∃ s : String, s ≠ "" ∧ ns = "liqo-tenant-" ++ s) →
      GetClusterNameFromNamespace ns = "") := by
  constructor
  · intro s hs hns
    subst hns
    have hsl : s.data ≠ [] := by
      intro h; apply hs; cases s; simp_all
    have h1 : "liqo-tenant-" ++ s ≠ "" := by
      intro h
      have := congrArg String.data h
      simp at this
    have h2 : ("liqo-tenant-" ++ s).utf8ByteSize > "liqo-tenant-".utf8ByteSize := by
      have e : ("liqo-tenant-" ++ s).utf8ByteSize =
          "liqo-tenant-".utf8ByteSize + s.utf8ByteSize := by
        show String.utf8Len ("liqo-tenant-".data ++ s.data) =
          String.utf8Len "liqo-tenant-".data + String.utf8Len s.data
        exact String.utf8Len_append _ _
      have hpos : 0 < s.utf8ByteSize := by
        have : s.utf8ByteSize ≠ 0 := by
          intro h0
          apply hsl
          exact String.utf8Len_eq_zero.1 h0
        omega
      omega
    have h3 : "liqo-tenant-".toList <+: ("liqo-tenant-" ++ s).toList := by
      simp [String.toList]
    unfold GetClusterNameFromNamespace
    rw [if_pos ⟨h1, h2, h3⟩]
    have : ("liqo-tenant-" ++ s).toList = "liqo-tenant-".toList ++ s.toList := by
      simp [String.toList]
    rw [this]
    have hl : "liqo-tenant-".length = "liqo-tenant-".toList.length := rfl
    rw [hl, List.drop_left]
    rfl
  · intro hno
    unfold GetClusterNameFromNamespace
    split
    · rename_i h
      exfalso
      apply hno
      obtain ⟨_, h2, t, ht⟩ := h
      refine ⟨String.mk t, ?_, ?_⟩
      · intro h0
        have ht0 : t = [] := by
          have := congrArg String.data h0
          simpa using this
        subst ht0
        have e : ns = "liqo-tenant-" := by
          apply String.ext
          simpa [String.toList] using ht.symm
        rw [e] at h2
        exact absurd h2 (by decide)
      · apply String.ext
        simpa [String.toList] using ht.symm
    · rfl

/-- C18 on examples: the name after the prefix is returned; the bare prefix, the
empty namespace and a namespace without the prefix give the empty string. -/
theorem GetClusterNameFromNamespace_strips_liqo_tenant_witness :
    GetClusterNameFromNamespace ("liqo-tenant-" ++ "cluster-b") = "cluster-b" ∧
    GetClusterNameFromNamespace "liqo-tenant-" = "" ∧
    GetClusterNameFromNamespace "" = "" ∧
    GetClusterNameFromNamespace "default" = "" :=
  ⟨(GetClusterNameFromNamespace_strips_liqo_tenant ("liqo-tenant-" ++ "cluster-b")).1 "cluster-b"
      (by decide) rfl,
    by decide, by decide, by decide⟩

/-- C20. Shortcut remapping introduces no address collisions: for every `CidrInfo`
whose `PodCIDR` and `ShortcutPodCIDR` are well-formed IPv4 CIDRs with the same
prefix length, `RemapAddressUsingCidr` with `ShortcutPodCIDR` returns distinct
remapped addresses for any two distinct IPv4 addresses inside `PodCIDR`. -/
theorem remap_has_no_collisions (a1 a2 : String) (p : CidrInfo)
    (ha1 : isIPv4Address a1 = true) (ha2 : isIPv4Address a2 = true)
    (hpod : isIPv4CIDR p.PodCIDR = true) (hsc : isIPv4CIDR p.ShortcutPodCIDR = true)
    (hlen : prefixLength p.PodCIDR = prefixLength p.ShortcutPodCIDR)
    (hin1 : IpBelongsToCIDR a1 p.PodCIDR = .ok true)
    (hin2 : IpBelongsToCIDR a2 p.PodCIDR = .ok true)
    (hne : a1 ≠ a2) :
    ∃ r1 r2 : String, RemapAddressUsingCidr a1 p.ShortcutPodCIDR = .ok [r1] ∧
      RemapAddressUsingCidr a2 p.ShortcutPodCIDR = .ok [r2] ∧ r1 ≠ r2 := by
  obtain ⟨x0, x1, x2, x3, hx, hx0, hx1, hx2, hx3⟩ := isIPv4Address_bytes a1 ha1
  obtain ⟨y0, y1, y2, y3, hy, hy0, hy1, hy2, hy3⟩ := isIPv4Address_bytes a2 ha2
  obtain ⟨p0, p1, p2, p3, m0, m1, m2, m3, hm0, hm1, hm2, hm3, hpp⟩ := isIPv4CIDR_iff _ hpod
  obtain ⟨q0, q1, q2, q3, k0, k1, k2, k3, _, _, _, _, hqq⟩ := isIPv4CIDR_iff _ hsc
  -- the two masks are the same
  obtain ⟨n, hn, hmask⟩ := ParseCIDR_v4_mask _ _ hpp rfl
  obtain ⟨n1, hn1, hmask1⟩ := ParseCIDR_v4_mask _ _ hqq rfl
  have hnn : n = n1 := by
    rw [hn, hn1] at hlen
    exact Option.some.inj hlen
  have hk : [k0, k1, k2, k3] = [m0, m1, m2, m3] := by
    simp only at hmask hmask1
    rw [hmask, hmask1, hnn]
  simp only [List.cons.injEq, and_true] at hk
  obtain ⟨rfl, rfl, rfl, rfl⟩ := hk
  -- both addresses agree with the observed network under the mask
  rw [IpBelongsToCIDR_v4 _ _ _ _ _ _ _ _ _ _ _ _ _ _ hx hpp] at hin1
  rw [IpBelongsToCIDR_v4 _ _ _ _ _ _ _ _ _ _ _ _ _ _ hy hpp] at hin2
  simp only [Except.ok.injEq, decide_eq_true_eq] at hin1 hin2
  obtain ⟨e0, e1, e2, e3⟩ := hin1
  obtain ⟨g0, g1, g2, g3⟩ := hin2
  have hr1 := RemapAddressUsingCidr_v4 a1 _ _ _ _ _ _ _ _ _ _ _ _ _ hx hqq
  have hr2 := RemapAddressUsingCidr_v4 a2 _ _ _ _ _ _ _ _ _ _ _ _ _ hy hqq
  refine ⟨_, _, hr1, hr2, ?_⟩
  intro heq
  have hb1 := ParseAddr_IPv4String (remapByte (q0 &&& k0) k0 x0) (remapByte (q1 &&& k1) k1 x1)
    (remapByte (q2 &&& k2) k2 x2) (remapByte (q3 &&& k3) k3 x3) (remap_byte_lt _ _ _ hm0)
    (remap_byte_lt _ _ _ hm1) (remap_byte_lt _ _ _ hm2) (remap_byte_lt _ _ _ hm3)
  have hb2 := ParseAddr_IPv4String (remapByte (q0 &&& k0) k0 y0) (remapByte (q1 &&& k1) k1 y1)
    (remapByte (q2 &&& k2) k2 y2) (remapByte (q3 &&& k3) k3 y3) (remap_byte_lt _ _ _ hm0)
    (remap_byte_lt _ _ _ hm1) (remap_byte_lt _ _ _ hm2) (remap_byte_lt _ _ _ hm3)
  rw [heq, hb2] at hb1
  simp only [Option.some.injEq, Addr.v4.injEq, List.cons.injEq, and_true] at hb1
  obtain ⟨f0, f1, f2, f3⟩ := hb1
  have c0 : x0 = y0 := remapByte_injective _ _ _ _ hx0 hy0 hm0 (e0.symm.trans g0) f0.symm
  have c1 : x1 = y1 := remapByte_injective _ _ _ _ hx1 hy1 hm1 (e1.symm.trans g1) f1.symm
  have c2 : x2 = y2 := remapByte_injective _ _ _ _ hx2 hy2 hm2 (e2.symm.trans g2) f2.symm
  have c3 : x3 = y3 := remapByte_injective _ _ _ _ hx3 hy3 hm3 (e3.symm.trans g3) f3.symm
  subst c0 c1 c2 c3
  exact hne (ParseAddr_v4_injective a1 a2 _ _ _ _ hx hy)

/-- C20 on a scenario: `10.0.1.5` and `10.0.1.6`, both in `10.0.1.0/24`, are
remapped into `10.244.0.0/24` to the distinct addresses `10.244.0.5` and
`10.244.0.6`. -/
theorem remap_has_no_collisions_witness :
    RemapAddressUsingCidr "10.0.1.5" "10.244.0.0/24" = .ok ["10.244.0.5"] ∧
    RemapAddressUsingCidr "10.0.1.6" "10.244.0.0/24" = .ok ["10.244.0.6"] ∧
    ∃ r1 r2 : String,
      RemapAddressUsingCidr "10.0.1.5" (CidrInfo.mk "10.0.1.0/24" "10.244.0.0/24").ShortcutPodCIDR
        = .ok [r1] ∧
      RemapAddressUsingCidr "10.0.1.6" (CidrInfo.mk "10.0.1.0/24" "10.244.0.0/24").ShortcutPodCIDR
        = .ok [r2] ∧ r1 ≠ r2 :=
  ⟨by decide, by decide, remap_has_no_collisions "10.0.1.5" "10.0.1.6"
    ⟨"10.0.1.0/24", "10.244.0.0/24"⟩ (by decide) (by decide) (by decide) (by decide) (by decide)
    (by decide) (by decide) (by decide)⟩

/-- C16. `RemoteShadowEndpointSlice` publishes the shortcut addresses as the single
label `liqo.io/shortcut-addresses`: when the shortcut-address list returned by
`RemoteEndpointSliceEndpoints` is non-empty, the value of the label is its
comma-join, splitting that value on `,` gives the list back, and the other labels
are those of `RemoteEndpointSliceObjectMeta`; when the list is empty the
metadata are those of `RemoteEndpointSliceObjectMeta`, without added label. -/
theorem shortcut_label_is_the_comma_join (env : ForgeEnv) (menv : MetaEnv) (loc : EndpointSlice)
    (remote : Option ShadowEndpointSlice) (nodes : NodeLister) (targetNamespace : String)
    (translator : EndpointTranslator) (forgingOpts : ForgingOpts)
    (listResult : Except String (List ForeignClusterConnection)) (clusterName : String) :
    ((RemoteEndpointSliceEndpoints env loc.Endpoints nodes translator listResult
        clusterName).shortcutAddresses ≠ [] →
      (RemoteShadowEndpointSlice env menv loc remote nodes targetNamespace translator forgingOpts
        listResult clusterName).ObjectMeta.Labels.lookup "liqo.io/shortcut-addresses" =
        some (stringsJoin (RemoteEndpointSliceEndpoints env loc.Endpoints nodes translator
          listResult clusterName).shortcutAddresses ",") ∧
      stringsSplit (stringsJoin (RemoteEndpointSliceEndpoints env loc.Endpoints nodes translator
          listResult clusterName).shortcutAddresses ",") ',' =
        (RemoteEndpointSliceEndpoints env loc.Endpoints nodes translator listResult
          clusterName).shortcutAddresses ∧
      ∀ key, key ≠ "liqo.io/shortcut-addresses" →
        (RemoteShadowEndpointSlice env menv loc remote nodes targetNamespace translator
          forgingOpts listResult clusterName).ObjectMeta.Labels.lookup key =
        (RemoteEndpointSliceObjectMeta menv loc.ObjectMeta
          (remoteMetaOrNew loc remote targetNamespace) forgingOpts).Labels.lookup key) ∧
    ((RemoteEndpointSliceEndpoints env loc.Endpoints nodes translator listResult
        clusterName).shortcutAddresses = [] →
      (RemoteShadowEndpointSlice env menv loc remote nodes targetNamespace translator forgingOpts
        listResult clusterName).ObjectMeta =
        RemoteEndpointSliceObjectMeta menv loc.ObjectMeta
          (remoteMetaOrNew loc remote targetNamespace) forgingOpts) := by
  constructor
  · intro hne
    have hpos : (RemoteEndpointSliceEndpoints env loc.Endpoints nodes translator listResult
        clusterName).shortcutAddresses.length > 0 := List.length_pos.2 hne
    rw [RemoteShadowEndpointSlice_meta, if_pos hpos]
    refine ⟨lookup_mapSet_self _ _ _, ?_, fun key hk => lookup_mapSet_ne _ _ _ _ hk⟩
    apply stringsSplit_stringsJoin _ hne
    intro e he c hc
    obtain ⟨ip, rfl⟩ := shortcutAddresses_dotted env loc.Endpoints nodes translator listResult
      clusterName e he
    exact IPv4String_no_comma ip c hc
  · intro hnil
    rw [RemoteShadowEndpointSlice_meta, hnil]
    rfl

/-- C16 on a scenario: two addresses of one endpoint match the shortcut, and the
label holds `10.244.0.5,10.244.0.7`, which splits into the two addresses. -/
theorem shortcut_label_is_the_comma_join_witness :
    (RemoteShadowEndpointSlice sampleEnv sampleMetaEnv
      (sampleSlice [sampleEndpoint ["10.0.1.5", "10.0.1.7"] none]) none sampleNodes "remote-ns"
      (fun l => l) ⟨[], []⟩ sampleConnections "cluster-b").ObjectMeta.Labels.lookup
        "liqo.io/shortcut-addresses" = some "10.244.0.5,10.244.0.7" ∧
    stringsSplit "10.244.0.5,10.244.0.7" ',' = ["10.244.0.5", "10.244.0.7"] ∧
    (RemoteShadowEndpointSlice sampleEnv sampleMetaEnv
      (sampleSlice [sampleEndpoint ["10.0.9.9"] none]) none sampleNodes "remote-ns"
      (fun l => l) ⟨[], []⟩ sampleConnections "cluster-b").ObjectMeta =
      RemoteEndpointSliceObjectMeta sampleMetaEnv
        (sampleSlice [sampleEndpoint ["10.0.9.9"] none]).ObjectMeta
        (remoteMetaOrNew (sampleSlice [sampleEndpoint ["10.0.9.9"] none]) none "remote-ns")
        ⟨[], []⟩ :=
  ⟨by decide, by decide,
    (shortcut_label_is_the_comma_join sampleEnv sampleMetaEnv
      (sampleSlice [sampleEndpoint ["10.0.9.9"] none]) none sampleNodes "remote-ns" (fun l => l)
      ⟨[], []⟩ sampleConnections "cluster-b").2 (by decide)⟩

end Liqo
